import Mathlib

/-!
A verification development for the path tracer.

The renderer's geometry (`Sphere`, `Cylinder`, `Triangle`, `HittableList`),
its hit record, its lights (`PointLight`, `AreaLight`), its integrators
(`Camera.binary`, `Camera.blinn_phong`, `Camera.pathtrace`,
`Material.getShading`) and its output functions (`write_color`, `halton`,
`Texture.getTextureColor`) are embedded as Lean functions and their contracts
are proved or refuted.

Conventions of the embedding.

* Numbers.  The C++ code computes with `double` (and a few `float` locals).
  Here every number is an element of a linearly ordered field `K`, so the
  arithmetic is exact: rounding, NaN and overflow are not modelled, and a
  narrowing `float x = ...` is the identity.  The definitions are computable,
  so they can be run on `ℚ`.
* `<cmath>`.  The square root is a parameter (`CMath.sqrt`) of the functions
  that call it; a theorem that needs the square root to be exact says so, at
  the one argument it is called with (`ExactSqrt`).
* `INFTY`.  The upper end of an `interval` is a `WithTop K`, with `⊤` for the
  constant `INFTY`.
* Out-parameters.  `bool intersect(const Ray&, interval, HitRecord& rec)` is a
  function from the record passed in to the returned flag and the record left
  behind, `Ray → interval → HitRecord → Bool × HitRecord`.
* Dynamic dispatch.  `Material` is a closed inductive type with one
  constructor for each class of the program; a `Hittable` is the record of
  its two virtual methods.
* Random numbers.  A function that draws random numbers takes the state `σ`
  of the generators and returns the new state (`Random`).
* Null pointers.  A `shared_ptr` is an `Option`; a function that dereferences
  a null pointer returns `none`.
* Recursion.  `Camera.pathtrace` and `Material.getShading_traced` are defined
  by well-founded recursion on `max(depth, 0)`.  The nesting of their
  recursive calls is a second result component, which the code does not have.
-/

namespace Pathtracer

/-! ## Math primitives -/

/-- Modelled from the spec: `math/vec3.h` is not among the sources.  A vector,
point or colour has three floating-point components (spec, section 3). -/
structure vec3 (K : Type) where
  x : K
  y : K
  z : K
deriving DecidableEq, Repr

namespace vec3

variable {K : Type}

/-- Componentwise sum, `u + v`. -/
def add [Add K] (u v : vec3 K) : vec3 K := ⟨u.x + v.x, u.y + v.y, u.z + v.z⟩

/-- Componentwise difference, `u - v`. -/
def sub [Sub K] (u v : vec3 K) : vec3 K := ⟨u.x - v.x, u.y - v.y, u.z - v.z⟩

/-- Unary minus, `-v`. -/
def neg [Neg K] (v : vec3 K) : vec3 K := ⟨-v.x, -v.y, -v.z⟩

/-- Scaling, `t * v` and `v * t`. -/
def smul [Mul K] (t : K) (v : vec3 K) : vec3 K := ⟨t * v.x, t * v.y, t * v.z⟩

/-- Componentwise product, `u * v` (used on colours). -/
def mul [Mul K] (u v : vec3 K) : vec3 K := ⟨u.x * v.x, u.y * v.y, u.z * v.z⟩

/-- Division by a scalar, `v / t`, that is `(1/t) * v`. -/
def sdiv [Mul K] [Div K] [One K] (v : vec3 K) (t : K) : vec3 K := smul (1 / t) v

instance [Add K] : Add (vec3 K) := ⟨add⟩
instance [Sub K] : Sub (vec3 K) := ⟨sub⟩
instance [Neg K] : Neg (vec3 K) := ⟨neg⟩

/-- The function `dot(u, v)`. -/
def dot [Add K] [Mul K] (u v : vec3 K) : K := u.x * v.x + u.y * v.y + u.z * v.z

/-- The function `cross(u, v)`. -/
def cross [Sub K] [Mul K] (u v : vec3 K) : vec3 K :=
  ⟨u.y * v.z - u.z * v.y, u.z * v.x - u.x * v.z, u.x * v.y - u.y * v.x⟩

/-- The method `length_squared()`. -/
def length_squared [Add K] [Mul K] (v : vec3 K) : K := v.x * v.x + v.y * v.y + v.z * v.z

/-- The method `length()`, `sqrt(length_squared())`. -/
def length [Add K] [Mul K] (sqrt : K → K) (v : vec3 K) : K := sqrt (length_squared v)

/-- The function `unit_vector(v)`, `v / v.length()`. -/
def unit_vector [Add K] [Mul K] [Div K] [One K] (sqrt : K → K) (v : vec3 K) : vec3 K :=
  sdiv v (length sqrt v)

end vec3

/-- Modelled from the spec: `core/Ray.h` is not among the sources.  A ray is
an origin and a direction (spec, section 3). -/
structure Ray (K : Type) where
  origin : vec3 K
  direction : vec3 K
deriving DecidableEq, Repr

/-- The method `Ray::at(t)`: the point `origin + t * direction`. -/
def Ray.at {K : Type} [Add K] [Mul K] (r : Ray K) (t : K) : vec3 K :=
  r.origin + vec3.smul t r.direction

/-- Modelled from the spec: `math/interval.h` is not among the sources.  A
range `[min, max]` with a containment test and a surrounds test (spec,
section 3); `max` may be `INFTY`, written `⊤`. -/
structure interval (K : Type) where
  min : K
  max : WithTop K

/-- The method `interval::contains(x)`: `min <= x && x <= max`. -/
def interval.contains {K : Type} [LinearOrder K] (i : interval K) (x : K) : Bool :=
  decide (i.min ≤ x) && decide ((x : WithTop K) ≤ i.max)

/-- The method `interval::surrounds(x)`: `min < x && x < max`. -/
def interval.surrounds {K : Type} [LinearOrder K] (i : interval K) (x : K) : Bool :=
  decide (i.min < x) && decide ((x : WithTop K) < i.max)

/-- The square root is exact at `x`: `sqrt x` is the non-negative number whose
square is `x`. -/
def ExactSqrt {K : Type} [LinearOrderedField K] (sqrt : K → K) (x : K) : Prop :=
  0 ≤ sqrt x ∧ sqrt x * sqrt x = x

/-- The functions of `<cmath>` that the program calls.  They are parameters of
the model: nothing is assumed about them except where a theorem says so. -/
structure CMath (K : Type) where
  sqrt : K → K
  acos : K → K
  atan2 : K → K → K
  pow : K → K → K
  exp : K → K
  tan : K → K
  cos : K → K
  sin : K → K

/-- The conversion `static_cast<int>(x)` of a floating-point number: the
fraction is dropped (rounding toward zero).  Values outside the range of `int`
are not modelled. -/
def static_cast_int {K : Type} [LinearOrderedField K] [FloorRing K] (x : K) : Int :=
  if 0 ≤ x then ⌊x⌋ else ⌈x⌉

/-- Modelled from the spec: the method `interval::clamp(x)` of the missing
`math/interval.h`, which brings `x` into `[min, max]` (section 3). -/
def interval.clamp {K : Type} [LinearOrder K] (i : interval K) (x : K) : K :=
  if x < i.min then i.min
  else
    match i.max with
    | none => x
    | some M => if M < x then M else x

/-- The constant `PI` of utils.h. -/
def PI {K : Type} [LinearOrderedField K] : K := 3.1415926535897932385

/-- Modelled from the spec: `geometry/aabb.h` is not among the sources.  An
axis-aligned bounding box is a minimum and a maximum corner (spec, section 3). -/
structure aabb (K : Type) where
  minimum : vec3 K
  maximum : vec3 K
deriving DecidableEq, Repr

namespace aabb

variable {K : Type} [LinearOrderedField K]

/-- Modelled from the spec: the constructor `aabb(a, b)` from two points, the
box with these two points as opposite corners. -/
def of_points (a b : vec3 K) : aabb K :=
  ⟨⟨min a.x b.x, min a.y b.y, min a.z b.z⟩, ⟨max a.x b.x, max a.y b.y, max a.z b.z⟩⟩

/-- Modelled from the spec: the constructor `aabb(box0, box1)`, the union
(merge) of two boxes. -/
def union (box0 box1 : aabb K) : aabb K :=
  ⟨⟨min box0.minimum.x box1.minimum.x, min box0.minimum.y box1.minimum.y,
      min box0.minimum.z box1.minimum.z⟩,
    ⟨max box0.maximum.x box1.maximum.x, max box0.maximum.y box1.maximum.y,
      max box0.maximum.z box1.maximum.z⟩⟩

/-- Modelled from the spec: one axis of the ray-slab test.  The ray
`o + t*d` is between `lo` and `hi` on this axis for `t` between `(lo - o)/d`
and `(hi - o)/d`; the interval is cut down to these parameters and the test
fails when nothing is left.  A ray that does not move along the axis passes
when its origin is between `lo` and `hi`. -/
def slab (lo hi o d : K) (ray_t : interval K) : Option (interval K) :=
  if d = 0 then
    if lo ≤ o ∧ o ≤ hi then some ray_t else none
  else
    let t0 := if d < 0 then (hi - o) / d else (lo - o) / d
    let t1 := if d < 0 then (lo - o) / d else (hi - o) / d
    let tmin := max t0 ray_t.min
    let tmax := min (t1 : WithTop K) ray_t.max
    if tmax ≤ (tmin : WithTop K) then none else some ⟨tmin, tmax⟩

/-- Modelled from the spec: the method `aabb::hit(r, ray_t)`, the
interval-restricted ray-slab intersection test (sections 3 and 4.2). -/
def hit (box : aabb K) (r : Ray K) (ray_t : interval K) : Bool :=
  match slab box.minimum.x box.maximum.x r.origin.x r.direction.x ray_t with
  | none => false
  | some tx =>
    match slab box.minimum.y box.maximum.y r.origin.y r.direction.y tx with
    | none => false
    | some ty =>
      (slab box.minimum.z box.maximum.z r.origin.z r.direction.z ty).isSome

end aabb

/-! ## Materials and the hit record -/

/-- The struct `Color` of Texture.h: one pixel of a loaded texture. -/
structure Color where
  r : Int
  g : Int
  b : Int
deriving DecidableEq, Repr

/-- The class `Texture`: the rows of pixels read from the image file. -/
structure Texture where
  texture : List (List Color)
deriving DecidableEq, Repr

/-- The classes derived from `Material`, with their data members.  A
`shared_ptr<Texture>` is an `Option Texture`, `none` for the null pointer. -/
inductive Material (K : Type) where
  | Lambertian (albedo : vec3 K) (texture : Option Texture)
  | SchlickRefractionsBRDF (fresnelReflectance : K)
  | SchlickBRDF (fresnelReflectance : K)
  | BlinnPhong (texture : Option Texture) (diffuse_color specular_color : vec3 K)
      (specular_exponent ks kd reflectivity refractiveIndex : K)
      (is_reflective is_refractive : Bool) (transparency : K)
deriving DecidableEq, Repr

/-- The virtual method `Material::isTextured()`. -/
def Material.isTextured {K : Type} : Material K → Bool
  | .Lambertian _ texture => texture.isSome
  | .SchlickRefractionsBRDF _ => false
  | .SchlickBRDF _ => false
  | .BlinnPhong texture _ _ _ _ _ _ _ _ _ _ => texture.isSome

/-- The class `HitRecord`.  `mat` is a `shared_ptr<Material>`, `none` for the
null pointer. -/
structure HitRecord (K : Type) where
  p : vec3 K
  normal : vec3 K
  mat : Option (Material K)
  t : K
  front_face : Bool
  texture_u : K
  texture_v : K
deriving DecidableEq, Repr

/-- The method `HitRecord::set_face_normal(r, outward_normal)`. -/
def HitRecord.set_face_normal {K : Type} [LinearOrderedField K]
    (rec : HitRecord K) (r : Ray K) (outward_normal : vec3 K) : HitRecord K :=
  let front_face := decide (vec3.dot r.direction outward_normal < 0)
  { rec with front_face := front_face
             normal := if front_face then outward_normal else -outward_normal }

/-- The method `HitRecord::set_uv(u, v)`. -/
def HitRecord.set_uv {K : Type} (rec : HitRecord K) (u v : K) : HitRecord K :=
  { rec with texture_u := u, texture_v := v }

/-- The abstract class `Hittable`: its two pure virtual methods. -/
structure Hittable (K : Type) where
  intersect : Ray K → interval K → HitRecord K → Bool × HitRecord K
  bounding_box : aabb K

/-! ## HittableList -/

/-- The local variables of `HittableList::intersect` and its out-parameter `rec`. -/
structure HittableList.State (K : Type) where
  temp_rec : HitRecord K
  hit_anything : Bool
  closest_so_far : WithTop K
  rec_out : HitRecord K

/-- One iteration of the loop of `HittableList::intersect`. -/
def HittableList.step {K : Type} (r : Ray K) (ray_t : interval K)
    (s : HittableList.State K) (object : Hittable K) : HittableList.State K :=
  let res := object.intersect r ⟨ray_t.min, s.closest_so_far⟩ s.temp_rec
  if res.1 then
    { temp_rec := res.2, hit_anything := true, closest_so_far := (res.2.t : WithTop K),
      rec_out := res.2 }
  else
    { s with temp_rec := res.2 }

/-- The method `HittableList::intersect` over the vector `objects`.  The local
`temp_rec` is declared without an initialiser, so its first value is a
parameter. -/
def HittableList.intersect {K : Type} (objects : List (Hittable K)) (temp_rec : HitRecord K)
    (r : Ray K) (ray_t : interval K) (rec : HitRecord K) : Bool × HitRecord K :=
  let s := objects.foldl (HittableList.step r ray_t) ⟨temp_rec, false, ray_t.max, rec⟩
  (s.hit_anything, s.rec_out)

/-- The intersection contract of section 4.1 for the object `o` on the ray
`r`: queried with an interval, `o` returns the nearest of its hits inside the
interval, or no hit when none of its hits lies inside.  The hits of `o` are
the parameters `t` it reports under any query. -/
structure ObeysContract {K : Type} [LinearOrder K] (o : Hittable K) (r : Ray K) : Prop where
  inside : ∀ iv rec0, (o.intersect r iv rec0).1 = true →
    iv.surrounds (o.intersect r iv rec0).2.t = true
  nearest : ∀ iv rec0 iv1 rec1, (o.intersect r iv rec0).1 = true →
    (o.intersect r iv1 rec1).1 = true → iv.surrounds (o.intersect r iv1 rec1).2.t = true →
    (o.intersect r iv rec0).2.t ≤ (o.intersect r iv1 rec1).2.t
  complete : ∀ iv rec0 iv1 rec1, (o.intersect r iv1 rec1).1 = true →
    iv.surrounds (o.intersect r iv1 rec1).2.t = true → (o.intersect r iv rec0).1 = true

/-! ## Sphere -/

/-- The data members of the class `Sphere`.  `mat` is dereferenced on every
hit, so it is a material and not a possibly null pointer. -/
structure Sphere (K : Type) where
  center : vec3 K
  radius : K
  mat : Material K
  rotationAngle : K
  bbox : aabb K

namespace Sphere

variable {K : Type} [LinearOrderedField K]

/-- The constructor `Sphere::Sphere`: the bounding box is
`aabb(center - rvec, center + rvec)`. -/
def new (center : vec3 K) (radius : K) (mat : Material K) (rotationAngle : K) : Sphere K :=
  let rvec : vec3 K := ⟨radius, radius, radius⟩
  ⟨center, radius, mat, rotationAngle, aabb.of_points (center - rvec) (center + rvec)⟩

/-- The static method `Sphere::get_sphere_uv(p, u, v)`; the pair is `(u, v)`. -/
def get_sphere_uv (m : CMath K) (p : vec3 K) : K × K :=
  let theta := m.acos (-p.y)
  let phi := m.atan2 (-p.z) p.x + PI
  (phi / (2 * PI), theta / PI)

/-- The tail of `Sphere::intersect`, from "Record hit information" on: the
record left behind for the accepted root `temp`. -/
def hit_info (m : CMath K) (s : Sphere K) (r : Ray K) (temp : K) (rec : HitRecord K) :
    HitRecord K :=
  let rec1 := { rec with t := temp }
  let rec2 := { rec1 with p := r.at rec1.t }
  let outward_normal := vec3.sdiv (rec2.p - s.center) s.radius
  let rec3 := rec2.set_face_normal r outward_normal
  let rec4 := { rec3 with mat := some s.mat }
  if s.mat.isTextured then
    let uv := get_sphere_uv m outward_normal
    { rec4 with texture_u := uv.1, texture_v := uv.2 }
  else rec4

/-- The local `discriminant` of `Sphere::intersect`, `b*b - a*c`. -/
def discriminant (s : Sphere K) (r : Ray K) : K :=
  let oc := r.origin - s.center
  let a := vec3.dot r.direction r.direction
  let b := vec3.dot oc r.direction
  let c := vec3.dot oc oc - s.radius * s.radius
  b * b - a * c

/-- The method `Sphere::intersect`. -/
def intersect (m : CMath K) (s : Sphere K) (r : Ray K) (ray_t : interval K)
    (rec : HitRecord K) : Bool × HitRecord K :=
  let oc := r.origin - s.center
  let a := vec3.dot r.direction r.direction
  let b := vec3.dot oc r.direction
  let c := vec3.dot oc oc - s.radius * s.radius
  let discriminant := b * b - a * c
  if discriminant < 0 then (false, rec)
  else
    let root := m.sqrt discriminant
    let temp := (-b - root) / a
    if !ray_t.surrounds temp then
      let temp := (-b + root) / a
      if !ray_t.surrounds temp then (false, rec)
      else (true, hit_info m s r temp rec)
    else (true, hit_info m s r temp rec)

/-- A sphere as a `Hittable`. -/
def toHittable (m : CMath K) (s : Sphere K) : Hittable K :=
  ⟨intersect m s, s.bbox⟩

end Sphere

/-! ## Triangle -/

/-- The data members of the class `Triangle` that `intersect` reads: the three
vertices as the constructor stored them. -/
structure Triangle (K : Type) where
  vertex1 : vec3 K
  vertex2 : vec3 K
  vertex3 : vec3 K
  mat : Material K
  bbox : aabb K

namespace Triangle

variable {K : Type} [LinearOrderedField K]

/-- The constant `std::numeric_limits<double>::epsilon()`, which is `2^-52`. -/
def epsilon : K := 1 / 2 ^ 52

/-- The local `normal` of `Triangle::intersect`. -/
def normal (tr : Triangle K) : vec3 K :=
  vec3.cross (tr.vertex2 - tr.vertex1) (tr.vertex3 - tr.vertex1)

/-- The local `t` of `Triangle::intersect`: the parameter at which the ray
meets the plane of the triangle. -/
def plane_t (tr : Triangle K) (r : Ray K) : K :=
  let normal := vec3.cross (tr.vertex2 - tr.vertex1) (tr.vertex3 - tr.vertex1)
  let NdotRayDirection := vec3.dot normal r.direction
  let d := -vec3.dot normal tr.vertex1
  let t := -(vec3.dot r.origin normal + d) / NdotRayDirection
  t

/-- The method `Triangle::intersect`. -/
def intersect (m : CMath K) (tr : Triangle K) (r : Ray K) (ray_t : interval K)
    (rec : HitRecord K) : Bool × HitRecord K :=
  let normal := vec3.cross (tr.vertex2 - tr.vertex1) (tr.vertex3 - tr.vertex1)
  let denom := vec3.dot normal normal
  let NdotRayDirection := vec3.dot normal r.direction
  if |NdotRayDirection| < epsilon then (false, rec)
  else
    let d := -vec3.dot normal tr.vertex1
    let t := -(vec3.dot r.origin normal + d) / NdotRayDirection
    if !ray_t.surrounds t then (false, rec)
    else
      let point_on_plane := r.at t
      let edge1 := tr.vertex2 - tr.vertex1
      let edge2 := tr.vertex3 - tr.vertex2
      let edge3 := tr.vertex1 - tr.vertex3
      let C1 := vec3.cross edge1 (point_on_plane - tr.vertex1)
      if vec3.dot normal C1 < 0 then (false, rec)
      else
        let C2 := vec3.cross edge2 (point_on_plane - tr.vertex2)
        let alpha := vec3.dot normal C2
        if alpha < 0 then (false, rec)
        else
          let C3 := vec3.cross edge3 (point_on_plane - tr.vertex3)
          let beta := vec3.dot normal C3
          if beta < 0 then (false, rec)
          else if 0 ≤ vec3.dot C1 normal ∧ 0 ≤ alpha ∧ 0 ≤ beta then
            let rec1 := { rec with t := t }
            let rec2 := { rec1 with p := point_on_plane }
            let rec3 := { rec2 with normal := -vec3.unit_vector m.sqrt normal }
            let rec4 := { rec3 with mat := some tr.mat }
            if tr.mat.isTextured then
              let alpha := alpha / denom
              let beta := beta / denom
              let gamma := 1 - alpha - beta
              -- uv1 * alpha + uv2 * beta + uv3 * gamma for uv1 = (0,0), uv2 = (0,1), uv3 = (1,1)
              let barycentric_x := 0 * alpha + 0 * beta + 1 * gamma
              let barycentric_y := 0 * alpha + 1 * beta + 1 * gamma
              (true, { rec4 with texture_u := barycentric_x, texture_v := barycentric_y })
            else (true, rec4)
          else (false, rec)

/-- A triangle as a `Hittable`. -/
def toHittable (m : CMath K) (tr : Triangle K) : Hittable K :=
  ⟨intersect m tr, tr.bbox⟩

end Triangle

/-! ## Cylinder -/

/-- The data members of the class `Cylinder`. -/
structure Cylinder (K : Type) where
  center : vec3 K
  axis : vec3 K
  radius : K
  height : K
  mat : Material K
  bbox : aabb K

namespace Cylinder

variable {K : Type} [LinearOrderedField K]

/-- The constructor `Cylinder::Cylinder`: the bounding box reaches `height`
along the axis and `radius` across it, for an axis with a component equal
to 1.  The two locals `minimumExtreme` and `maximumExtreme` are declared
without an initialiser; modelled from the spec, a default `vec3` is zero. -/
def new (center axis : vec3 K) (radius height : K) (mat : Material K) : Cylinder K :=
  let extremes : vec3 K × vec3 K :=
    if axis.x = 1 then
      (⟨center.x - height, center.y - radius, center.z - radius⟩,
        ⟨center.x + height, center.y + radius, center.z + radius⟩)
    else if axis.y = 1 then
      (⟨center.x - radius, center.y - height, center.z - radius⟩,
        ⟨center.x + radius, center.y + height, center.z + radius⟩)
    else if axis.z = 1 then
      (⟨center.x - radius, center.y - radius, center.z - height⟩,
        ⟨center.x + radius, center.y + radius, center.z + height⟩)
    else (⟨0, 0, 0⟩, ⟨0, 0, 0⟩)
  ⟨center, axis, radius, height, mat, aabb.of_points extremes.1 extremes.2⟩

/-- The method `Cylinder::get_cylinder_uv(p, u, v)`; the pair is `(u, v)`.  The
local `phi` is declared without an initialiser and assigned only for an axis
with a component equal to 1; `phi0` is the value it holds otherwise. -/
def get_cylinder_uv (m : CMath K) (phi0 : K) (cy : Cylinder K) (p : vec3 K) : K × K :=
  let phi :=
    if cy.axis.x = 1 then m.atan2 p.y p.z
    else if cy.axis.y = 1 then m.atan2 p.x p.z
    else if cy.axis.z = 1 then m.atan2 p.y p.x
    else phi0
  let v := vec3.dot (p - cy.center) cy.axis / cy.height
  let v := (v + 1) / 2
  let u := phi / (2 * PI)
  (u, v)

/-- The local `a` of `Cylinder::intersect`. -/
def quad_a (cy : Cylinder K) (r : Ray K) : K :=
  vec3.length_squared r.direction - vec3.dot r.direction cy.axis * vec3.dot r.direction cy.axis

/-- The local `b` of `Cylinder::intersect`. -/
def quad_b (cy : Cylinder K) (r : Ray K) : K :=
  let oc := r.origin - cy.center
  2 * (vec3.dot oc r.direction - vec3.dot oc cy.axis * vec3.dot r.direction cy.axis)

/-- The local `c` of `Cylinder::intersect`. -/
def quad_c (cy : Cylinder K) (r : Ray K) : K :=
  let oc := r.origin - cy.center
  vec3.length_squared oc - vec3.dot oc cy.axis * vec3.dot oc cy.axis - cy.radius * cy.radius

/-- The local `discriminant` of `Cylinder::intersect`, `b*b - 4*a*c`. -/
def discriminant (cy : Cylinder K) (r : Ray K) : K :=
  let oc := r.origin - cy.center
  let a := vec3.length_squared r.direction
    - vec3.dot r.direction cy.axis * vec3.dot r.direction cy.axis
  let b := 2 * (vec3.dot oc r.direction - vec3.dot oc cy.axis * vec3.dot r.direction cy.axis)
  let c := vec3.length_squared oc - vec3.dot oc cy.axis * vec3.dot oc cy.axis
    - cy.radius * cy.radius
  b * b - 4 * a * c

/-- The record left behind by a cap hit of `Cylinder::intersect` at the root
`root` (the two blocks "intersection with bottom cap" and "intersection with
top cap" are the same assignments). -/
def cap_info (m : CMath K) (cy : Cylinder K) (r : Ray K) (root : K) (point : vec3 K)
    (rec : HitRecord K) : HitRecord K :=
  let rec1 := { rec with t := root }
  let rec2 := { rec1 with p := point }
  let normal := vec3.unit_vector m.sqrt cy.axis
  let rec3 := rec2.set_face_normal r normal
  { rec3 with mat := some cy.mat }

/-- The record left behind by a body hit of `Cylinder::intersect`. -/
def body_info (m : CMath K) (phi0 : K) (cy : Cylinder K) (r : Ray K) (hit_point projection : K)
    (rec : HitRecord K) : HitRecord K :=
  let rec1 := { rec with t := hit_point }
  let rec2 := { rec1 with p := r.at rec1.t }
  let normal :=
    vec3.unit_vector m.sqrt (rec2.p - cy.center - vec3.smul projection cy.axis)
  let rec3 := rec2.set_face_normal r normal
  let rec4 := { rec3 with mat := some cy.mat }
  if cy.mat.isTextured then
    let uv := get_cylinder_uv m phi0 cy rec4.p
    { rec4 with texture_u := uv.1, texture_v := uv.2 }
  else rec4

/-- The last part of `Cylinder::intersect`, after the cap tests: the height
test on the projection and the body hit. -/
def body (m : CMath K) (phi0 : K) (cy : Cylinder K) (r : Ray K) (hit_point projection : K)
    (rec : HitRecord K) : Bool × HitRecord K :=
  if projection < -cy.height ∨ projection > cy.height then (false, rec)
  else (true, body_info m phi0 cy r hit_point projection rec)

/-- The method `Cylinder::intersect`. -/
def intersect (m : CMath K) (phi0 : K) (cy : Cylinder K) (r : Ray K) (ray_t : interval K)
    (rec : HitRecord K) : Bool × HitRecord K :=
  let oc := r.origin - cy.center
  let a := vec3.length_squared r.direction
    - vec3.dot r.direction cy.axis * vec3.dot r.direction cy.axis
  let b := 2 * (vec3.dot oc r.direction - vec3.dot oc cy.axis * vec3.dot r.direction cy.axis)
  let c := vec3.length_squared oc - vec3.dot oc cy.axis * vec3.dot oc cy.axis
    - cy.radius * cy.radius
  let discriminant := b * b - 4 * a * c
  if discriminant > 0 then
    let root1 := (-b - m.sqrt discriminant) / (2 * a)
    let root2 := (-b + m.sqrt discriminant) / (2 * a)
    if !ray_t.contains root1 && !ray_t.contains root2 then (false, rec)
    else
      let hit_point := if root1 < root2 then root1 else root2
      let projection :=
        vec3.dot ((r.origin + vec3.smul hit_point r.direction) - cy.center) cy.axis
      if vec3.dot r.direction cy.axis ≠ 0 then
        let c1 := cy.center - vec3.smul cy.height cy.axis
        let c2 := cy.center + vec3.smul cy.height cy.axis
        let root3 := -(vec3.dot cy.axis (r.origin - c1)) / (vec3.dot cy.axis r.direction)
        let root4 := -(vec3.dot cy.axis (r.origin - c2)) / (vec3.dot cy.axis r.direction)
        let point3 := r.at root3
        let point4 := r.at root4
        if hit_point ≥ root3 ∧ root3 > 0 ∧
            vec3.length_squared (point3 - c1) ≤ cy.radius * cy.radius then
          (true, cap_info m cy r root3 point3 rec)
        else if root4 > 0 ∧ vec3.length_squared (point4 - c2) ≤ cy.radius * cy.radius then
          (true, cap_info m cy r root4 point4 rec)
        else body m phi0 cy r hit_point projection rec
      else body m phi0 cy r hit_point projection rec
  else (false, rec)

/-- The closed surface of the finite cylinder as section 4.1 describes it: the
lateral surface between the two cap planes at `center - height*axis` and
`center + height*axis`, together with the two cap disks (for a unit axis). -/
def on_surface (cy : Cylinder K) (P : vec3 K) : Prop :=
  (vec3.length_squared (P - cy.center - vec3.smul (vec3.dot (P - cy.center) cy.axis) cy.axis)
      = cy.radius * cy.radius ∧
    -cy.height ≤ vec3.dot (P - cy.center) cy.axis ∧
    vec3.dot (P - cy.center) cy.axis ≤ cy.height) ∨
  ((vec3.dot (P - cy.center) cy.axis = -cy.height ∨
      vec3.dot (P - cy.center) cy.axis = cy.height) ∧
    vec3.length_squared (P - cy.center - vec3.smul (vec3.dot (P - cy.center) cy.axis) cy.axis)
      ≤ cy.radius * cy.radius)

/-- A cylinder as a `Hittable`. -/
def toHittable (m : CMath K) (phi0 : K) (cy : Cylinder K) : Hittable K :=
  ⟨intersect m phi0 cy, cy.bbox⟩

end Cylinder

/-! ## Bounding volume hierarchy -/

/-- Modelled from the spec: `geometry/bvh.h` is not among the sources.  A tree
over a set of Hittables: a leaf is a primitive, an internal node stores the
bounding box of its subtree and two children (section 4.2). -/
inductive bvh_node (K : Type) where
  | leaf (object : Hittable K)
  | node (bbox : aabb K) (left right : bvh_node K)

namespace bvh_node

variable {K : Type} [LinearOrderedField K]

/-- Modelled from the spec: the method `bvh_node::bounding_box`. -/
def bounding_box : bvh_node K → aabb K
  | leaf object => object.bounding_box
  | node bbox _ _ => bbox

/-- Modelled from the spec: the method `bvh_node::intersect` (section 4.2).  A
node tests the ray against its box first and prunes the subtree on a miss;
otherwise it asks the left child, then the right child with the interval cut
at the left hit, which keeps the closer of the two hits.  A leaf delegates to
the primitive. -/
def intersect : bvh_node K → Ray K → interval K → HitRecord K → Bool × HitRecord K
  | leaf object, r, ray_t, rec => object.intersect r ray_t rec
  | node bbox left right, r, ray_t, rec =>
    if !bbox.hit r ray_t then (false, rec)
    else
      let hit_left := left.intersect r ray_t rec
      let hit_right := right.intersect r
        ⟨ray_t.min, if hit_left.1 then (hit_left.2.t : WithTop K) else ray_t.max⟩ hit_left.2
      (hit_left.1 || hit_right.1, hit_right.2)

/-- Modelled from the spec: the construction of the tree over a non-empty
vector of objects, each internal node storing the union of the boxes of its
subtree.  The partitioning is an implementation choice (section 4.2); here
the first object is split off at every node. -/
def build (object : Hittable K) : List (Hittable K) → bvh_node K
  | [] => leaf object
  | next :: rest =>
    node (aabb.union object.bounding_box (build next rest).bounding_box) (leaf object)
      (build next rest)

/-- A hierarchy as a `Hittable`. -/
def toHittable (b : bvh_node K) : Hittable K :=
  ⟨b.intersect, b.bounding_box⟩

end bvh_node

/-! ## Lights, materials and the camera -/

/-- The abstract class `Light`: its virtual methods.  `sampleLight` may draw
random numbers (`AreaLight` does), so it takes the state `σ` of the random
generator and returns the new one. -/
structure Light (K σ : Type) where
  sampleLight : HitRecord K → Hittable K → σ → vec3 K × σ
  getPosition : vec3 K
  getIntensity : vec3 K

/-- The two virtual methods of `Material` the integrators call.  `evaluate`
takes the values its out-parameters `attenuation` and `scattered` hold on
entry and returns the flag and the values they hold on exit; both methods
thread the state `σ` of the random generator; `getShading` gives `none` when
it dereferences a null material. -/
structure Shading (K σ : Type) where
  evaluate : Material K → Ray K → HitRecord K → vec3 K → Ray K → σ →
    (Bool × vec3 K × Ray K) × σ
  getShading : Material K → Hittable K → List (Light K σ) → Ray K → vec3 K → HitRecord K →
    Int → σ → Option (vec3 K × σ)

/-- The data members of the class `Camera`: the public ones with their
default values, then the private ones, which `initialize` sets. -/
structure Camera (K : Type) [LinearOrderedField K] where
  type : String := "pinhole"
  render_mode : String := "phong"
  background : vec3 K := ⟨0, 0, 0⟩
  nbounces : Int := 1
  aspect_ratio : K := 1.0
  image_width : Int := 100
  image_height : Int := 0
  samples_per_pixel : Int := 20
  vfov : K := 90
  exposure : K := 0.1
  lookfrom : vec3 K := ⟨0, 0, -1⟩
  lookat : vec3 K := ⟨0, 0, 0⟩
  vup : vec3 K := ⟨0, 1, 0⟩
  lens_radius : K := 0
  origin : vec3 K := ⟨0, 0, 0⟩
  pixel00_loc : vec3 K := ⟨0, 0, 0⟩
  pixel_delta_u : vec3 K := ⟨0, 0, 0⟩
  pixel_delta_v : vec3 K := ⟨0, 0, 0⟩
  u : vec3 K := ⟨0, 0, 0⟩
  v : vec3 K := ⟨0, 0, 0⟩
  w : vec3 K := ⟨0, 0, 0⟩
  defocus_disk_u : vec3 K := ⟨0, 0, 0⟩
  defocus_disk_v : vec3 K := ⟨0, 0, 0⟩

/-- The function `degrees_to_radians` of utils.h. -/
def degrees_to_radians {K : Type} [LinearOrderedField K] (degrees : K) : K :=
  degrees * PI / 180.0

namespace Camera

variable {K σ : Type} [LinearOrderedField K]

/-- The interval `interval(0.001, INFTY)` every integrator queries the world
with. -/
def ray_interval : interval K := ⟨0.001, ⊤⟩

/-- The method `Camera::initialize`; the name is spelt differently because
the original is a keyword. -/
def initialise [FloorRing K] (m : CMath K) (cam : Camera K) : Camera K :=
  let image_height : Int :=
    if cam.image_height = 0 then
      let height := static_cast_int ((cam.image_width : K) / cam.aspect_ratio)
      if height < 1 then 1 else height
    else cam.image_height
  let origin := cam.lookfrom
  let focal_length : K := 1.0
  let theta := degrees_to_radians cam.vfov
  let h := m.tan (theta / 2)
  let aspect_ratio : K := (cam.image_width : K) / (image_height : K)
  let viewport_height := 2.0 * h
  let viewport_width := aspect_ratio * viewport_height
  let w := vec3.unit_vector m.sqrt (cam.lookfrom - cam.lookat)
  let u := vec3.unit_vector m.sqrt (vec3.cross cam.vup w)
  let v := vec3.cross w u
  let viewport_u := vec3.smul viewport_width u
  let viewport_v := vec3.smul viewport_height (-v)
  let pixel_delta_u := vec3.sdiv viewport_u (cam.image_width : K)
  let pixel_delta_v := vec3.sdiv viewport_v (image_height : K)
  let viewport_upper_left :=
    origin - vec3.smul focal_length w - vec3.sdiv viewport_u 2 - vec3.sdiv viewport_v 2
  let pixel00_loc := viewport_upper_left + vec3.smul 0.5 (pixel_delta_u + pixel_delta_v)
  { cam with
    image_height := image_height
    origin := origin
    pixel00_loc := pixel00_loc
    pixel_delta_u := pixel_delta_u
    pixel_delta_v := pixel_delta_v
    u := u
    v := v
    w := w
    defocus_disk_u := vec3.smul cam.lens_radius u
    defocus_disk_v := vec3.smul cam.lens_radius v }

/-- The method `Camera::binary`.  `rec` is the local `HitRecord rec`, declared
without an initialiser. -/
def binary (_cam : Camera K) (rec : HitRecord K) (r : Ray K) (world : Hittable K) : vec3 K :=
  if (world.intersect r ray_interval rec).1 then ⟨1, 0, 0⟩ else ⟨0, 0, 0⟩

/-- The method `Camera::blinn_phong`.  The result is `none` when the hit
record holds a null material, which the code dereferences. -/
def blinn_phong (sh : Shading K σ) (cam : Camera K) (rec : HitRecord K) (r : Ray K)
    (world : Hittable K) (lights : List (Light K σ)) (_depth : Int) (g : σ) :
    Option (vec3 K × σ) :=
  let hit := world.intersect r ray_interval rec
  if hit.1 then
    match hit.2.mat with
    | none => none
    | some mat => sh.getShading mat world lights r cam.background hit.2 cam.nbounces g
  else some (cam.background, g)

/-- The method `Camera::calculateDirectLighting`. -/
def calculateDirectLighting (world : Hittable K) (rec : HitRecord K)
    (lights : List (Light K σ)) (g : σ) : vec3 K × σ :=
  lights.foldl
    (fun acc light =>
      let sample := light.sampleLight rec world acc.2
      (acc.1 + sample.1, sample.2))
    (⟨0, 0, 0⟩, g)

/-- The method `Camera::pathtrace`.  `rec` is the local `HitRecord rec`,
declared without an initialiser; the locals `scattered` and `attenuation` are
default-constructed (modelled from the spec: zero vectors).  The result is
`none` when the hit record holds a null material, which the code
dereferences. -/
def pathtrace (sh : Shading K σ) (cam : Camera K) (rec : HitRecord K) (r : Ray K) (depth : Int)
    (world : Hittable K) (lights : List (Light K σ)) (g : σ) : Option (vec3 K × σ) :=
  if h : depth ≤ 0 then some (⟨0, 0, 0⟩, g)
  else
    let hit := world.intersect r ray_interval rec
    if hit.1 then
      let direct := calculateDirectLighting world hit.2 lights g
      match hit.2.mat with
      | none => none
      | some mat =>
        let ev := sh.evaluate mat r hit.2 ⟨0, 0, 0⟩ ⟨⟨0, 0, 0⟩, ⟨0, 0, 0⟩⟩ direct.2
        if ev.1.1 then
          match pathtrace sh cam rec ev.1.2.2 (depth - 1) world lights ev.2 with
          | none => none
          | some next =>
            some (vec3.mul ev.1.2.1 direct.1 + vec3.mul ev.1.2.1 next.1, next.2)
        else some (direct.1, ev.2)
    else some (cam.background, g)
termination_by depth.toNat
decreasing_by
  simp only [not_le] at h
  omega

end Camera

/-! ## Colour output (color.h) -/

section ColorOutput

variable {K : Type} [LinearOrderedField K]

/-- The function `linear_to_gamma`: `pow(linear_component, 1.0 / 2.0)`. -/
def linear_to_gamma (m : CMath K) (linear_component : K) : K :=
  m.pow linear_component (1.0 / 2.0)

/-- The function `reinhardToneMapping`. -/
def reinhardToneMapping (pixel_color : vec3 K) (exposure : K) : vec3 K :=
  let r := pixel_color.x * exposure
  let g := pixel_color.y * exposure
  let b := pixel_color.z * exposure
  let luminance := 0.2126 * r + 0.7152 * g + 0.0722 * b
  let tone_mapped_r := r / (1.0 + luminance)
  let tone_mapped_g := g / (1.0 + luminance)
  let tone_mapped_b := b / (1.0 + luminance)
  ⟨tone_mapped_r, tone_mapped_g, tone_mapped_b⟩

/-- The function `exponentialToneMapping`. -/
def exponentialToneMapping (m : CMath K) (pixel_color : vec3 K) (exposure : K) : vec3 K :=
  let r := pixel_color.x
  let g := pixel_color.y
  let b := pixel_color.z
  ⟨1.0 - m.exp (-r * exposure), 1.0 - m.exp (-g * exposure), 1.0 - m.exp (-b * exposure)⟩

/-- The function `write_color`: the three integers it writes to the stream. -/
def write_color [FloorRing K] (m : CMath K) (pixel_color : vec3 K) (samples_per_pixel : Int)
    (exposure : K) : Int × Int × Int :=
  let scale := 1.0 / (samples_per_pixel : K)
  let scaled_color := vec3.smul scale pixel_color
  let tone_mapped := reinhardToneMapping scaled_color exposure
  let r := linear_to_gamma m tone_mapped.x
  let g := linear_to_gamma m tone_mapped.y
  let b := linear_to_gamma m tone_mapped.z
  let intensity : interval K := ⟨0.000, ((0.9999 : K) : WithTop K)⟩
  (static_cast_int (256 * intensity.clamp r), static_cast_int (256 * intensity.clamp g),
    static_cast_int (256 * intensity.clamp b))

end ColorOutput

/-! ## Halton sequence (utils.h) -/

section Halton

variable {K : Type} [LinearOrderedField K] [FloorRing K]

/-- The `while (i > 0)` loop of `halton`, run for at most `fuel` tests of its
condition, from the values `result`, `f` and `i` of the locals.  The result
is `none` when the loop has not finished by then. -/
def halton_loop (base : Int) : Nat → K → K → Int → Option K
  | 0, _, _, _ => none
  | fuel + 1, result, f, i =>
    if i > 0 then
      halton_loop base fuel (result + f * ((Int.tmod i base : Int) : K)) (f / (base : K))
        (static_cast_int (((⌊(i : K) / (base : K)⌋ : Int) : K)))
    else some result

/-- The function `halton(index, base)`, its loop run for at most `fuel` tests
of the condition. -/
def halton (fuel : Nat) (index base : Int) : Option K :=
  halton_loop base fuel 0 (1.0 / (base : K)) index

end Halton

/-! ## Texture lookup (Texture.h) -/

section TextureLookup

variable {K : Type} [LinearOrderedField K] [FloorRing K]

/-- The expression `n - 1` on a `size_t`: unsigned 64-bit arithmetic, which
wraps around at 0. -/
def size_t_pred (n : Nat) : Nat := (n + (2 ^ 64 - 1)) % 2 ^ 64

/-- The method `Texture::getTextureColor(u, v)`.  The result is `none` when an
index is outside its vector, which the code does not check. -/
def Texture.getTextureColor (t : Texture) (u v : K) : Option (vec3 K) :=
  let u := (⟨0, ((1 : K) : WithTop K)⟩ : interval K).clamp u
  let v := 1.0 - (⟨0, ((1 : K) : WithTop K)⟩ : interval K).clamp v
  match t.texture[0]? with
  | none => none
  | some row0 =>
    let x := static_cast_int (u * ((size_t_pred row0.length : Nat) : K))
    let y := static_cast_int (v * ((size_t_pred t.texture.length : Nat) : K))
    if x < 0 ∨ y < 0 then none
    else
      match t.texture[y.toNat]? with
      | none => none
      | some row =>
        match row[x.toNat]? with
        | none => none
        | some pixel =>
          let color_scale : K := 1.0 / 255.0
          some ⟨(pixel.r : K) * color_scale, (pixel.g : K) * color_scale,
            (pixel.b : K) * color_scale⟩

/-- The method `Texture::getWidth`; `none` for a texture without rows. -/
def Texture.getWidth (t : Texture) : Option Int :=
  match t.texture[0]? with
  | none => none
  | some row0 => some (row0.length : Int)

/-- The method `Texture::getHeight`. -/
def Texture.getHeight (t : Texture) : Int := (t.texture.length : Int)

/-- What `Texture::loadPPM` leaves in `texture` when it succeeds on a file
that declares `width` and `height`: `height` rows of `width` pixels, each
channel one byte of the file. -/
structure Texture.Loaded (t : Texture) (width height : Nat) : Prop where
  rows : t.texture.length = height
  columns : ∀ row ∈ t.texture, row.length = width
  size : width < 2 ^ 64 ∧ height < 2 ^ 64
  bytes : ∀ row ∈ t.texture, ∀ pixel ∈ row,
    (0 ≤ pixel.r ∧ pixel.r ≤ 255) ∧ (0 ≤ pixel.g ∧ pixel.g ≤ 255) ∧
      (0 ≤ pixel.b ∧ pixel.b ≤ 255)

end TextureLookup

/-! ## Light sources (PointLight.h, AreaLight.h) -/

/-- The random number sources of utils.h, `random_double()` and
`random_float()`: a draw takes the state `σ` of the generators and returns
the number drawn and the new state. -/
structure Random (K σ : Type) where
  random_double : σ → K × σ
  random_float : σ → K × σ

/-- The data members of the class `PointLight`. -/
structure PointLight (K : Type) where
  position : vec3 K
  intensity : vec3 K

/-- The data members of the class `AreaLight`. -/
structure AreaLight (K : Type) where
  corner : vec3 K
  edge1 : vec3 K
  edge2 : vec3 K
  intensity : vec3 K
  numSamples : Int
  normal : vec3 K

section LightSources

variable {K σ : Type} [LinearOrderedField K]

/-- The method `PointLight::sampleLight`.  `shadowRec` is the local
`HitRecord shadowRec`, declared without an initialiser. -/
def PointLight.sampleLight (m : CMath K) (shadowRec : HitRecord K) (light : PointLight K)
    (rec : HitRecord K) (world : Hittable K) : vec3 K :=
  let lightDir := vec3.unit_vector m.sqrt (light.position - rec.p)
  let shadowRay : Ray K := ⟨rec.p, lightDir⟩
  if (world.intersect shadowRay Camera.ray_interval shadowRec).1 then ⟨0, 0, 0⟩
  else
    let NdotL := max 0.0 (vec3.dot rec.normal lightDir)
    let distance := vec3.length m.sqrt (light.position - rec.p)
      * vec3.length m.sqrt (light.position - rec.p)
    vec3.sdiv (vec3.smul 2 (vec3.smul NdotL light.intensity)) distance

/-- A point light as a `Light`. -/
def PointLight.toLight (m : CMath K) (shadowRec : HitRecord K) (light : PointLight K) :
    Light K σ :=
  ⟨fun rec world g => (light.sampleLight m shadowRec rec world, g), light.position,
    light.intensity⟩

/-- The constructor `AreaLight::AreaLight`. -/
def AreaLight.new (m : CMath K) (corner edge1 edge2 intensity : vec3 K) (numSamples : Int) :
    AreaLight K :=
  ⟨corner, edge1, edge2, intensity, numSamples,
    vec3.unit_vector m.sqrt (vec3.cross edge1 edge2)⟩

/-- One iteration of the loop of `AreaLight::sampleLight`, from the value of
`totalIllumination` and the state of the generator. -/
def AreaLight.sample_step (m : CMath K) (rnd : Random K σ) (shadowRec : HitRecord K)
    (light : AreaLight K) (rec : HitRecord K) (world : Hittable K) (acc : vec3 K × σ) :
    vec3 K × σ :=
  let u := rnd.random_float acc.2
  let v := rnd.random_float u.2
  let sampledPoint := light.corner + vec3.smul u.1 light.edge1 + vec3.smul v.1 light.edge2
  let toLight := vec3.unit_vector m.sqrt (sampledPoint - rec.p)
  let shadowRay : Ray K := ⟨rec.p, toLight⟩
  let inShadow := (world.intersect shadowRay Camera.ray_interval shadowRec).1
  if !inShadow then
    let cosTheta := vec3.dot rec.normal toLight
    let distance := vec3.length m.sqrt (sampledPoint - rec.p)
      * vec3.length m.sqrt (sampledPoint - rec.p)
    let attenuation := 1.0 / (1.0 + 0.1 * distance + 0.01 * distance * distance)
    (acc.1 + vec3.smul 2 (vec3.smul (attenuation * cosTheta) light.intensity), v.2)
  else (acc.1, v.2)

/-- The method `AreaLight::sampleLight`. -/
def AreaLight.sampleLight (m : CMath K) (rnd : Random K σ) (shadowRec : HitRecord K)
    (light : AreaLight K) (rec : HitRecord K) (world : Hittable K) (g : σ) : vec3 K × σ :=
  let total := Nat.iterate (AreaLight.sample_step m rnd shadowRec light rec world)
    light.numSamples.toNat (⟨0, 0, 0⟩, g)
  (vec3.sdiv total.1 (light.numSamples : K), total.2)

/-- An area light as a `Light`. -/
def AreaLight.toLight (m : CMath K) (rnd : Random K σ) (shadowRec : HitRecord K)
    (light : AreaLight K) : Light K σ :=
  ⟨light.sampleLight m rnd shadowRec, light.corner, light.intensity⟩

end LightSources

/-! ## Blinn-Phong shading (Material.h, BlinnPhong.h) -/

section BlinnPhongShading

variable {K σ : Type} [LinearOrderedField K]

/-- The virtual method `Material::isReflective()`; only `BlinnPhong` overrides
the default. -/
def Material.isReflective : Material K → Bool
  | .BlinnPhong _ _ _ _ _ _ _ _ is_reflective _ _ => is_reflective
  | _ => false

/-- The virtual method `Material::isRefractive()`. -/
def Material.isRefractive : Material K → Bool
  | .BlinnPhong _ _ _ _ _ _ _ _ _ is_refractive _ => is_refractive
  | _ => false

/-- The virtual method `Material::getRefractiveIndex()`. -/
def Material.getRefractiveIndex : Material K → K
  | .BlinnPhong _ _ _ _ _ _ _ refractiveIndex _ _ _ => refractiveIndex
  | _ => 0

/-- The virtual method `Material::getReflectivity()`. -/
def Material.getReflectivity : Material K → K
  | .BlinnPhong _ _ _ _ _ _ reflectivity _ _ _ _ => reflectivity
  | _ => 0

/-- The virtual method `Material::getTransparency()`. -/
def Material.getTransparency : Material K → K
  | .BlinnPhong _ _ _ _ _ _ _ _ _ _ transparency => transparency
  | _ => 0

/-- The virtual method `Material::getTexture()`. -/
def Material.getTexture : Material K → Option Texture
  | .Lambertian _ texture => texture
  | .BlinnPhong texture _ _ _ _ _ _ _ _ _ _ => texture
  | _ => none

/-- Modelled from the spec: `math/vec3.h` is not among the sources.  The
function `reflect(v, n)`, the mirror reflection of `v` about the normal `n`
(spec, section 4.5), `v - 2*dot(v,n)*n`. -/
def vec3.reflect (v n : vec3 K) : vec3 K := v - vec3.smul (2 * vec3.dot v n) n

/-- Modelled from the spec: `math/vec3.h` is not among the sources.  The
function `refract(uv, n, etai_over_etat)`, the direction Snell's law gives for
the ratio of refractive indices (spec, section 4.5). -/
def vec3.refract (sqrt : K → K) (uv n : vec3 K) (etai_over_etat : K) : vec3 K :=
  let cos_theta := min (vec3.dot (-uv) n) 1.0
  let r_out_perp := vec3.smul etai_over_etat (uv + vec3.smul cos_theta n)
  let r_out_parallel := vec3.smul (-(sqrt |1.0 - vec3.length_squared r_out_perp|)) n
  r_out_perp + r_out_parallel

/-- The private method `BlinnPhong::schlick`. -/
def BlinnPhong.schlick (m : CMath K) (cosine ref_idx : K) : K :=
  let r0 := (1 - ref_idx) / (1 + ref_idx)
  let r1 := r0 * r0
  r1 + (1 - r1) * m.pow (1 - cosine) 5

/-- One iteration of the loop over the lights in `BlinnPhong::getShading`,
from the values of `diffuse` and `specular` and the state of the generator. -/
def BlinnPhong.light_step (m : CMath K) (specular_color : vec3 K) (specular_exponent : K)
    (world : Hittable K) (view_direction : vec3 K) (rec : HitRecord K)
    (acc : (vec3 K × vec3 K) × σ) (light : Light K σ) : (vec3 K × vec3 K) × σ :=
  let to_light := light.getPosition - rec.p
  let distance := vec3.length m.sqrt to_light * vec3.length m.sqrt to_light
  let light_direction := vec3.unit_vector m.sqrt to_light
  let h := vec3.unit_vector m.sqrt (view_direction + light_direction)
  let lambertian := max 0.0 (vec3.dot rec.normal light_direction)
  let specular_angle := max 0.0 (vec3.dot rec.normal h)
  let intensity := light.sampleLight rec world acc.2
  ((acc.1.1 + vec3.sdiv (vec3.smul 2 (vec3.smul lambertian intensity.1)) distance,
    acc.1.2 + vec3.sdiv (vec3.smul 2 (vec3.mul
      (vec3.smul (m.pow specular_angle specular_exponent) specular_color) intensity.1))
      distance),
    intensity.2)

/-- The part of `BlinnPhong::getShading` from the loop over the lights to the
ambient term: the value of `shading` before reflections are handled.  `mat` is
`rec.mat`.  The two calls of `getTextureColor` have the same arguments and are
one lookup here; the result is `none` when the texture pointer is null or the
lookup is out of range. -/
def BlinnPhong.local_shading [FloorRing K] (m : CMath K) (diffuse_color specular_color : vec3 K)
    (specular_exponent ks kd : K) (mat : Material K) (world : Hittable K)
    (lights : List (Light K σ)) (r_in : Ray K) (rec : HitRecord K) (g : σ) :
    Option (vec3 K × σ) :=
  let view_direction := vec3.unit_vector m.sqrt (-r_in.direction)
  let sums := lights.foldl
    (BlinnPhong.light_step m specular_color specular_exponent world view_direction rec)
    ((⟨0, 0, 0⟩, ⟨0, 0, 0⟩), g)
  if mat.isTextured then
    match mat.getTexture with
    | none => none
    | some texture =>
      match texture.getTextureColor rec.texture_u rec.texture_v with
      | none => none
      | some texture_color =>
        let diffuse := vec3.mul sums.1.1 texture_color
        let shading := vec3.smul kd diffuse + vec3.smul ks sums.1.2
        some (shading + vec3.mul ⟨0.2, 0.2, 0.2⟩ texture_color, sums.2)
  else
    let diffuse := vec3.mul sums.1.1 diffuse_color
    let shading := vec3.smul kd diffuse + vec3.smul ks sums.1.2
    some (shading + vec3.mul ⟨0.2, 0.2, 0.2⟩ diffuse_color, sums.2)

/-- The block `BlinnPhong::getShading` has three times, for the reflected ray
twice and for the refracted ray: the colour of `ray` is `backgroundColor`
unless the world is hit, and then it is `getShading` of the material hit,
called with `depth - 1`, which is the argument `recurse`; `shading` becomes
that colour times `k`.  `fresh` is the local `HitRecord`, declared without an
initialiser.  The second component counts the calls of `getShading` nested
inside this block. -/
def BlinnPhong.secondary
    (recurse : Material K → HitRecord K → σ → Option (vec3 K × σ) × Nat)
    (fresh : HitRecord K) (world : Hittable K) (ray : Ray K) (backgroundColor : vec3 K)
    (k : K) (g : σ) : Option (vec3 K × σ) × Nat :=
  let hit := world.intersect ray Camera.ray_interval fresh
  if hit.1 then
    match hit.2.mat with
    | none => (none, 0)
    | some mat =>
      let sub := recurse mat hit.2 g
      (sub.1.map (fun c => (vec3.smul k c.1, c.2)), sub.2 + 1)
  else (some (vec3.smul k backgroundColor, g), 0)

/-- The virtual method `Material::getShading`: the override of `BlinnPhong`,
and the default of the base class, `color(0, 0, 0)`, for the other materials.
The first component is the colour returned and the state of the generator,
`none` when a null pointer is dereferenced; the second component is not in
the code: it counts how deep the calls of `getShading` made during this call
are nested. -/
def Material.getShading_traced [FloorRing K] (m : CMath K) (rnd : Random K σ)
    (fresh : HitRecord K) (mat : Material K) (world : Hittable K) (lights : List (Light K σ))
    (r_in : Ray K) (backgroundColor : vec3 K) (rec : HitRecord K) (depth : Int) (g : σ) :
    Option (vec3 K × σ) × Nat :=
  match mat with
  | .BlinnPhong _ diffuse_color specular_color specular_exponent ks kd reflectivity _ _ _ _ =>
    let hit := world.intersect r_in Camera.ray_interval rec
    if !hit.1 then (some (backgroundColor, g), 0)
    else
      match hit.2.mat with
      | none => (none, 0)
      | some rmat =>
        match BlinnPhong.local_shading m diffuse_color specular_color specular_exponent ks kd
            rmat world lights r_in hit.2 g with
        | none => (none, 0)
        | some shading =>
          match (if h1 : rmat.isReflective = true ∧ 0 < depth ∧ 0 < rmat.getReflectivity then
              BlinnPhong.secondary
                (fun mat2 rec2 g2 => Material.getShading_traced m rnd fresh mat2 world lights
                  ⟨hit.2.p, vec3.reflect (vec3.unit_vector m.sqrt r_in.direction) hit.2.normal⟩
                  backgroundColor rec2 (depth - 1) g2)
                fresh world
                ⟨hit.2.p, vec3.reflect (vec3.unit_vector m.sqrt r_in.direction) hit.2.normal⟩
                backgroundColor reflectivity shading.2
            else (some shading, 0)) with
          | (none, n1) => (none, n1)
          | (some shading1, n1) =>
            if h2 : rmat.isRefractive = true ∧ 0 < depth then
              let refractiveIndex := rmat.getRefractiveIndex
              let refractiveIndexRatio :=
                if hit.2.front_face then 1.0 / refractiveIndex else refractiveIndex
              let unit_direction := vec3.unit_vector m.sqrt r_in.direction
              let cos_theta := vec3.dot (-unit_direction) hit.2.normal
              let sin_theta := m.sqrt (1.0 - cos_theta * cos_theta)
              let cannot_refract := decide (refractiveIndexRatio * sin_theta > 1.0)
              let choice : Bool × σ :=
                if cannot_refract then (true, shading1.2)
                else
                  let draw := rnd.random_double shading1.2
                  (decide (BlinnPhong.schlick m cos_theta refractiveIndexRatio > draw.1), draw.2)
              let attenuation := m.exp (-rmat.getTransparency * hit.2.t)
              if choice.1 then
                let reflection := BlinnPhong.secondary
                  (fun mat2 rec2 g2 => Material.getShading_traced m rnd fresh mat2 world lights
                    ⟨hit.2.p, vec3.reflect (vec3.unit_vector m.sqrt r_in.direction)
                      hit.2.normal⟩
                    backgroundColor rec2 (depth - 1) g2)
                  fresh world
                  ⟨hit.2.p, vec3.reflect (vec3.unit_vector m.sqrt r_in.direction) hit.2.normal⟩
                  backgroundColor attenuation choice.2
                (reflection.1, max n1 reflection.2)
              else
                let refraction := BlinnPhong.secondary
                  (fun mat2 rec2 g2 => Material.getShading_traced m rnd fresh mat2 world lights
                    ⟨hit.2.p, vec3.refract m.sqrt unit_direction hit.2.normal
                      refractiveIndexRatio⟩
                    backgroundColor rec2 (depth - 1) g2)
                  fresh world
                  ⟨hit.2.p, vec3.refract m.sqrt unit_direction hit.2.normal
                    refractiveIndexRatio⟩
                  backgroundColor attenuation choice.2
                (refraction.1, max n1 refraction.2)
            else (some shading1, n1)
  | _ => (some (⟨0, 0, 0⟩, g), 0)
termination_by depth.toNat
decreasing_by
  all_goals omega

/-- The virtual method `Material::getShading`: what it returns. -/
def Material.getShading [FloorRing K] (m : CMath K) (rnd : Random K σ)
    (fresh : HitRecord K) (mat : Material K) (world : Hittable K) (lights : List (Light K σ))
    (r_in : Ray K) (backgroundColor : vec3 K) (rec : HitRecord K) (depth : Int) (g : σ) :
    Option (vec3 K × σ) :=
  (Material.getShading_traced m rnd fresh mat world lights r_in backgroundColor rec depth g).1

/-- The method `Camera::pathtrace` with a second component that is not in the
code: it counts how deep the calls of `pathtrace` made during this call are
nested. -/
def Camera.pathtrace_traced (sh : Shading K σ) (cam : Camera K) (rec : HitRecord K) (r : Ray K)
    (depth : Int) (world : Hittable K) (lights : List (Light K σ)) (g : σ) :
    Option (vec3 K × σ) × Nat :=
  if h : depth ≤ 0 then (some (⟨0, 0, 0⟩, g), 0)
  else
    let hit := world.intersect r Camera.ray_interval rec
    if hit.1 then
      let direct := Camera.calculateDirectLighting world hit.2 lights g
      match hit.2.mat with
      | none => (none, 0)
      | some mat =>
        let ev := sh.evaluate mat r hit.2 ⟨0, 0, 0⟩ ⟨⟨0, 0, 0⟩, ⟨0, 0, 0⟩⟩ direct.2
        if ev.1.1 then
          match Camera.pathtrace_traced sh cam rec ev.1.2.2 (depth - 1) world lights ev.2 with
          | (none, n) => (none, n + 1)
          | (some next, n) =>
            (some (vec3.mul ev.1.2.1 direct.1 + vec3.mul ev.1.2.1 next.1, next.2), n + 1)
        else (some (direct.1, ev.2), 0)
    else (some (cam.background, g), 0)
termination_by depth.toNat
decreasing_by
  simp only [not_le] at h
  omega

end BlinnPhongShading

/-! ## Scattering materials (BRDF.h) -/

section Scattering

variable {K σ : Type} [LinearOrderedField K]

/-- The private method `fresnelSchlick` of `SchlickRefractionsBRDF` and of
`SchlickBRDF`; the two copies are the same. -/
def fresnelSchlick (m : CMath K) (cosTheta reflectance : K) : K :=
  reflectance + (1.0 - reflectance) * m.pow (1.0 - cosTheta) 5.0

/-- The method `Lambertian::evaluate`.  `attenuation` and `scattered` are the
values the out-parameters hold on entry; the result is the flag returned and
the values they hold on exit, with the state of the generators.
`random_unit_vector` is a function of the absent `vec3.h` and is a parameter.
The result is `none` when the texture lookup is out of range. -/
def Lambertian.evaluate [FloorRing K] (random_unit_vector : σ → vec3 K × σ) (albedo : vec3 K)
    (texture : Option Texture) (_r_in : Ray K) (rec : HitRecord K) (_attenuation : vec3 K)
    (_scattered : Ray K) (g : σ) : Option ((Bool × vec3 K × Ray K) × σ) :=
  let unit := random_unit_vector g
  let scatter_direction := rec.normal + unit.1
  let scattered : Ray K := ⟨rec.p, scatter_direction⟩
  match texture with
  | some t =>
    match t.getTextureColor rec.texture_u rec.texture_v with
    | none => none
    | some attenuation => some ((true, attenuation, scattered), unit.2)
  | none => some ((true, albedo, scattered), unit.2)

/-- The method `SchlickRefractionsBRDF::evaluate`, with the out-parameters as
in `Lambertian.evaluate`. -/
def SchlickRefractionsBRDF.evaluate (m : CMath K) (rnd : Random K σ) (fresnelReflectance : K)
    (r_in : Ray K) (rec : HitRecord K) (_attenuation : vec3 K) (_scattered : Ray K) (g : σ) :
    (Bool × vec3 K × Ray K) × σ :=
  let reflected := vec3.reflect r_in.direction rec.normal
  let cosTheta := vec3.dot (vec3.unit_vector m.sqrt (-r_in.direction)) rec.normal
  let F := fresnelSchlick m cosTheta fresnelReflectance
  let draw := rnd.random_float g
  if draw.1 < F then
    ((true, ⟨1.0, 1.0, 1.0⟩, ⟨rec.p, reflected⟩), draw.2)
  else
    let refractiveIndexRatio : K := if rec.front_face then 1.0 / 1.5 else 1.5
    let refracted := vec3.refract m.sqrt r_in.direction rec.normal refractiveIndexRatio
    let unit_direction := vec3.unit_vector m.sqrt r_in.direction
    let cos_theta := vec3.dot (-unit_direction) rec.normal
    let sin_theta := m.sqrt (1.0 - cos_theta * cos_theta)
    let cannot_refract := decide (refractiveIndexRatio * sin_theta > 1.0)
    if !cannot_refract then
      let beersLaw := m.exp (-0.2 * rec.t)
      ((true, vec3.smul beersLaw ⟨1, 1, 1⟩, ⟨rec.p, refracted⟩), draw.2)
    else
      let beersLaw := m.exp (-0.2 * rec.t)
      ((true, vec3.smul beersLaw ⟨1.0, 1.0, 1.0⟩, ⟨rec.p, reflected⟩), draw.2)

/-- The method `SchlickBRDF::evaluate`, with the out-parameters as in
`Lambertian.evaluate`: they are assigned only inside the `if`. -/
def SchlickBRDF.evaluate (m : CMath K) (rnd : Random K σ) (fresnelReflectance : K)
    (r_in : Ray K) (rec : HitRecord K) (attenuation : vec3 K) (scattered : Ray K) (g : σ) :
    (Bool × vec3 K × Ray K) × σ :=
  let reflected := vec3.reflect r_in.direction rec.normal
  let cosTheta := vec3.dot (vec3.unit_vector m.sqrt (-r_in.direction)) rec.normal
  let F := fresnelSchlick m cosTheta fresnelReflectance
  let draw := rnd.random_float g
  if draw.1 < F then
    ((true, ⟨1.0, 1.0, 1.0⟩, ⟨rec.p, reflected⟩), draw.2)
  else ((true, attenuation, scattered), draw.2)

/-- The virtual method `Material::evaluate`: the overrides of the three
scattering classes, and the default of the base class, which returns false
and leaves the out-parameters alone, for `BlinnPhong`. -/
def Material.evaluate [FloorRing K] (m : CMath K) (rnd : Random K σ)
    (random_unit_vector : σ → vec3 K × σ) (mat : Material K) (r_in : Ray K)
    (rec : HitRecord K) (attenuation : vec3 K) (scattered : Ray K) (g : σ) :
    Option ((Bool × vec3 K × Ray K) × σ) :=
  match mat with
  | .Lambertian albedo texture =>
    Lambertian.evaluate random_unit_vector albedo texture r_in rec attenuation scattered g
  | .SchlickRefractionsBRDF fresnelReflectance =>
    some (SchlickRefractionsBRDF.evaluate m rnd fresnelReflectance r_in rec attenuation
      scattered g)
  | .SchlickBRDF fresnelReflectance =>
    some (SchlickBRDF.evaluate m rnd fresnelReflectance r_in rec attenuation scattered g)
  | .BlinnPhong _ _ _ _ _ _ _ _ _ _ _ => some ((false, attenuation, scattered), g)

end Scattering

/-! ## The radical inverse -/

/-- The radical inverse in base `base` of the number with the digits `digits`,
least significant first: the sum over `k` of `d_k * base^-(k+1)`.  This is not
a function of the program; `halton` is compared with it. -/
def radical_inverse {K : Type} [LinearOrderedField K] (base : Nat) (digits : List Nat) : K :=
  ((List.range digits.length).map
    (fun k => ((digits.getD k 0 : Nat) : K) / (base : K) ^ (k + 1))).sum

/-! ## Ray generation (Camera.h) -/

section RayGeneration

variable {K σ : Type} [LinearOrderedField K]

/-- The method `Camera::halton2D`; the pair is `(x, y)`.  The loops of `halton`
are run for at most `fuel` tests of their condition each, and the result is
`none` when one has not finished by then. -/
def Camera.halton2D [FloorRing K] (cam : Camera K) (fuel : Nat) (index baseX baseY : Int) :
    Option (Int × Int) :=
  match halton (K := K) fuel index baseX with
  | none => none
  | some hx =>
    match halton (K := K) fuel index baseY with
    | none => none
    | some hy =>
      some (static_cast_int (hx * (cam.image_width : K)),
        static_cast_int (hy * (cam.image_height : K)))

/-- The method `Camera::uniformSamplingDefocus`. -/
def Camera.uniformSamplingDefocus (m : CMath K) (rnd : Random K σ) (g : σ) : vec3 K × σ :=
  let draw1 := rnd.random_float g
  let r := m.sqrt draw1.1
  let draw2 := rnd.random_float draw1.2
  let theta := 2.0 * PI * draw2.1
  (⟨r * m.cos theta, r * m.sin theta, 0⟩, draw2.2)

/-- The method `Camera::get_ray`, with the bound `fuel` of `halton2D`. -/
def Camera.get_ray [FloorRing K] (m : CMath K) (rnd : Random K σ) (cam : Camera K)
    (fuel : Nat) (i j sampleIndex : Int) (g : σ) : Option (Ray K × σ) :=
  let pixel_center := cam.pixel00_loc + vec3.smul (i : K) cam.pixel_delta_u
    + vec3.smul (j : K) cam.pixel_delta_v
  if cam.render_mode = "pathtracer" then
    let lensPoint := Camera.uniformSamplingDefocus m rnd g
    let focalPoint := cam.origin + vec3.smul lensPoint.1.x cam.defocus_disk_u
      + vec3.smul lensPoint.1.y cam.defocus_disk_v
    match cam.halton2D fuel sampleIndex 2 3 with
    | none => none
    | some jitter =>
      let jitterXNormalized := (jitter.1 : K) / (cam.image_width : K)
      let jitterYNormalized := (jitter.2 : K) / (cam.image_height : K)
      let jittered := pixel_center + (vec3.smul jitterXNormalized cam.pixel_delta_u
        + vec3.smul jitterYNormalized cam.pixel_delta_v)
      let ray_direction := jittered - focalPoint
      some (⟨focalPoint, ray_direction⟩, lensPoint.2)
  else
    let ray_direction := pixel_center - cam.origin
    some (⟨cam.origin, ray_direction⟩, g)

end RayGeneration

/-! ## The corners of the bounding boxes -/

section BoxCorners

variable {K : Type} [LinearOrderedField K]

/-- The point `p` is between the corners `lo` and `hi` on each coordinate
axis. -/
def vec3.between (lo hi p : vec3 K) : Prop :=
  (lo.x ≤ p.x ∧ p.x ≤ hi.x) ∧ (lo.y ≤ p.y ∧ p.y ≤ hi.y) ∧ (lo.z ≤ p.z ∧ p.z ≤ hi.z)

/-- The two corners `Sphere::Sphere` passes to the bounding box,
`center - rvec` and `center + rvec`. -/
def Sphere.corners (center : vec3 K) (radius : K) : vec3 K × vec3 K :=
  let rvec : vec3 K := ⟨radius, radius, radius⟩
  (center - rvec, center + rvec)

/-- The two corners `Cylinder::Cylinder` passes to the bounding box,
`minimumExtreme` and `maximumExtreme`. -/
def Cylinder.extremes (center axis : vec3 K) (radius height : K) : vec3 K × vec3 K :=
  if axis.x = 1 then
    (⟨center.x - height, center.y - radius, center.z - radius⟩,
      ⟨center.x + height, center.y + radius, center.z + radius⟩)
  else if axis.y = 1 then
    (⟨center.x - radius, center.y - height, center.z - radius⟩,
      ⟨center.x + radius, center.y + height, center.z + radius⟩)
  else if axis.z = 1 then
    (⟨center.x - radius, center.y - radius, center.z - height⟩,
      ⟨center.x + radius, center.y + radius, center.z + height⟩)
  else (⟨0, 0, 0⟩, ⟨0, 0, 0⟩)

/-- The private method `Triangle::sortCounterClockwise`, for the vertices as
the constructor received them: the three vertices sorted by the angle
`atan2(y - centroid.y, x - centroid.x)`.  `std::sort` is an insertion sort
here; the order it gives to vertices of equal angle is not specified. -/
def Triangle.sortCounterClockwise (m : CMath K) (vertex1 vertex2 vertex3 : vec3 K) :
    List (vec3 K) :=
  let vertices := [vertex1, vertex2, vertex3]
  let sum := vertices.foldl
    (fun (centroid : vec3 K) vertex =>
      ⟨centroid.x + vertex.x, centroid.y + vertex.y, centroid.z + vertex.z⟩)
    ⟨0.0, 0.0, 0.0⟩
  let centroid := vec3.sdiv sum 3
  vertices.insertionSort
    (fun v1 v2 => m.atan2 (v1.y - centroid.y) (v1.x - centroid.x)
      ≤ m.atan2 (v2.y - centroid.y) (v2.x - centroid.x))

/-- The two corners `Triangle::Triangle` passes to the bounding box, from the
vertices it stored: the least and the greatest coordinate on each axis. -/
def Triangle.extremes (vertex1 vertex2 vertex3 : vec3 K) : vec3 K × vec3 K :=
  (⟨min vertex1.x (min vertex2.x vertex3.x), min vertex1.y (min vertex2.y vertex3.y),
      min vertex1.z (min vertex2.z vertex3.z)⟩,
    ⟨max vertex1.x (max vertex2.x vertex3.x), max vertex1.y (max vertex2.y vertex3.y),
      max vertex1.z (max vertex2.z vertex3.z)⟩)

/-- The constructor `Triangle::Triangle`: the vertices are stored in the order
`sortCounterClockwise` gives them, and the bounding box is made of their
extreme coordinates. -/
def Triangle.new (m : CMath K) (vertex1 vertex2 vertex3 : vec3 K) (mat : Material K) :
    Triangle K :=
  let sortedVertices := Triangle.sortCounterClockwise m vertex1 vertex2 vertex3
  let stored1 := sortedVertices.getD 0 vertex1
  let stored2 := sortedVertices.getD 1 vertex2
  let stored3 := sortedVertices.getD 2 vertex3
  let corners := Triangle.extremes stored1 stored2 stored3
  ⟨stored1, stored2, stored3, mat, aabb.of_points corners.1 corners.2⟩

end BoxCorners

/-! ## Concrete inputs -/

/-- A square root on `ℚ` that is exact on the squares of rationals. -/
def qsqrt (q : ℚ) : ℚ := (Nat.sqrt q.num.toNat : ℚ) / (Nat.sqrt q.den : ℚ)

/-- The `<cmath>` functions used to run the model on `ℚ`; only `sqrt` matters
for the parameter and the normal of a hit. -/
def qmath : CMath ℚ :=
  { sqrt := qsqrt, acos := fun _ => 0, atan2 := fun _ _ => 0, pow := fun _ _ => 0,
    exp := fun _ => 0, tan := fun _ => 0, cos := fun _ => 0, sin := fun _ => 0 }

/-- An untextured diffuse material. -/
def grey : Material ℚ := .Lambertian ⟨1/2, 1/2, 1/2⟩ none

/-- A record standing for the uninitialised `HitRecord` a caller declares. -/
def rec0 : HitRecord ℚ := ⟨⟨0, 0, 0⟩, ⟨0, 0, 0⟩, none, 0, false, 0, 0⟩

/-- The unit sphere at the origin. -/
def unitSphere : Sphere ℚ := Sphere.new ⟨0, 0, 0⟩ 1 grey 0

/-- The ray from `(0, 0, -5)` along the z axis. -/
def zRay : Ray ℚ := ⟨⟨0, 0, -5⟩, ⟨0, 0, 1⟩⟩

/-- The unit sphere centred at `(0, 0, 3)`. -/
def farSphere : Sphere ℚ := Sphere.new ⟨0, 0, 3⟩ 1 grey 0

/-- A list of two spheres, the farther one first. -/
def twoSpheres : List (Hittable ℚ) :=
  [Sphere.toHittable qmath farSphere, Sphere.toHittable qmath unitSphere]

/-- The triangle with vertices `(0,0,0)`, `(1,0,0)`, `(0,1,0)`; its computed
normal is `(0,0,1)`. -/
def flatTriangle : Triangle ℚ :=
  ⟨⟨0, 0, 0⟩, ⟨1, 0, 0⟩, ⟨0, 1, 0⟩, grey, ⟨⟨0, 0, 0⟩, ⟨1, 1, 0⟩⟩⟩

/-- The ray from `(1/4, 1/4, 1)` straight down the z axis. -/
def downRay : Ray ℚ := ⟨⟨1/4, 1/4, 1⟩, ⟨0, 0, -1⟩⟩

/-- The ray from `(1/4, 1/4, -1)` straight up the z axis. -/
def upRay : Ray ℚ := ⟨⟨1/4, 1/4, -1⟩, ⟨0, 0, 1⟩⟩

/-- The cylinder around the y axis with radius 1 and caps at `y = -1` and
`y = 1`. -/
def unitCylinder : Cylinder ℚ := Cylinder.new ⟨0, 0, 0⟩ ⟨0, 1, 0⟩ 1 1 grey

/-- The ray from the centre of the cylinder along the x axis. -/
def xRay : Ray ℚ := ⟨⟨0, 0, 0⟩, ⟨1, 0, 0⟩⟩

/-- The ray from `(-2, 0, 0)` in direction `(1, 1/2, 0)`: it enters the
cylinder through the side at `t = 1` and leaves through the top cap at `t = 2`. -/
def slantRay : Ray ℚ := ⟨⟨-2, 0, 0⟩, ⟨1, 1/2, 0⟩⟩

/-- The ray from `(0, 3/2, 0)`, above the top cap, in direction `(1, 1, 0)`,
away from the cylinder. -/
def awayRay : Ray ℚ := ⟨⟨0, 3/2, 0⟩, ⟨1, 1, 0⟩⟩

/-- The unit sphere centred at `(0, -5, 0)`, below the cylinder. -/
def lowSphere : Sphere ℚ := Sphere.new ⟨0, -5, 0⟩ 1 grey 0

/-- A scene of two primitives: the cylinder and the sphere below it. -/
def cylinderScene : List (Hittable ℚ) :=
  [Cylinder.toHittable qmath 0 unitCylinder, Sphere.toHittable qmath lowSphere]

/-- The world the scene loader makes of `cylinderScene`: the list holding the
hierarchy built over the objects, `HittableList(make_shared<bvh_node>(objects))`. -/
def cylinderWorld : List (Hittable ℚ) :=
  [(bvh_node.build (Cylinder.toHittable qmath 0 unitCylinder)
    [Sphere.toHittable qmath lowSphere]).toHittable]

/-- The ray from `(0, 5, -5)` along the z axis; it passes above the unit
sphere. -/
def missRay : Ray ℚ := ⟨⟨0, 5, -5⟩, ⟨0, 0, 1⟩⟩

/-- A camera with a white background. -/
def whiteCamera : Camera ℚ := { background := ⟨1, 1, 1⟩ }

/-- Virtual methods for a scene without scattering: `evaluate` returns false
and `getShading` returns black, as the base class `Material` does. -/
def baseShading : Shading ℚ Unit :=
  ⟨fun _ _ _ attenuation scattered g => ((false, attenuation, scattered), g),
    fun _ _ _ _ _ _ _ g => some (⟨0, 0, 0⟩, g)⟩

/-- A texture of two rows and two columns. -/
def checker : Texture :=
  ⟨[[⟨255, 0, 0⟩, ⟨0, 255, 0⟩], [⟨0, 0, 255⟩, ⟨255, 255, 255⟩]]⟩

/-- A hit record at `(0, 0, -5)` whose normal is `(0, 0, 1)`. -/
def shadePoint : HitRecord ℚ := ⟨⟨0, 0, -5⟩, ⟨0, 0, 1⟩, some grey, 1, true, 0, 0⟩

/-- A point light at `(0, 0, -3)`, at distance 2 from `shadePoint` and in front
of the unit sphere. -/
def nearLight : PointLight ℚ := ⟨⟨0, 0, -3⟩, ⟨1, 1, 1⟩⟩

/-- A generator that reads its draws off a list. -/
def listRandom : Random ℚ (List ℚ) :=
  ⟨fun g => (g.headD 0, g.tail), fun g => (g.headD 0, g.tail)⟩

/-- An area light with corner `(0, 0, -3)`, spanned by the unit vectors of the
x and y axes, sampled once. -/
def squareLight : AreaLight ℚ :=
  AreaLight.new qmath ⟨0, 0, -3⟩ ⟨1, 0, 0⟩ ⟨0, 1, 0⟩ ⟨1, 1, 1⟩ 1

/-- Virtual methods of a material that always scatters: `evaluate` succeeds
with attenuation `(1/2, 1/2, 1/2)` and the scattered ray `missRay`. -/
def halfShading : Shading ℚ Unit :=
  ⟨fun _ _ _ _ _ g => ((true, ⟨1/2, 1/2, 1/2⟩, missRay), g),
    fun _ _ _ _ _ _ _ g => some (⟨0, 0, 0⟩, g)⟩

/-- A light whose sample is `(1, 1, 1)` at every hit point. -/
def unitLight : Light ℚ Unit := ⟨fun _ _ g => (⟨1, 1, 1⟩, g), ⟨0, 0, 0⟩, ⟨1, 1, 1⟩⟩

/-- The ray from `(0, 1, -5)` along the z axis; it touches the unit sphere at
`(0, 1, 0)`. -/
def tangentRay : Ray ℚ := ⟨⟨0, 1, -5⟩, ⟨0, 0, 1⟩⟩

/-- The ray from `(0, -5, 0)` up the y axis, the axis of `unitCylinder`; it
passes through the centres of both caps. -/
def axisRay : Ray ℚ := ⟨⟨0, -5, 0⟩, ⟨0, 1, 0⟩⟩

/-- A hit record at `(0, 0, -5)` whose normal `(0, 0, -1)` faces away from the
lights at `z = -3`. -/
def backPoint : HitRecord ℚ := ⟨⟨0, 0, -5⟩, ⟨0, 0, -1⟩, some grey, 1, true, 0, 0⟩

/-- A power function on `ℚ` that is exact for exponents that are natural
numbers. -/
def qpow (x y : ℚ) : ℚ := if y.den = 1 ∧ 0 ≤ y.num then x ^ y.num.toNat else 0

/-- The functions of `qmath` with the power function `qpow`. -/
def qmathPow : CMath ℚ := { qmath with pow := qpow }

/-- The hit record of `zRay` on a unit sphere at the origin: the hit point
`(0, 0, -1)` at `t = 4`, on the front face, with normal `(0, 0, -1)`. -/
def frontHit : HitRecord ℚ := ⟨⟨0, 0, -1⟩, ⟨0, 0, -1⟩, some (.SchlickBRDF (1/25)), 4, true, 0, 0⟩

/-- An untextured `BlinnPhong` material that is reflective with reflectivity
`1/2` and not refractive: diffuse and specular colour `(1, 1, 1)`, specular
exponent 2, `ks = kd = 1/2`. -/
def mirror : Material ℚ :=
  .BlinnPhong none ⟨1, 1, 1⟩ ⟨1, 1, 1⟩ 2 (1/2) (1/2) (1/2) 0 true false 0

/-- The unit sphere at the origin with the material `mirror`. -/
def mirrorSphere : Sphere ℚ := Sphere.new ⟨0, 0, 0⟩ 1 mirror 0

/-- The hit record of `zRay` on `mirrorSphere`. -/
def mirrorHit : HitRecord ℚ := ⟨⟨0, 0, -1⟩, ⟨0, 0, -1⟩, some mirror, 4, true, 0, 0⟩

/-- The ray from `(0, 0, -1)` in direction `(0, 0, -1)`: the mirror reflection
of `zRay` at `mirrorHit`, and the shadow ray from there to `nearLight`. -/
def backRay : Ray ℚ := ⟨⟨0, 0, -1⟩, ⟨0, 0, -1⟩⟩

/-- The functions of `qmath` with a cosine that is exact at the angle 0, the
only angle the examples use. -/
def qmathTrig : CMath ℚ := { qmath with cos := fun _ => 1 }

/-- A camera in the render mode `pathtracer`, with the default image width
100, lens radius 0 and position. -/
def tracerCamera : Camera ℚ := { render_mode := "pathtracer" }

/-- A cylinder around the y axis built with radius `-1` and height `1`. -/
def inwardCylinder : Cylinder ℚ := Cylinder.new ⟨0, 0, 0⟩ ⟨0, 1, 0⟩ (-1) 1 grey

/-- A ray along the x axis that starts outside the unit cylinder. -/
def sideRay : Ray ℚ := ⟨⟨-5, 0, 0⟩, ⟨1, 0, 0⟩⟩

/-! ## Theorems -/

section Lemmas

variable {K : Type}

theorem interval.surrounds_iff [LinearOrder K] (i : interval K) (x : K) :
    i.surrounds x = true ↔ i.min < x ∧ (x : WithTop K) < i.max := by
  simp [interval.surrounds]

theorem interval.contains_iff [LinearOrder K] (i : interval K) (x : K) :
    i.contains x = true ↔ i.min ≤ x ∧ (x : WithTop K) ≤ i.max := by
  simp [interval.contains]

/-- Under the contract, a hit reported for the shrunk interval `(min, c)` is the
hit the object reports for the whole interval. -/
theorem ObeysContract.hit_of_shrunk [LinearOrder K] {o : Hittable K} {r : Ray K}
    (hc : ObeysContract o r) (iv : interval K) (c : WithTop K) (hcm : c ≤ iv.max)
    (tmp : HitRecord K) (h : (o.intersect r ⟨iv.min, c⟩ tmp).1 = true) (rec0 : HitRecord K) :
    (o.intersect r iv rec0).1 = true ∧
      (o.intersect r iv rec0).2.t = (o.intersect r ⟨iv.min, c⟩ tmp).2.t := by
  have hin := (interval.surrounds_iff _ _).1 (hc.inside _ _ h)
  simp only at hin
  have hiv : iv.surrounds (o.intersect r ⟨iv.min, c⟩ tmp).2.t = true :=
    (interval.surrounds_iff _ _).2 ⟨hin.1, lt_of_lt_of_le hin.2 hcm⟩
  have hhit : (o.intersect r iv rec0).1 = true := hc.complete iv rec0 _ _ h hiv
  refine ⟨hhit, le_antisymm (hc.nearest iv rec0 _ _ hhit h hiv) ?_⟩
  have h1 := hc.nearest iv rec0 _ _ hhit h hiv
  have hin0 := (interval.surrounds_iff _ _).1 (hc.inside _ _ hhit)
  refine hc.nearest _ tmp iv rec0 h hhit ((interval.surrounds_iff _ _).2 ⟨hin0.1, ?_⟩)
  exact lt_of_le_of_lt (WithTop.coe_le_coe.2 h1) hin.2

/-- Under the contract, when the shrunk interval `(min, c)` gives no hit, every
hit of the object in the whole interval is at `c` or beyond. -/
theorem ObeysContract.miss_of_shrunk [LinearOrder K] {o : Hittable K} {r : Ray K}
    (hc : ObeysContract o r) (iv : interval K) (c : WithTop K)
    (tmp : HitRecord K) (h : (o.intersect r ⟨iv.min, c⟩ tmp).1 = false) (rec0 : HitRecord K)
    (hhit : (o.intersect r iv rec0).1 = true) :
    c ≤ ((o.intersect r iv rec0).2.t : WithTop K) := by
  by_contra hlt
  have hin0 := (interval.surrounds_iff _ _).1 (hc.inside _ _ hhit)
  have : (o.intersect r ⟨iv.min, c⟩ tmp).1 = true :=
    hc.complete _ tmp iv rec0 hhit ((interval.surrounds_iff _ _).2 ⟨hin0.1, not_le.1 hlt⟩)
  rw [h] at this
  exact Bool.noConfusion this

/-- The state of the loop of `HittableList::intersect` after the whole vector:
either nothing was hit, or the record is that of the earliest object whose own
hit is the nearest. -/
theorem HittableList.foldl_spec [LinearOrder K] (objs : List (Hittable K)) (r : Ray K)
    (iv : interval K) (temp rec : HitRecord K) (hc : ∀ o ∈ objs, ObeysContract o r) :
    ((objs.foldl (HittableList.step r iv) ⟨temp, false, iv.max, rec⟩).hit_anything = false ∧
      (objs.foldl (HittableList.step r iv) ⟨temp, false, iv.max, rec⟩).closest_so_far = iv.max ∧
      (objs.foldl (HittableList.step r iv) ⟨temp, false, iv.max, rec⟩).rec_out = rec ∧
      ∀ o ∈ objs, ∀ rec0, (o.intersect r iv rec0).1 = false) ∨
    ((objs.foldl (HittableList.step r iv) ⟨temp, false, iv.max, rec⟩).hit_anything = true ∧
      (objs.foldl (HittableList.step r iv) ⟨temp, false, iv.max, rec⟩).closest_so_far =
        ((objs.foldl (HittableList.step r iv) ⟨temp, false, iv.max, rec⟩).rec_out.t : WithTop K) ∧
      iv.surrounds (objs.foldl (HittableList.step r iv) ⟨temp, false, iv.max, rec⟩).rec_out.t
        = true ∧
      ∃ l1 o l2, objs = l1 ++ o :: l2 ∧
        (∃ c tmp, o.intersect r ⟨iv.min, c⟩ tmp =
          (true, (objs.foldl (HittableList.step r iv) ⟨temp, false, iv.max, rec⟩).rec_out)) ∧
        (∀ rec0, (o.intersect r iv rec0).1 = true ∧ (o.intersect r iv rec0).2.t =
          (objs.foldl (HittableList.step r iv) ⟨temp, false, iv.max, rec⟩).rec_out.t) ∧
        (∀ o1 ∈ l1, ∀ rec0, (o1.intersect r iv rec0).1 = true →
          (objs.foldl (HittableList.step r iv) ⟨temp, false, iv.max, rec⟩).rec_out.t <
            (o1.intersect r iv rec0).2.t) ∧
        (∀ o2 ∈ l2, ∀ rec0, (o2.intersect r iv rec0).1 = true →
          (objs.foldl (HittableList.step r iv) ⟨temp, false, iv.max, rec⟩).rec_out.t ≤
            (o2.intersect r iv rec0).2.t)) := by
  induction objs using List.reverseRecOn with
  | nil => left; simp
  | append_singleton l a ih =>
    have hl : ∀ o ∈ l, ObeysContract o r := fun o ho => hc o (by simp [ho])
    have ha : ObeysContract a r := hc a (by simp)
    rw [List.foldl_append, List.foldl_cons, List.foldl_nil]
    generalize List.foldl (HittableList.step r iv) ⟨temp, false, iv.max, rec⟩ l = s at ih ⊢
    rcases ih hl with ⟨h1, h2, h3, h4⟩ | ⟨h1, h2, h3, l1, o, l2, hdec, hrec, hown, hbefore, hafter⟩
    · -- nothing hit so far: the object is queried with the whole interval
      cases hres : (a.intersect r ⟨iv.min, s.closest_so_far⟩ s.temp_rec).1
      · left
        simp only [HittableList.step, hres, Bool.false_eq_true, if_false]
        refine ⟨h1, h2, h3, ?_⟩
        intro o ho rec0
        rcases List.mem_append.1 ho with ho | ho
        · exact h4 o ho rec0
        · rw [List.mem_singleton] at ho
          subst ho
          by_contra hne
          have hhit : (o.intersect r iv rec0).1 = true := by simpa using hne
          have := ha.miss_of_shrunk iv s.closest_so_far s.temp_rec hres rec0 hhit
          have hin0 := (interval.surrounds_iff _ _).1 (ha.inside _ _ hhit)
          rw [h2] at this
          exact absurd hin0.2 (not_lt.2 this)
      · right
        have hsh := ha.hit_of_shrunk iv s.closest_so_far (le_of_eq h2) s.temp_rec hres
        simp only [HittableList.step, hres, if_true]
        have hin := ha.inside _ _ hres
        refine ⟨trivial, trivial, ?_, l, a, [], rfl, ⟨s.closest_so_far, s.temp_rec, ?_⟩, ?_, ?_, ?_⟩
        · rw [interval.surrounds_iff] at hin ⊢
          exact ⟨hin.1, lt_of_lt_of_le hin.2 (le_of_eq h2)⟩
        · exact Prod.ext hres rfl
        · exact fun rec0 => hsh rec0
        · intro o1 ho1 rec0 hhit
          rw [h4 o1 ho1 rec0] at hhit
          exact Bool.noConfusion hhit
        · intro o2 ho2
          simp at ho2
    · -- something was hit: the object is queried with the shrunk interval
      have hT := (interval.surrounds_iff _ _).1 h3
      have hall : ∀ o1 ∈ l, ∀ rec0, (o1.intersect r iv rec0).1 = true →
          s.rec_out.t ≤ (o1.intersect r iv rec0).2.t := by
        intro o1 ho1 rec0 hhit
        rw [hdec] at ho1
        rcases List.mem_append.1 ho1 with ho1 | ho1
        · exact le_of_lt (hbefore o1 ho1 rec0 hhit)
        · rcases List.mem_cons.1 ho1 with ho1 | ho1
          · subst ho1
            exact le_of_eq (hown rec0).2.symm
          · exact hafter o1 ho1 rec0 hhit
      cases hres : (a.intersect r ⟨iv.min, s.closest_so_far⟩ s.temp_rec).1
      · right
        simp only [HittableList.step, hres, Bool.false_eq_true, if_false]
        refine ⟨h1, h2, h3, l1, o, l2 ++ [a], by simp [hdec], hrec, hown, hbefore, ?_⟩
        intro o2 ho2 rec0 hhit
        rcases List.mem_append.1 ho2 with ho2 | ho2
        · exact hafter o2 ho2 rec0 hhit
        · rw [List.mem_singleton] at ho2
          subst ho2
          have := ha.miss_of_shrunk iv s.closest_so_far s.temp_rec hres rec0 hhit
          rw [h2] at this
          exact WithTop.coe_le_coe.1 this
      · right
        have hsh := ha.hit_of_shrunk iv s.closest_so_far (by rw [h2]; exact le_of_lt hT.2)
          s.temp_rec hres
        have hin := (interval.surrounds_iff _ _).1 (ha.inside _ _ hres)
        simp only at hin
        simp only [HittableList.step, hres, if_true]
        refine ⟨trivial, trivial, ?_, l, a, [], rfl, ⟨s.closest_so_far, s.temp_rec, ?_⟩, ?_, ?_, ?_⟩
        · rw [interval.surrounds_iff]
          exact ⟨hin.1, lt_trans hin.2 (by rw [h2]; exact hT.2)⟩
        · exact Prod.ext hres rfl
        · exact fun rec0 => hsh rec0
        · intro o1 ho1 rec0 hhit
          have h5 := hall o1 ho1 rec0 hhit
          rw [h2] at hin ⊢
          exact lt_of_lt_of_le (WithTop.coe_lt_coe.1 hin.2) h5
        · intro o2 ho2
          simp at ho2

end Lemmas

section VecLemmas
variable {K : Type}

@[simp] theorem vec3.add_x [Add K] (u v : vec3 K) : (u + v).x = u.x + v.x := rfl
@[simp] theorem vec3.add_y [Add K] (u v : vec3 K) : (u + v).y = u.y + v.y := rfl
@[simp] theorem vec3.add_z [Add K] (u v : vec3 K) : (u + v).z = u.z + v.z := rfl
@[simp] theorem vec3.sub_x [Sub K] (u v : vec3 K) : (u - v).x = u.x - v.x := rfl
@[simp] theorem vec3.sub_y [Sub K] (u v : vec3 K) : (u - v).y = u.y - v.y := rfl
@[simp] theorem vec3.sub_z [Sub K] (u v : vec3 K) : (u - v).z = u.z - v.z := rfl
@[simp] theorem vec3.neg_x [Neg K] (v : vec3 K) : (-v).x = -v.x := rfl
@[simp] theorem vec3.neg_y [Neg K] (v : vec3 K) : (-v).y = -v.y := rfl
@[simp] theorem vec3.neg_z [Neg K] (v : vec3 K) : (-v).z = -v.z := rfl
@[simp] theorem vec3.smul_x [Mul K] (t : K) (v : vec3 K) : (vec3.smul t v).x = t * v.x := rfl
@[simp] theorem vec3.smul_y [Mul K] (t : K) (v : vec3 K) : (vec3.smul t v).y = t * v.y := rfl
@[simp] theorem vec3.smul_z [Mul K] (t : K) (v : vec3 K) : (vec3.smul t v).z = t * v.z := rfl

theorem vec3.ext3 {u v : vec3 K} (hx : u.x = v.x) (hy : u.y = v.y) (hz : u.z = v.z) :
    u = v := by
  cases u; cases v; simp_all

/-- A vector other than the zero vector has a positive squared length. -/
theorem vec3.dot_self_pos [LinearOrderedField K] (v : vec3 K) (hv : v ≠ ⟨0, 0, 0⟩) :
    0 < vec3.dot v v := by
  have h : v.x ≠ 0 ∨ v.y ≠ 0 ∨ v.z ≠ 0 := by
    by_contra hcon
    push_neg at hcon
    apply hv
    cases v
    simp_all
  simp only [vec3.dot]
  rcases h with h | h | h
  · have := mul_self_pos.2 h
    nlinarith [mul_self_nonneg v.y, mul_self_nonneg v.z]
  · have := mul_self_pos.2 h
    nlinarith [mul_self_nonneg v.x, mul_self_nonneg v.z]
  · have := mul_self_pos.2 h
    nlinarith [mul_self_nonneg v.x, mul_self_nonneg v.y]

end VecLemmas

section SphereLemmas
variable {K : Type} [LinearOrderedField K]

theorem Sphere.hit_info_t (m : CMath K) (s : Sphere K) (r : Ray K) (temp : K)
    (rec : HitRecord K) : (Sphere.hit_info m s r temp rec).t = temp := by
  unfold Sphere.hit_info HitRecord.set_face_normal
  split <;> rfl

theorem Sphere.hit_info_p (m : CMath K) (s : Sphere K) (r : Ray K) (temp : K)
    (rec : HitRecord K) : (Sphere.hit_info m s r temp rec).p = r.at temp := by
  unfold Sphere.hit_info HitRecord.set_face_normal
  split <;> rfl

/-- The sphere equation along the ray, multiplied by `a = d.d`, is a difference
of two squares. -/
theorem Sphere.equation_eq (s : Sphere K) (r : Ray K) (t : K) :
    vec3.dot r.direction r.direction *
        (vec3.length_squared (r.at t - s.center) - s.radius * s.radius) =
      (vec3.dot r.direction r.direction * t + vec3.dot (r.origin - s.center) r.direction) ^ 2
        - Sphere.discriminant s r := by
  simp only [vec3.dot, vec3.length_squared, Ray.at, Sphere.discriminant, vec3.add_x, vec3.add_y,
    vec3.add_z, vec3.sub_x, vec3.sub_y, vec3.sub_z, vec3.smul_x, vec3.smul_y, vec3.smul_z]
  ring

/-- With an exact square root of the discriminant, the roots of the sphere
equation along the ray are the two values `Sphere::intersect` computes. -/
theorem Sphere.root_iff (s : Sphere K) (r : Ray K) (sq : K)
    (ha : 0 < vec3.dot r.direction r.direction) (hsq : sq * sq = Sphere.discriminant s r)
    (t : K) :
    vec3.length_squared (r.at t - s.center) = s.radius * s.radius ↔
      t = (-vec3.dot (r.origin - s.center) r.direction - sq) / vec3.dot r.direction r.direction ∨
      t = (-vec3.dot (r.origin - s.center) r.direction + sq) / vec3.dot r.direction r.direction := by
  have hne : vec3.dot r.direction r.direction ≠ 0 := ne_of_gt ha
  have heq := Sphere.equation_eq s r t
  rw [← hsq] at heq
  rw [eq_div_iff hne, eq_div_iff hne]
  constructor
  · intro h
    rw [h, sub_self, mul_zero] at heq
    have h2 : (vec3.dot r.direction r.direction * t + vec3.dot (r.origin - s.center) r.direction
        - sq) * (vec3.dot r.direction r.direction * t
          + vec3.dot (r.origin - s.center) r.direction + sq) = 0 := by
      linear_combination -heq
    rcases mul_eq_zero.1 h2 with h3 | h3
    · right; linear_combination h3
    · left; linear_combination h3
  · intro h
    have h2 : vec3.dot r.direction r.direction *
        (vec3.length_squared (r.at t - s.center) - s.radius * s.radius) = 0 := by
      rw [heq]
      rcases h with h | h
      · have : vec3.dot r.direction r.direction * t
            + vec3.dot (r.origin - s.center) r.direction = -sq := by linear_combination h
        rw [this]; ring
      · have : vec3.dot r.direction r.direction * t
            + vec3.dot (r.origin - s.center) r.direction = sq := by linear_combination h
        rw [this]; ring
    rcases mul_eq_zero.1 h2 with h3 | h3
    · exact absurd h3 hne
    · exact sub_eq_zero.1 h3

/-- With a negative discriminant the ray has no point on the sphere. -/
theorem Sphere.no_root (s : Sphere K) (r : Ray K)
    (hD : Sphere.discriminant s r < 0) (t : K) :
    vec3.length_squared (r.at t - s.center) ≠ s.radius * s.radius := by
  intro h
  have heq := Sphere.equation_eq s r t
  rw [h, sub_self, mul_zero] at heq
  nlinarith [sq_nonneg (vec3.dot r.direction r.direction * t
    + vec3.dot (r.origin - s.center) r.direction)]


/-- The three outcomes of `Sphere::intersect`: no hit, or a hit recorded for
the first or for the second computed root. -/
theorem Sphere.intersect_eq (m : CMath K) (s : Sphere K) (r : Ray K) (ray_t : interval K)
    (rec : HitRecord K) :
    Sphere.intersect m s r ray_t rec =
      if Sphere.discriminant s r < 0 then (false, rec)
      else if ray_t.surrounds ((-vec3.dot (r.origin - s.center) r.direction
          - m.sqrt (Sphere.discriminant s r)) / vec3.dot r.direction r.direction) = true then
        (true, Sphere.hit_info m s r ((-vec3.dot (r.origin - s.center) r.direction
          - m.sqrt (Sphere.discriminant s r)) / vec3.dot r.direction r.direction) rec)
      else if ray_t.surrounds ((-vec3.dot (r.origin - s.center) r.direction
          + m.sqrt (Sphere.discriminant s r)) / vec3.dot r.direction r.direction) = true then
        (true, Sphere.hit_info m s r ((-vec3.dot (r.origin - s.center) r.direction
          + m.sqrt (Sphere.discriminant s r)) / vec3.dot r.direction r.direction) rec)
      else (false, rec) := by
  unfold Sphere.intersect Sphere.discriminant
  simp only []
  split
  · rfl
  · split <;> split <;> simp_all

end SphereLemmas

section SphereSpec
variable {K : Type} [LinearOrderedField K]

/-- What `Sphere::intersect` computes, for a ray with non-zero direction and an
exact square root of the discriminant: a hit exactly when the sphere equation
has a root inside the interval, and then the smallest such root. -/
theorem Sphere.sphere_intersect_spec (m : CMath K) (s : Sphere K) (r : Ray K)
    (ray_t : interval K) (rec : HitRecord K) (hd : r.direction ≠ ⟨0, 0, 0⟩)
    (hs : 0 ≤ Sphere.discriminant s r → ExactSqrt m.sqrt (Sphere.discriminant s r)) :
    ((Sphere.intersect m s r ray_t rec).1 = true ↔
      ∃ t, vec3.length_squared (r.at t - s.center) = s.radius * s.radius ∧
        ray_t.surrounds t = true) ∧
    ((Sphere.intersect m s r ray_t rec).1 = true →
      vec3.length_squared (r.at (Sphere.intersect m s r ray_t rec).2.t - s.center)
          = s.radius * s.radius ∧
        ray_t.surrounds (Sphere.intersect m s r ray_t rec).2.t = true ∧
        (∀ t, vec3.length_squared (r.at t - s.center) = s.radius * s.radius →
          ray_t.surrounds t = true → (Sphere.intersect m s r ray_t rec).2.t ≤ t) ∧
        (Sphere.intersect m s r ray_t rec).2.p = r.at (Sphere.intersect m s r ray_t rec).2.t ∧
        vec3.length_squared ((Sphere.intersect m s r ray_t rec).2.p - s.center)
          = s.radius * s.radius) := by
  have ha := vec3.dot_self_pos r.direction hd
  rw [Sphere.intersect_eq]
  by_cases hD : Sphere.discriminant s r < 0
  · rw [if_pos hD]
    refine ⟨⟨fun h => Bool.noConfusion h, ?_⟩, fun h => Bool.noConfusion h⟩
    rintro ⟨t, ht, _⟩
    exact absurd ht (Sphere.no_root s r hD t)
  · rw [if_neg hD]
    obtain ⟨hs0, hsq⟩ := hs (not_lt.1 hD)
    have hroot := Sphere.root_iff s r (m.sqrt (Sphere.discriminant s r)) ha hsq
    have hle : (-vec3.dot (r.origin - s.center) r.direction
        - m.sqrt (Sphere.discriminant s r)) / vec3.dot r.direction r.direction ≤
        (-vec3.dot (r.origin - s.center) r.direction
        + m.sqrt (Sphere.discriminant s r)) / vec3.dot r.direction r.direction :=
      div_le_div_of_nonneg_right (by linarith) (le_of_lt ha)
    by_cases h1 : ray_t.surrounds ((-vec3.dot (r.origin - s.center) r.direction
        - m.sqrt (Sphere.discriminant s r)) / vec3.dot r.direction r.direction) = true
    · rw [if_pos h1]
      have hon := (hroot _).2 (Or.inl rfl)
      refine ⟨⟨fun _ => ⟨_, hon, h1⟩, fun _ => rfl⟩, fun _ => ?_⟩
      simp only [Sphere.hit_info_t, Sphere.hit_info_p]
      refine ⟨hon, h1, ?_, trivial, hon⟩
      intro t ht _
      rcases (hroot t).1 ht with h | h
      · exact le_of_eq h.symm
      · rw [h]; exact hle
    · rw [if_neg h1]
      by_cases h2 : ray_t.surrounds ((-vec3.dot (r.origin - s.center) r.direction
          + m.sqrt (Sphere.discriminant s r)) / vec3.dot r.direction r.direction) = true
      · rw [if_pos h2]
        have hon := (hroot _).2 (Or.inr rfl)
        refine ⟨⟨fun _ => ⟨_, hon, h2⟩, fun _ => rfl⟩, fun _ => ?_⟩
        simp only [Sphere.hit_info_t, Sphere.hit_info_p]
        refine ⟨hon, h2, ?_, trivial, hon⟩
        intro t ht hin
        rcases (hroot t).1 ht with h | h
        · rw [h] at hin; exact absurd hin h1
        · exact le_of_eq h.symm
      · rw [if_neg h2]
        refine ⟨⟨fun h => Bool.noConfusion h, ?_⟩, fun h => Bool.noConfusion h⟩
        rintro ⟨t, ht, hin⟩
        rcases (hroot t).1 ht with h | h
        · rw [h] at hin; exact absurd hin h1
        · rw [h] at hin; exact absurd hin h2

end SphereSpec


/-- The square root `qsqrt` is exact on the square of a non-negative rational. -/
theorem qsqrt_mul_self (x : ℚ) (hx : 0 ≤ x) : qsqrt (x * x) = x := by
  unfold qsqrt
  rw [Rat.mul_self_num, Rat.mul_self_den, Nat.sqrt_eq]
  have hn : 0 ≤ x.num := Rat.num_nonneg.2 hx
  have h1 : (x.num * x.num).toNat = x.num.toNat * x.num.toNat := by
    apply Int.ofNat.inj
    simp only [Int.ofNat_eq_coe, Nat.cast_mul]
    rw [Int.toNat_of_nonneg hn, Int.toNat_of_nonneg (mul_nonneg hn hn)]
  rw [h1, Nat.sqrt_eq]
  have h2 : ((x.num.toNat : ℕ) : ℚ) = (x.num : ℚ) := by
    have := Int.toNat_of_nonneg hn
    exact_mod_cast this
  rw [h2]
  exact Rat.num_div_den x

theorem qsqrt_exact (x : ℚ) (hx : 0 ≤ x) : ExactSqrt qsqrt (x * x) := by
  unfold ExactSqrt
  rw [qsqrt_mul_self x hx]
  exact ⟨hx, rfl⟩

section SphereContract
variable {K : Type} [LinearOrderedField K]

/-- A sphere obeys the intersection contract on every ray with non-zero
direction for which the square root of the discriminant is exact. -/
theorem Sphere.obeysContract (m : CMath K) (s : Sphere K) (r : Ray K)
    (hd : r.direction ≠ ⟨0, 0, 0⟩)
    (hs : 0 ≤ Sphere.discriminant s r → ExactSqrt m.sqrt (Sphere.discriminant s r)) :
    ObeysContract (Sphere.toHittable m s) r where
  inside := fun iv rec0 h => ((Sphere.sphere_intersect_spec m s r iv rec0 hd hs).2 h).2.1
  nearest := fun iv rec0 iv1 rec1 h h1 hin =>
    ((Sphere.sphere_intersect_spec m s r iv rec0 hd hs).2 h).2.2.1 _
      ((Sphere.sphere_intersect_spec m s r iv1 rec1 hd hs).2 h1).1 hin
  complete := fun iv rec0 iv1 rec1 h1 hin =>
    (Sphere.sphere_intersect_spec m s r iv rec0 hd hs).1.2
      ⟨_, ((Sphere.sphere_intersect_spec m s r iv1 rec1 hd hs).2 h1).1, hin⟩
end SphereContract

section TriangleLemmas
variable {K : Type} [LinearOrderedField K]

theorem vec3.dot_comm (u v : vec3 K) : vec3.dot u v = vec3.dot v u := by
  simp only [vec3.dot]; ring

theorem Triangle.epsilon_pos : (0 : K) < Triangle.epsilon := by
  unfold Triangle.epsilon
  positivity

/-- A hit of `Triangle::intersect`: the ray is not parallel to the plane, the
plane parameter is inside the interval, and the three edge tests pass. -/
theorem Triangle.intersect_hit_iff (m : CMath K) (tr : Triangle K) (r : Ray K)
    (ray_t : interval K) (rec : HitRecord K) :
    (Triangle.intersect m tr r ray_t rec).1 = true ↔
      Triangle.epsilon ≤ |vec3.dot (Triangle.normal tr) r.direction| ∧
      ray_t.surrounds (Triangle.plane_t tr r) = true ∧
      0 ≤ vec3.dot (Triangle.normal tr)
        (vec3.cross (tr.vertex2 - tr.vertex1) (r.at (Triangle.plane_t tr r) - tr.vertex1)) ∧
      0 ≤ vec3.dot (Triangle.normal tr)
        (vec3.cross (tr.vertex3 - tr.vertex2) (r.at (Triangle.plane_t tr r) - tr.vertex2)) ∧
      0 ≤ vec3.dot (Triangle.normal tr)
        (vec3.cross (tr.vertex1 - tr.vertex3) (r.at (Triangle.plane_t tr r) - tr.vertex3)) := by
  unfold Triangle.intersect Triangle.plane_t Triangle.normal
  simp only []
  generalize vec3.cross (tr.vertex2 - tr.vertex1) (tr.vertex3 - tr.vertex1) = N
  generalize -(vec3.dot r.origin N + -vec3.dot N tr.vertex1) / vec3.dot N r.direction = t
  rw [vec3.dot_comm (vec3.cross (tr.vertex2 - tr.vertex1) (r.at t - tr.vertex1)) N]
  generalize vec3.dot N (vec3.cross (tr.vertex2 - tr.vertex1) (r.at t - tr.vertex1)) = x1
  generalize vec3.dot N (vec3.cross (tr.vertex3 - tr.vertex2) (r.at t - tr.vertex2)) = x2
  generalize vec3.dot N (vec3.cross (tr.vertex1 - tr.vertex3) (r.at t - tr.vertex3)) = x3
  generalize |vec3.dot N r.direction| = nd
  split_ifs <;> simp_all

/-- The fields a hit of `Triangle::intersect` writes, and `front_face`, which it
leaves as it found it. -/
theorem Triangle.intersect_hit_rec (m : CMath K) (tr : Triangle K) (r : Ray K)
    (ray_t : interval K) (rec : HitRecord K)
    (h : (Triangle.intersect m tr r ray_t rec).1 = true) :
    (Triangle.intersect m tr r ray_t rec).2.t = Triangle.plane_t tr r ∧
    (Triangle.intersect m tr r ray_t rec).2.p = r.at (Triangle.plane_t tr r) ∧
    (Triangle.intersect m tr r ray_t rec).2.normal
      = -vec3.unit_vector m.sqrt (Triangle.normal tr) ∧
    (Triangle.intersect m tr r ray_t rec).2.front_face = rec.front_face := by
  revert h
  unfold Triangle.intersect Triangle.plane_t Triangle.normal
  simp only []
  generalize vec3.cross (tr.vertex2 - tr.vertex1) (tr.vertex3 - tr.vertex1) = N
  generalize -(vec3.dot r.origin N + -vec3.dot N tr.vertex1) / vec3.dot N r.direction = t
  generalize vec3.dot N (vec3.cross (tr.vertex2 - tr.vertex1) (r.at t - tr.vertex1)) = x1
  generalize vec3.dot (vec3.cross (tr.vertex2 - tr.vertex1) (r.at t - tr.vertex1)) N = y1
  generalize vec3.dot N (vec3.cross (tr.vertex3 - tr.vertex2) (r.at t - tr.vertex2)) = x2
  generalize vec3.dot N (vec3.cross (tr.vertex1 - tr.vertex3) (r.at t - tr.vertex3)) = x3
  generalize |vec3.dot N r.direction| = nd
  split_ifs <;> simp


/-- The point at the plane parameter lies in the plane of the triangle. -/
theorem Triangle.plane_t_in_plane (tr : Triangle K) (r : Ray K)
    (hnd : vec3.dot (Triangle.normal tr) r.direction ≠ 0) :
    vec3.dot (Triangle.normal tr) (r.at (Triangle.plane_t tr r) - tr.vertex1) = 0 := by
  unfold Triangle.plane_t
  simp only []
  rw [show vec3.cross (tr.vertex2 - tr.vertex1) (tr.vertex3 - tr.vertex1) = Triangle.normal tr
    from rfl] at *
  generalize Triangle.normal tr = N at *
  simp only [vec3.dot, Ray.at, vec3.add_x, vec3.add_y, vec3.add_z, vec3.sub_x, vec3.sub_y,
    vec3.sub_z, vec3.smul_x, vec3.smul_y, vec3.smul_z] at hnd ⊢
  field_simp
  ring

/-- The plane parameter is the only parameter at which a ray that is not
parallel to the plane meets it. -/
theorem Triangle.plane_t_unique (tr : Triangle K) (r : Ray K)
    (hnd : vec3.dot (Triangle.normal tr) r.direction ≠ 0) (t : K)
    (ht : vec3.dot (Triangle.normal tr) (r.at t - tr.vertex1) = 0) :
    t = Triangle.plane_t tr r := by
  unfold Triangle.plane_t
  simp only []
  rw [show vec3.cross (tr.vertex2 - tr.vertex1) (tr.vertex3 - tr.vertex1) = Triangle.normal tr
    from rfl] at *
  generalize Triangle.normal tr = N at *
  rw [eq_div_iff hnd]
  simp only [vec3.dot, Ray.at, vec3.add_x, vec3.add_y, vec3.add_z, vec3.sub_x, vec3.sub_y,
    vec3.sub_z, vec3.smul_x, vec3.smul_y, vec3.smul_z] at ht ⊢
  linear_combination ht

/-- The three edge functions add up to the squared length of the normal. -/
theorem Triangle.edge_sum (tr : Triangle K) (P : vec3 K) :
    vec3.dot (Triangle.normal tr) (vec3.cross (tr.vertex2 - tr.vertex1) (P - tr.vertex1)) +
    vec3.dot (Triangle.normal tr) (vec3.cross (tr.vertex3 - tr.vertex2) (P - tr.vertex2)) +
    vec3.dot (Triangle.normal tr) (vec3.cross (tr.vertex1 - tr.vertex3) (P - tr.vertex3)) =
    vec3.dot (Triangle.normal tr) (Triangle.normal tr) := by
  simp only [Triangle.normal, vec3.dot, vec3.cross, vec3.sub_x, vec3.sub_y, vec3.sub_z]
  ring

/-- A point of the plane, scaled by the squared length of the normal, is the
combination of the vertices weighted by the edge functions. -/
theorem Triangle.barycentric (tr : Triangle K) (P : vec3 K)
    (hP : vec3.dot (Triangle.normal tr) (P - tr.vertex1) = 0) :
    vec3.smul (vec3.dot (Triangle.normal tr) (Triangle.normal tr)) P =
      vec3.smul (vec3.dot (Triangle.normal tr)
          (vec3.cross (tr.vertex3 - tr.vertex2) (P - tr.vertex2))) tr.vertex1 +
        vec3.smul (vec3.dot (Triangle.normal tr)
          (vec3.cross (tr.vertex1 - tr.vertex3) (P - tr.vertex3))) tr.vertex2 +
        vec3.smul (vec3.dot (Triangle.normal tr)
          (vec3.cross (tr.vertex2 - tr.vertex1) (P - tr.vertex1))) tr.vertex3 := by
  simp only [Triangle.normal, vec3.dot, vec3.cross, vec3.sub_x, vec3.sub_y, vec3.sub_z] at hP
  apply vec3.ext3 <;>
    simp only [Triangle.normal, vec3.dot, vec3.cross, vec3.sub_x, vec3.sub_y, vec3.sub_z,
      vec3.add_x, vec3.add_y, vec3.add_z, vec3.smul_x, vec3.smul_y, vec3.smul_z]
  · linear_combination ((tr.vertex2.y - tr.vertex1.y) * (tr.vertex3.z - tr.vertex1.z)
      - (tr.vertex2.z - tr.vertex1.z) * (tr.vertex3.y - tr.vertex1.y)) * hP
  · linear_combination ((tr.vertex2.z - tr.vertex1.z) * (tr.vertex3.x - tr.vertex1.x)
      - (tr.vertex2.x - tr.vertex1.x) * (tr.vertex3.z - tr.vertex1.z)) * hP
  · linear_combination ((tr.vertex2.x - tr.vertex1.x) * (tr.vertex3.y - tr.vertex1.y)
      - (tr.vertex2.y - tr.vertex1.y) * (tr.vertex3.x - tr.vertex1.x)) * hP

/-- At a convex combination of the vertices the edge functions are the weights
scaled by the squared length of the normal, and the point is in the plane. -/
theorem Triangle.edge_of_combination (tr : Triangle K) (w1 w2 w3 : K)
    (hsum : w1 + w2 + w3 = 1) (P : vec3 K)
    (hP : P = vec3.smul w1 tr.vertex1 + vec3.smul w2 tr.vertex2 + vec3.smul w3 tr.vertex3) :
    vec3.dot (Triangle.normal tr) (vec3.cross (tr.vertex2 - tr.vertex1) (P - tr.vertex1))
      = w3 * vec3.dot (Triangle.normal tr) (Triangle.normal tr) ∧
    vec3.dot (Triangle.normal tr) (vec3.cross (tr.vertex3 - tr.vertex2) (P - tr.vertex2))
      = w1 * vec3.dot (Triangle.normal tr) (Triangle.normal tr) ∧
    vec3.dot (Triangle.normal tr) (vec3.cross (tr.vertex1 - tr.vertex3) (P - tr.vertex3))
      = w2 * vec3.dot (Triangle.normal tr) (Triangle.normal tr) ∧
    vec3.dot (Triangle.normal tr) (P - tr.vertex1) = 0 := by
  have h1 : w1 = 1 - w2 - w3 := by linear_combination hsum
  subst h1
  subst hP
  simp only [Triangle.normal, vec3.dot, vec3.cross, vec3.sub_x, vec3.sub_y, vec3.sub_z,
    vec3.add_x, vec3.add_y, vec3.add_z, vec3.smul_x, vec3.smul_y, vec3.smul_z]
  refine ⟨?_, ?_, ?_, ?_⟩ <;> ring

end TriangleLemmas

section CylinderLemmas

variable {K : Type} [LinearOrderedField K]

theorem Cylinder.cap_info_t (m : CMath K) (cy : Cylinder K) (r : Ray K) (root : K)
    (point : vec3 K) (rec : HitRecord K) : (Cylinder.cap_info m cy r root point rec).t = root :=
  rfl

theorem Cylinder.body_info_t (m : CMath K) (phi0 : K) (cy : Cylinder K) (r : Ray K)
    (hit_point projection : K) (rec : HitRecord K) :
    (Cylinder.body_info m phi0 cy r hit_point projection rec).t = hit_point := by
  unfold Cylinder.body_info HitRecord.set_face_normal
  split <;> rfl

end CylinderLemmas

theorem qsqrt_four : qsqrt 4 = 2 := by
  have := qsqrt_mul_self 2 (by norm_num)
  norm_num at this
  exact this

section NormalLemmas
variable {K : Type} [LinearOrderedField K]

theorem vec3.length_squared_neg (v : vec3 K) :
    vec3.length_squared (-v) = vec3.length_squared v := by
  simp only [vec3.length_squared, vec3.neg_x, vec3.neg_y, vec3.neg_z]; ring

theorem vec3.length_squared_sdiv (v : vec3 K) (t : K) (ht : t ≠ 0) :
    vec3.length_squared (vec3.sdiv v t) = vec3.length_squared v / (t * t) := by
  simp only [vec3.length_squared, vec3.sdiv, vec3.smul_x, vec3.smul_y, vec3.smul_z]
  field_simp

/-- The result of `unit_vector` has length 1 when the vector is not zero and
the square root of its squared length is exact. -/
theorem vec3.unit_vector_length_squared (sqrt : K → K) (v : vec3 K)
    (hv : vec3.length_squared v ≠ 0) (hs : ExactSqrt sqrt (vec3.length_squared v)) :
    vec3.length_squared (vec3.unit_vector sqrt v) = 1 := by
  unfold vec3.unit_vector vec3.length
  have hne : sqrt (vec3.length_squared v) ≠ 0 := by
    intro h0
    apply hv
    rw [← hs.2, h0, mul_zero]
  rw [vec3.length_squared_sdiv _ _ hne, hs.2]
  exact div_self hv

theorem HitRecord.set_face_normal_normal (rec : HitRecord K) (r : Ray K) (n : vec3 K) :
    (rec.set_face_normal r n).normal = if vec3.dot r.direction n < 0 then n else -n := by
  unfold HitRecord.set_face_normal
  simp

theorem HitRecord.set_face_normal_front_face (rec : HitRecord K) (r : Ray K) (n : vec3 K) :
    (rec.set_face_normal r n).front_face = decide (vec3.dot r.direction n < 0) := rfl

theorem HitRecord.set_face_normal_length (rec : HitRecord K) (r : Ray K) (n : vec3 K) :
    vec3.length_squared (rec.set_face_normal r n).normal = vec3.length_squared n := by
  rw [HitRecord.set_face_normal_normal]
  split
  · rfl
  · exact vec3.length_squared_neg n

/-- The normal `set_face_normal` stores points against the ray. -/
theorem HitRecord.set_face_normal_against (rec : HitRecord K) (r : Ray K) (n : vec3 K) :
    vec3.dot r.direction (rec.set_face_normal r n).normal ≤ 0 := by
  rw [HitRecord.set_face_normal_normal]
  split
  · next h => exact le_of_lt h
  · next h =>
    have : vec3.dot r.direction (-n) = -vec3.dot r.direction n := by
      simp only [vec3.dot, vec3.neg_x, vec3.neg_y, vec3.neg_z]; ring
    rw [this]
    linarith [not_lt.1 h]

theorem Sphere.hit_info_normal (m : CMath K) (s : Sphere K) (r : Ray K) (temp : K)
    (rec : HitRecord K) :
    (Sphere.hit_info m s r temp rec).normal =
      (rec.set_face_normal r (vec3.sdiv (r.at temp - s.center) s.radius)).normal := by
  unfold Sphere.hit_info HitRecord.set_face_normal
  split <;> rfl

theorem Sphere.hit_info_front_face (m : CMath K) (s : Sphere K) (r : Ray K) (temp : K)
    (rec : HitRecord K) :
    (Sphere.hit_info m s r temp rec).front_face =
      decide (vec3.dot r.direction (vec3.sdiv (r.at temp - s.center) s.radius) < 0) := by
  unfold Sphere.hit_info HitRecord.set_face_normal
  split <;> rfl

/-- A hit of `Sphere::intersect` is recorded by `hit_info` at the recorded `t`. -/
theorem Sphere.sphere_hit_rec (m : CMath K) (s : Sphere K) (r : Ray K) (ray_t : interval K)
    (rec : HitRecord K) (h : (Sphere.intersect m s r ray_t rec).1 = true) :
    (Sphere.intersect m s r ray_t rec).2 =
      Sphere.hit_info m s r (Sphere.intersect m s r ray_t rec).2.t rec := by
  revert h
  rw [Sphere.intersect_eq]
  split_ifs <;> simp [Sphere.hit_info_t]

theorem Cylinder.cap_info_normal (m : CMath K) (cy : Cylinder K) (r : Ray K) (root : K)
    (point : vec3 K) (rec : HitRecord K) :
    (Cylinder.cap_info m cy r root point rec).normal =
      (rec.set_face_normal r (vec3.unit_vector m.sqrt cy.axis)).normal := rfl

theorem Cylinder.body_info_normal (m : CMath K) (phi0 : K) (cy : Cylinder K) (r : Ray K)
    (hit_point projection : K) (rec : HitRecord K) :
    (Cylinder.body_info m phi0 cy r hit_point projection rec).normal =
      (rec.set_face_normal r (vec3.unit_vector m.sqrt
        (r.at hit_point - cy.center - vec3.smul projection cy.axis))).normal := by
  unfold Cylinder.body_info HitRecord.set_face_normal
  split <;> rfl

/-- A hit of `Cylinder::intersect` has a positive discriminant and is recorded
either as a cap hit or as a body hit at one of the two roots of the quadratic. -/
theorem Cylinder.intersect_hit_cases (m : CMath K) (phi0 : K) (cy : Cylinder K) (r : Ray K)
    (ray_t : interval K) (rec : HitRecord K)
    (h : (Cylinder.intersect m phi0 cy r ray_t rec).1 = true) :
    0 < Cylinder.discriminant cy r ∧
    ((∃ root point, (Cylinder.intersect m phi0 cy r ray_t rec).2
        = Cylinder.cap_info m cy r root point rec) ∨
      (∃ hit_point,
        (hit_point = (-Cylinder.quad_b cy r - m.sqrt (Cylinder.discriminant cy r))
            / (2 * Cylinder.quad_a cy r) ∨
          hit_point = (-Cylinder.quad_b cy r + m.sqrt (Cylinder.discriminant cy r))
            / (2 * Cylinder.quad_a cy r)) ∧
        (Cylinder.intersect m phi0 cy r ray_t rec).2 = Cylinder.body_info m phi0 cy r hit_point
          (vec3.dot (r.at hit_point - cy.center) cy.axis) rec)) := by
  revert h
  unfold Cylinder.intersect Cylinder.discriminant Cylinder.quad_a Cylinder.quad_b Cylinder.body
    Ray.at
  simp only []
  generalize vec3.length_squared r.direction
    - vec3.dot r.direction cy.axis * vec3.dot r.direction cy.axis = a
  generalize 2 * (vec3.dot (r.origin - cy.center) r.direction
    - vec3.dot (r.origin - cy.center) cy.axis * vec3.dot r.direction cy.axis) = b
  generalize vec3.length_squared (r.origin - cy.center)
    - vec3.dot (r.origin - cy.center) cy.axis * vec3.dot (r.origin - cy.center) cy.axis
    - cy.radius * cy.radius = c
  generalize m.sqrt (b * b - 4 * a * c) = sq
  have hp : (if (-b - sq) / (2 * a) < (-b + sq) / (2 * a) then (-b - sq) / (2 * a)
      else (-b + sq) / (2 * a)) = (-b - sq) / (2 * a) ∨
      (if (-b - sq) / (2 * a) < (-b + sq) / (2 * a) then (-b - sq) / (2 * a)
      else (-b + sq) / (2 * a)) = (-b + sq) / (2 * a) := by
    split
    · exact Or.inl rfl
    · exact Or.inr rfl
  generalize (if (-b - sq) / (2 * a) < (-b + sq) / (2 * a) then (-b - sq) / (2 * a)
      else (-b + sq) / (2 * a)) = hit_point at hp ⊢
  intro h
  split_ifs at h ⊢ with h1 h2 h3 h4 h5 h6 h7
  all_goals first
    | exact ⟨h1, Or.inl ⟨_, _, rfl⟩⟩
    | exact ⟨h1, Or.inr ⟨_, hp, rfl⟩⟩

theorem Cylinder.discriminant_eq (cy : Cylinder K) (r : Ray K) :
    Cylinder.discriminant cy r = Cylinder.quad_b cy r * Cylinder.quad_b cy r
      - 4 * Cylinder.quad_a cy r * Cylinder.quad_c cy r := rfl

/-- For a unit axis, a positive discriminant means the quadratic is not
degenerate: its leading coefficient is not zero. -/
theorem Cylinder.quad_a_ne_zero (cy : Cylinder K) (r : Ray K)
    (hax : vec3.length_squared cy.axis = 1) (hD : 0 < Cylinder.discriminant cy r) :
    Cylinder.quad_a cy r ≠ 0 := by
  intro ha
  have hw : (r.direction.x - vec3.dot r.direction cy.axis * cy.axis.x) ^ 2
      + (r.direction.y - vec3.dot r.direction cy.axis * cy.axis.y) ^ 2
      + (r.direction.z - vec3.dot r.direction cy.axis * cy.axis.z) ^ 2 = 0 := by
    simp only [Cylinder.quad_a, vec3.length_squared, vec3.dot] at ha hax ⊢
    linear_combination ha + (r.direction.x * cy.axis.x + r.direction.y * cy.axis.y
      + r.direction.z * cy.axis.z) ^ 2 * hax
  have hx : r.direction.x - vec3.dot r.direction cy.axis * cy.axis.x = 0 := by
    apply pow_eq_zero_iff (n := 2) (by norm_num) |>.1
    nlinarith [sq_nonneg (r.direction.x - vec3.dot r.direction cy.axis * cy.axis.x),
      sq_nonneg (r.direction.y - vec3.dot r.direction cy.axis * cy.axis.y),
      sq_nonneg (r.direction.z - vec3.dot r.direction cy.axis * cy.axis.z)]
  have hy : r.direction.y - vec3.dot r.direction cy.axis * cy.axis.y = 0 := by
    apply pow_eq_zero_iff (n := 2) (by norm_num) |>.1
    nlinarith [sq_nonneg (r.direction.x - vec3.dot r.direction cy.axis * cy.axis.x),
      sq_nonneg (r.direction.y - vec3.dot r.direction cy.axis * cy.axis.y),
      sq_nonneg (r.direction.z - vec3.dot r.direction cy.axis * cy.axis.z)]
  have hz : r.direction.z - vec3.dot r.direction cy.axis * cy.axis.z = 0 := by
    apply pow_eq_zero_iff (n := 2) (by norm_num) |>.1
    nlinarith [sq_nonneg (r.direction.x - vec3.dot r.direction cy.axis * cy.axis.x),
      sq_nonneg (r.direction.y - vec3.dot r.direction cy.axis * cy.axis.y),
      sq_nonneg (r.direction.z - vec3.dot r.direction cy.axis * cy.axis.z)]
  have hb : Cylinder.quad_b cy r = 0 := by
    simp only [Cylinder.quad_b, vec3.dot, vec3.sub_x, vec3.sub_y, vec3.sub_z] at hx hy hz ⊢
    linear_combination 2 * (r.origin.x - cy.center.x) * hx + 2 * (r.origin.y - cy.center.y) * hy
      + 2 * (r.origin.z - cy.center.z) * hz
  rw [Cylinder.discriminant_eq, ha, hb] at hD
  simp at hD

/-- For a unit axis the point of the ray at a root of the quadratic is at
distance `radius` from the axis. -/
theorem Cylinder.root_radial (cy : Cylinder K) (r : Ray K)
    (hax : vec3.length_squared cy.axis = 1) (ha : Cylinder.quad_a cy r ≠ 0) (sq : K)
    (hsq : sq * sq = Cylinder.discriminant cy r) (t : K)
    (ht : t = (-Cylinder.quad_b cy r - sq) / (2 * Cylinder.quad_a cy r) ∨
      t = (-Cylinder.quad_b cy r + sq) / (2 * Cylinder.quad_a cy r)) :
    vec3.length_squared (r.at t - cy.center
      - vec3.smul (vec3.dot (r.at t - cy.center) cy.axis) cy.axis) = cy.radius * cy.radius := by
  have h2a : (2 : K) * Cylinder.quad_a cy r ≠ 0 := mul_ne_zero two_ne_zero ha
  have hquad : Cylinder.quad_a cy r * t * t + Cylinder.quad_b cy r * t
      + Cylinder.quad_c cy r = 0 := by
    have h4 : 4 * Cylinder.quad_a cy r * (Cylinder.quad_a cy r * t * t
        + Cylinder.quad_b cy r * t + Cylinder.quad_c cy r) = 0 := by
      rw [Cylinder.discriminant_eq] at hsq
      rcases ht with ht | ht
      · have h : 2 * Cylinder.quad_a cy r * t + Cylinder.quad_b cy r = -sq := by
          rw [ht]; field_simp; ring
        linear_combination (2 * Cylinder.quad_a cy r * t + Cylinder.quad_b cy r - sq) * h + hsq
      · have h : 2 * Cylinder.quad_a cy r * t + Cylinder.quad_b cy r = sq := by
          rw [ht]; field_simp
        linear_combination (2 * Cylinder.quad_a cy r * t + Cylinder.quad_b cy r + sq) * h + hsq
    rcases mul_eq_zero.1 h4 with h | h
    · exact absurd h (mul_ne_zero four_ne_zero ha)
    · exact h
  simp only [Cylinder.quad_a, Cylinder.quad_b, Cylinder.quad_c, vec3.length_squared, vec3.dot,
    Ray.at, vec3.add_x, vec3.add_y, vec3.add_z, vec3.sub_x, vec3.sub_y, vec3.sub_z, vec3.smul_x,
    vec3.smul_y, vec3.smul_z] at hquad hax ⊢
  linear_combination hquad + ((r.origin.x + t * r.direction.x - cy.center.x) * cy.axis.x
    + (r.origin.y + t * r.direction.y - cy.center.y) * cy.axis.y
    + (r.origin.z + t * r.direction.z - cy.center.z) * cy.axis.z) ^ 2 * hax

end NormalLemmas

section Orientation
variable {K : Type} [LinearOrderedField K]

theorem Cylinder.cap_info_front_face (m : CMath K) (cy : Cylinder K) (r : Ray K) (root : K)
    (point : vec3 K) (rec : HitRecord K) :
    (Cylinder.cap_info m cy r root point rec).front_face =
      decide (vec3.dot r.direction (vec3.unit_vector m.sqrt cy.axis) < 0) := rfl

theorem Cylinder.body_info_front_face (m : CMath K) (phi0 : K) (cy : Cylinder K) (r : Ray K)
    (hit_point projection : K) (rec : HitRecord K) :
    (Cylinder.body_info m phi0 cy r hit_point projection rec).front_face =
      decide (vec3.dot r.direction (vec3.unit_vector m.sqrt
        (r.at hit_point - cy.center - vec3.smul projection cy.axis)) < 0) := by
  unfold Cylinder.body_info HitRecord.set_face_normal
  split <;> rfl

/-- The hits of `Sphere::intersect` and `Cylinder::intersect` go through
`set_face_normal`: for some outward normal `n`, the recorded normal points
against the ray, `front_face` tells whether the ray struck the outward side,
and the recorded normal is `n` on a front face and `-n` otherwise. -/
theorem set_face_normal_on_hit (m : CMath K) :
    (∀ (s : Sphere K) (r : Ray K) (ray_t : interval K) (rec : HitRecord K),
      (Sphere.intersect m s r ray_t rec).1 = true →
      ∃ n : vec3 K,
        vec3.dot r.direction (Sphere.intersect m s r ray_t rec).2.normal ≤ 0 ∧
        (Sphere.intersect m s r ray_t rec).2.front_face = decide (vec3.dot r.direction n < 0) ∧
        (Sphere.intersect m s r ray_t rec).2.normal =
          if (Sphere.intersect m s r ray_t rec).2.front_face = true then n else -n) ∧
    (∀ (phi0 : K) (cy : Cylinder K) (r : Ray K) (ray_t : interval K) (rec : HitRecord K),
      (Cylinder.intersect m phi0 cy r ray_t rec).1 = true →
      ∃ n : vec3 K,
        vec3.dot r.direction (Cylinder.intersect m phi0 cy r ray_t rec).2.normal ≤ 0 ∧
        (Cylinder.intersect m phi0 cy r ray_t rec).2.front_face
          = decide (vec3.dot r.direction n < 0) ∧
        (Cylinder.intersect m phi0 cy r ray_t rec).2.normal =
          if (Cylinder.intersect m phi0 cy r ray_t rec).2.front_face = true then n else -n) := by
  constructor
  · intro s r ray_t rec h
    rw [Sphere.sphere_hit_rec m s r ray_t rec h]
    refine ⟨vec3.sdiv (r.at (Sphere.intersect m s r ray_t rec).2.t - s.center) s.radius, ?_, ?_, ?_⟩
    · rw [Sphere.hit_info_normal]
      exact HitRecord.set_face_normal_against _ _ _
    · exact Sphere.hit_info_front_face _ _ _ _ _
    · rw [Sphere.hit_info_normal, Sphere.hit_info_front_face, HitRecord.set_face_normal_normal]
      simp
  · intro phi0 cy r ray_t rec h
    obtain ⟨_, hcase⟩ := Cylinder.intersect_hit_cases m phi0 cy r ray_t rec h
    rcases hcase with ⟨root, point, hrec⟩ | ⟨hit_point, _, hrec⟩
    · rw [hrec]
      refine ⟨vec3.unit_vector m.sqrt cy.axis, ?_, ?_, ?_⟩
      · rw [Cylinder.cap_info_normal]
        exact HitRecord.set_face_normal_against _ _ _
      · exact Cylinder.cap_info_front_face _ _ _ _ _ _
      · rw [Cylinder.cap_info_normal, Cylinder.cap_info_front_face,
          HitRecord.set_face_normal_normal]
        simp
    · rw [hrec]
      refine ⟨vec3.unit_vector m.sqrt (r.at hit_point - cy.center
        - vec3.smul (vec3.dot (r.at hit_point - cy.center) cy.axis) cy.axis), ?_, ?_, ?_⟩
      · rw [Cylinder.body_info_normal]
        exact HitRecord.set_face_normal_against _ _ _
      · exact Cylinder.body_info_front_face _ _ _ _ _ _ _
      · rw [Cylinder.body_info_normal, Cylinder.body_info_front_face,
          HitRecord.set_face_normal_normal]
        simp

end Orientation

/-! ### Concrete hits -/

theorem Sphere.intersect_zRay_hit :
    (Sphere.intersect qmath unitSphere zRay ⟨1 / 1000, ⊤⟩ rec0).1 = true := by
  have hd : zRay.direction ≠ (⟨0, 0, 0⟩ : vec3 ℚ) := by simp [zRay]
  have hs : ExactSqrt qmath.sqrt (Sphere.discriminant unitSphere zRay) := by
    have : Sphere.discriminant unitSphere zRay = 1 * 1 := by
      norm_num [Sphere.discriminant, unitSphere, Sphere.new, zRay, vec3.dot]
    rw [this]
    exact qsqrt_exact 1 (by norm_num)
  refine (Sphere.sphere_intersect_spec qmath unitSphere zRay ⟨1 / 1000, ⊤⟩ rec0 hd
    (fun _ => hs)).1.2 ⟨4, ?_, ?_⟩
  · norm_num [unitSphere, Sphere.new, zRay, Ray.at, vec3.length_squared]
  · rw [interval.surrounds_iff]
    exact ⟨by norm_num, WithTop.coe_lt_top _⟩

theorem Triangle.intersect_upRay_hit :
    (Triangle.intersect qmath flatTriangle upRay ⟨1 / 1000, ⊤⟩ rec0).1 = true := by
  rw [Triangle.intersect_hit_iff]
  norm_num [Triangle.epsilon, Triangle.normal, Triangle.plane_t, flatTriangle, upRay, vec3.dot,
    vec3.cross, Ray.at, interval.surrounds]

theorem Triangle.intersect_downRay_hit :
    (Triangle.intersect qmath flatTriangle downRay ⟨1 / 1000, ⊤⟩ rec0).1 = true := by
  rw [Triangle.intersect_hit_iff]
  norm_num [Triangle.epsilon, Triangle.normal, Triangle.plane_t, flatTriangle, downRay, vec3.dot,
    vec3.cross, Ray.at, interval.surrounds]

theorem Cylinder.intersect_slantRay_hit :
    (Cylinder.intersect qmath 0 unitCylinder slantRay ⟨1 / 1000, ⊤⟩ rec0).1 = true ∧
    (Cylinder.intersect qmath 0 unitCylinder slantRay ⟨1 / 1000, ⊤⟩ rec0).2.t = 2 := by
  constructor
  · simp [Cylinder.intersect, unitCylinder, Cylinder.new, slantRay, qmath, vec3.dot, vec3.length_squared]
    norm_num [qsqrt_four, interval.contains, Cylinder.body, Ray.at]
  · simp [Cylinder.intersect, unitCylinder, Cylinder.new, slantRay, qmath, vec3.dot, vec3.length_squared]
    norm_num [qsqrt_four, interval.contains, Cylinder.body, Ray.at, Cylinder.cap_info_t]


theorem Cylinder.intersect_awayRay_hit :
    (Cylinder.intersect qmath 0 unitCylinder awayRay ⟨1 / 1000, ⊤⟩ rec0).1 = true ∧
    (Cylinder.intersect qmath 0 unitCylinder awayRay ⟨1 / 1000, ⊤⟩ rec0).2.t = -1 := by
  constructor
  · simp [Cylinder.intersect, unitCylinder, Cylinder.new, awayRay, qmath, vec3.dot,
      vec3.length_squared]
    norm_num [qsqrt_four, interval.contains, Cylinder.body, Ray.at]
  · simp [Cylinder.intersect, unitCylinder, Cylinder.new, awayRay, qmath, vec3.dot,
      vec3.length_squared]
    norm_num [qsqrt_four, interval.contains, Cylinder.body, Ray.at, Cylinder.body_info_t]

theorem Sphere.intersect_lowSphere_awayRay (ray_t : interval ℚ) (rec : HitRecord ℚ) :
    Sphere.intersect qmath lowSphere awayRay ray_t rec = (false, rec) := by
  rw [Sphere.intersect_eq, if_pos]
  norm_num [Sphere.discriminant, lowSphere, Sphere.new, awayRay, vec3.dot]

section SlabLemmas
variable {K : Type} [LinearOrderedField K]

/-- A slab never moves the lower end of the interval down. -/
theorem aabb.slab_min_le (lo hi o d : K) (ray_t tx : interval K)
    (h : aabb.slab lo hi o d ray_t = some tx) : ray_t.min ≤ tx.min := by
  unfold aabb.slab at h
  simp only [] at h
  split_ifs at h <;> first
    | (injection h with h; subst h; exact le_refl _)
    | (injection h with h; subst h; exact le_max_right _ _)

/-- A ray moving up the axis misses the slab when it is already past the
upper face at the lower end of the interval. -/
theorem aabb.slab_none_of_past (lo hi o d : K) (ray_t : interval K) (hd : 0 < d)
    (h : (hi - o) / d ≤ ray_t.min) : aabb.slab lo hi o d ray_t = none := by
  unfold aabb.slab
  rw [if_neg (ne_of_gt hd)]
  simp only [if_neg (not_lt.2 (le_of_lt hd))]
  rw [if_pos]
  exact le_trans (min_le_left _ _) (WithTop.coe_le_coe.2 (le_trans h (le_max_right _ _)))

end SlabLemmas

theorem aabb.hit_cylinderScene_awayRay :
    (aabb.union unitCylinder.bbox lowSphere.bbox).hit awayRay ⟨1 / 1000, ⊤⟩ = false := by
  have hbox : aabb.union unitCylinder.bbox lowSphere.bbox
      = ⟨⟨-1, -6, -1⟩, ⟨1, 1, 1⟩⟩ := by
    norm_num [aabb.union, aabb.of_points, unitCylinder, Cylinder.new, lowSphere, Sphere.new]
  rw [hbox]
  unfold aabb.hit
  cases hx : aabb.slab (-1 : ℚ) 1 awayRay.origin.x awayRay.direction.x ⟨1 / 1000, ⊤⟩ with
  | none => rfl
  | some tx =>
    have hmin := aabb.slab_min_le _ _ _ _ _ _ hx
    have hy : aabb.slab (-6 : ℚ) 1 awayRay.origin.y awayRay.direction.y tx = none := by
      apply aabb.slab_none_of_past
      · norm_num [awayRay]
      · refine le_trans ?_ hmin
        norm_num [awayRay]
    simp only [hy]

/-- The list over the cylinder and the sphere reports the cylinder hit at
`t = -1`. -/
theorem HittableList.intersect_cylinderScene :
    HittableList.intersect cylinderScene rec0 awayRay ⟨1 / 1000, ⊤⟩ rec0
      = (true, (Cylinder.intersect qmath 0 unitCylinder awayRay ⟨1 / 1000, ⊤⟩ rec0).2) := by
  simp only [HittableList.intersect, cylinderScene, List.foldl_cons, List.foldl_nil,
    HittableList.step, Cylinder.toHittable, Sphere.toHittable,
    Cylinder.intersect_awayRay_hit.1, if_true, Sphere.intersect_lowSphere_awayRay,
    Bool.false_eq_true, if_false]

/-- The hierarchy over the same two objects prunes them on its box test. -/
theorem HittableList.intersect_cylinderWorld :
    HittableList.intersect cylinderWorld rec0 awayRay ⟨1 / 1000, ⊤⟩ rec0 = (false, rec0) := by
  have hroot : (bvh_node.build (Cylinder.toHittable qmath 0 unitCylinder)
      [Sphere.toHittable qmath lowSphere]).intersect awayRay ⟨1 / 1000, ⊤⟩ rec0
      = (false, rec0) := by
    simp only [bvh_node.build, bvh_node.intersect, bvh_node.bounding_box, Cylinder.toHittable,
      Sphere.toHittable, aabb.hit_cylinderScene_awayRay, Bool.not_false, if_true]
  simp only [HittableList.intersect, cylinderWorld, List.foldl_cons, List.foldl_nil,
    HittableList.step, bvh_node.toHittable, hroot, Bool.false_eq_true, if_false]


theorem Sphere.intersect_unitSphere_missRay (ray_t : interval ℚ) (rec : HitRecord ℚ) :
    Sphere.intersect qmath unitSphere missRay ray_t rec = (false, rec) := by
  rw [Sphere.intersect_eq, if_pos]
  norm_num [Sphere.discriminant, unitSphere, Sphere.new, missRay, vec3.dot]

theorem Camera.ray_interval_rat : (Camera.ray_interval : interval ℚ) = ⟨1 / 1000, ⊤⟩ := by
  unfold Camera.ray_interval
  norm_num

theorem Camera.unitSphere_zRay_hit :
    ((Sphere.toHittable qmath unitSphere).intersect zRay Camera.ray_interval rec0).1 = true := by
  rw [Camera.ray_interval_rat]
  exact Sphere.intersect_zRay_hit

section ColorLemmas
variable {K : Type} [LinearOrderedField K]

/-- The result of `clamp` on the interval `[0, 0.9999]` lies in the interval. -/
theorem interval.clamp_intensity (x : K) :
    0 ≤ (⟨0.000, ((0.9999 : K) : WithTop K)⟩ : interval K).clamp x ∧
    (⟨0.000, ((0.9999 : K) : WithTop K)⟩ : interval K).clamp x ≤ 0.9999 := by
  unfold interval.clamp
  simp only []
  split_ifs with h1 h2
  · norm_num
  · norm_num
  · constructor
    · norm_num at h1; exact h1
    · exact not_lt.1 h2

/-- An integer written for a clamped channel is in `[0, 255]`. -/
theorem static_cast_int_channel [FloorRing K] (y : K) (h0 : 0 ≤ y) (h1 : y ≤ 0.9999) :
    static_cast_int (256 * y) = ⌊256 * y⌋ ∧ 0 ≤ static_cast_int (256 * y) ∧
      static_cast_int (256 * y) ≤ 255 := by
  have hpos : (0 : K) ≤ 256 * y := by positivity
  have heq : static_cast_int (256 * y) = ⌊256 * y⌋ := by
    unfold static_cast_int
    rw [if_pos hpos]
  rw [heq]
  refine ⟨rfl, Int.floor_nonneg.2 hpos, ?_⟩
  have hlt : 256 * y < ((256 : ℤ) : K) := by
    push_cast
    norm_num at h1 ⊢
    linarith
  have := Int.floor_lt.2 hlt
  omega

end ColorLemmas

section ToneLemmas
variable {K : Type} [LinearOrderedField K]

/-- The luminance `reinhardToneMapping` computes is non-negative for a colour
with non-negative components and a non-negative exposure. -/
theorem reinhard_luminance_nonneg (c : vec3 K) (e : K) (hx : 0 ≤ c.x) (hy : 0 ≤ c.y)
    (hz : 0 ≤ c.z) (he : 0 ≤ e) :
    (0 : K) ≤ 0.2126 * (c.x * e) + 0.7152 * (c.y * e) + 0.0722 * (c.z * e) := by
  have h1 := mul_nonneg hx he
  have h2 := mul_nonneg hy he
  have h3 := mul_nonneg hz he
  norm_num
  linarith

end ToneLemmas

section HaltonLemmas
variable {K : Type} [LinearOrderedField K] [FloorRing K]

/-- The next value of `i` in the loop of `halton` is the integer quotient. -/
theorem halton_next_index (i base : Int) (hi : 0 ≤ i) (hb : 0 < base) :
    static_cast_int (((⌊(i : K) / (base : K)⌋ : Int) : K)) = i / base := by
  have hbK : (0 : K) < (base : K) := by exact_mod_cast hb
  have hfl : ⌊(i : K) / (base : K)⌋ = i / base := by
    rw [Int.floor_eq_iff]
    constructor
    · rw [le_div_iff₀ hbK]
      exact_mod_cast Int.ediv_mul_le i (ne_of_gt hb)
    · rw [div_lt_iff₀ hbK]
      exact_mod_cast Int.lt_ediv_add_one_mul_self i hb
  rw [hfl]
  unfold static_cast_int
  have hq : 0 ≤ i / base := Int.ediv_nonneg hi (le_of_lt hb)
  rw [if_pos (by exact_mod_cast hq)]
  exact Int.floor_intCast _

/-- The loop of `halton` finishes within `i + 1` tests and keeps the result in
`[0, 1)`, given that `result + f * base <= 1`. -/
theorem halton_loop_spec (base : Int) (hb : 2 ≤ base) (fuel : Nat) :
    ∀ (result f : K) (i : Int), 0 ≤ i → i.toNat < fuel → 0 ≤ result → 0 < f →
      result + f * (base : K) ≤ 1 →
      ∃ v : K, halton_loop base fuel result f i = some v ∧ 0 ≤ v ∧ v < 1 ∧
        ∀ fuel2 : Nat, i.toNat < fuel2 → halton_loop base fuel2 result f i = some v := by
  have hbK : (2 : K) ≤ (base : K) := by exact_mod_cast hb
  induction fuel with
  | zero => intro result f i _ hlt; omega
  | succ n ih =>
    intro result f i hi hlt hres hf hinv
    by_cases hpos : i > 0
    · have hmod0 : 0 ≤ Int.tmod i base := Int.tmod_nonneg _ hi
      have hmodlt : Int.tmod i base < base := by
        rw [Int.tmod_eq_emod hi (by omega)]
        exact Int.emod_lt_of_pos _ (by omega)
      have hmod0K : (0 : K) ≤ ((Int.tmod i base : Int) : K) := by exact_mod_cast hmod0
      have hmodK : ((Int.tmod i base : Int) : K) ≤ (base : K) - 1 := by
        have : Int.tmod i base ≤ base - 1 := by omega
        exact_mod_cast this
      have hnext := halton_next_index (K := K) i base hi (by omega)
      have hq0 : 0 ≤ i / base := Int.ediv_nonneg hi (by omega)
      have hqlt : i / base < i := Int.ediv_lt_of_lt_mul (by omega) (by nlinarith)
      have hf2 : 0 < f / (base : K) := div_pos hf (by linarith)
      have hres2 : 0 ≤ result + f * ((Int.tmod i base : Int) : K) := by positivity
      have hinv2 : result + f * ((Int.tmod i base : Int) : K) + f / (base : K) * (base : K)
          ≤ 1 := by
        rw [div_mul_cancel₀ _ (by linarith : (base : K) ≠ 0)]
        nlinarith
      obtain ⟨v, hv, hv0, hv1, hall⟩ := ih _ _ (i / base) hq0 (by omega) hres2 hf2 hinv2
      refine ⟨v, ?_, hv0, hv1, ?_⟩
      · rw [halton_loop, if_pos hpos, hnext]
        exact hv
      · intro fuel2 hlt2
        cases fuel2 with
        | zero => omega
        | succ k =>
          rw [halton_loop, if_pos hpos, hnext]
          exact hall k (by omega)
    · refine ⟨result, ?_, hres, ?_, ?_⟩
      · rw [halton_loop, if_neg hpos]
      · have : 0 < f * (base : K) := mul_pos hf (by linarith)
        linarith
      · intro fuel2 hlt2
        cases fuel2 with
        | zero => omega
        | succ k => rw [halton_loop, if_neg hpos]

end HaltonLemmas

section TextureLemmas
variable {K : Type} [LinearOrderedField K]

/-- The result of `clamp` on the interval `[0, 1]` lies in the interval. -/
theorem interval.clamp_unit (x : K) :
    0 ≤ (⟨0, ((1 : K) : WithTop K)⟩ : interval K).clamp x ∧
    (⟨0, ((1 : K) : WithTop K)⟩ : interval K).clamp x ≤ 1 := by
  unfold interval.clamp
  simp only []
  split_ifs with h1 h2
  · norm_num
  · norm_num
  · exact ⟨not_lt.1 h1, not_lt.1 h2⟩

theorem size_t_pred_pos (n : Nat) (h1 : 1 ≤ n) (h2 : n < 2 ^ 64) : size_t_pred n = n - 1 := by
  unfold size_t_pred
  omega

/-- The index computed from a coordinate in `[0, 1]` is inside a vector of `n`
entries. -/
theorem static_cast_int_index [FloorRing K] (c : K) (n : Nat) (h0 : 0 ≤ c) (h1 : c ≤ 1)
    (hn : 1 ≤ n) :
    static_cast_int (c * ((n - 1 : Nat) : K)) = ⌊c * ((n - 1 : Nat) : K)⌋ ∧
    0 ≤ static_cast_int (c * ((n - 1 : Nat) : K)) ∧
    (static_cast_int (c * ((n - 1 : Nat) : K))).toNat < n := by
  have hm : (0 : K) ≤ ((n - 1 : Nat) : K) := Nat.cast_nonneg _
  have hpos : 0 ≤ c * ((n - 1 : Nat) : K) := mul_nonneg h0 hm
  have heq : static_cast_int (c * ((n - 1 : Nat) : K)) = ⌊c * ((n - 1 : Nat) : K)⌋ := by
    unfold static_cast_int
    rw [if_pos hpos]
  have hle : c * ((n - 1 : Nat) : K) ≤ (((n - 1 : Nat) : Int) : K) := by
    have : c * ((n - 1 : Nat) : K) ≤ 1 * ((n - 1 : Nat) : K) :=
      mul_le_mul_of_nonneg_right h1 hm
    simpa using this
  have hfl : ⌊c * ((n - 1 : Nat) : K)⌋ ≤ ((n - 1 : Nat) : Int) :=
    Int.cast_le.1 (le_trans (Int.floor_le _) hle)
  have hfl0 : 0 ≤ ⌊c * ((n - 1 : Nat) : K)⌋ := Int.floor_nonneg.2 hpos
  rw [heq]
  refine ⟨rfl, hfl0, ?_⟩
  omega

end TextureLemmas

theorem checker_loaded : checker.Loaded 2 2 := by
  refine ⟨rfl, ?_, by norm_num, ?_⟩
  · intro row hrow
    simp only [checker, List.mem_cons, List.mem_singleton, List.not_mem_nil, or_false] at hrow
    rcases hrow with h | h <;> subst h <;> rfl
  · intro row hrow pixel hpixel
    simp only [checker, List.mem_cons, List.mem_singleton, List.not_mem_nil, or_false] at hrow
    rcases hrow with h | h <;> subst h <;>
      simp only [List.mem_cons, List.mem_singleton, List.not_mem_nil, or_false] at hpixel <;>
      rcases hpixel with h | h <;> subst h <;> decide

theorem nearLight_direction :
    vec3.unit_vector qmath.sqrt (nearLight.position - shadePoint.p) = ⟨0, 0, 1⟩ ∧
    vec3.length qmath.sqrt (nearLight.position - shadePoint.p) = 2 := by
  have h : vec3.length qmath.sqrt (nearLight.position - shadePoint.p) = 2 := by
    have : vec3.length_squared (nearLight.position - shadePoint.p) = 4 := by
      norm_num [vec3.length_squared, nearLight, shadePoint]
    unfold vec3.length
    rw [this]
    exact qsqrt_four
  refine ⟨?_, h⟩
  unfold vec3.unit_vector
  rw [h]
  apply vec3.ext3 <;> norm_num [vec3.sdiv, vec3.smul, nearLight, shadePoint]

theorem Sphere.intersect_lowSphere_zRay (ray_t : interval ℚ) (rec : HitRecord ℚ) :
    Sphere.intersect qmath lowSphere zRay ray_t rec = (false, rec) := by
  rw [Sphere.intersect_eq, if_pos]
  norm_num [Sphere.discriminant, lowSphere, Sphere.new, zRay, vec3.dot]

section CameraBasisLemmas
variable {K : Type} [LinearOrderedField K]

theorem vec3.dot_cross_right (a b : vec3 K) : vec3.dot (vec3.cross a b) b = 0 := by
  simp only [vec3.dot, vec3.cross]; ring

theorem vec3.dot_cross_left (a b : vec3 K) : vec3.dot (vec3.cross a b) a = 0 := by
  simp only [vec3.dot, vec3.cross]; ring

theorem vec3.dot_sdiv_left (a b : vec3 K) (t : K) :
    vec3.dot (vec3.sdiv a t) b = 1 / t * vec3.dot a b := by
  simp only [vec3.dot, vec3.sdiv, vec3.smul_x, vec3.smul_y, vec3.smul_z]; ring

/-- Lagrange's identity, `|a x b|^2 = |a|^2 |b|^2 - (a.b)^2`. -/
theorem vec3.length_squared_cross (a b : vec3 K) :
    vec3.length_squared (vec3.cross a b)
      = vec3.length_squared a * vec3.length_squared b - vec3.dot a b * vec3.dot a b := by
  simp only [vec3.length_squared, vec3.dot, vec3.cross]; ring

theorem vec3.cross_sdiv_right (a b : vec3 K) (t : K) :
    vec3.cross a (vec3.sdiv b t) = vec3.smul (1 / t) (vec3.cross a b) := by
  apply vec3.ext3 <;>
    simp only [vec3.cross, vec3.sdiv, vec3.smul_x, vec3.smul_y, vec3.smul_z] <;> ring

theorem vec3.length_squared_eq_dot (a : vec3 K) : vec3.length_squared a = vec3.dot a a := rfl

theorem vec3.sub_ne_zero {a b : vec3 K} (h : a ≠ b) : a - b ≠ ⟨0, 0, 0⟩ := by
  intro h0
  apply h
  have hx : (a - b).x = 0 := by rw [h0]
  have hy : (a - b).y = 0 := by rw [h0]
  have hz : (a - b).z = 0 := by rw [h0]
  simp only [vec3.sub_x, vec3.sub_y, vec3.sub_z] at hx hy hz
  exact vec3.ext3 (by linarith) (by linarith) (by linarith)

/-- The basis vectors `w`, `u`, `v` that `Camera::initialize` stores. -/
theorem Camera.initialise_basis [FloorRing K] (m : CMath K) (cam : Camera K) :
    (cam.initialise m).w = vec3.unit_vector m.sqrt (cam.lookfrom - cam.lookat) ∧
    (cam.initialise m).u = vec3.unit_vector m.sqrt (vec3.cross cam.vup
      (vec3.unit_vector m.sqrt (cam.lookfrom - cam.lookat))) ∧
    (cam.initialise m).v = vec3.cross (cam.initialise m).w (cam.initialise m).u :=
  ⟨rfl, rfl, rfl⟩

/-- An orthonormal basis from a unit vector `w` and a vector `up` whose cross
product with `w` does not vanish. -/
theorem vec3.basis_of_unit (sqrt : K → K) (up w : vec3 K)
    (hw : vec3.length_squared w = 1)
    (hc : vec3.length_squared (vec3.cross up w) ≠ 0)
    (hs : ExactSqrt sqrt (vec3.length_squared (vec3.cross up w))) :
    vec3.length_squared (vec3.unit_vector sqrt (vec3.cross up w)) = 1 ∧
    vec3.length_squared (vec3.cross w (vec3.unit_vector sqrt (vec3.cross up w))) = 1 ∧
    vec3.dot (vec3.unit_vector sqrt (vec3.cross up w))
      (vec3.cross w (vec3.unit_vector sqrt (vec3.cross up w))) = 0 ∧
    vec3.dot (vec3.unit_vector sqrt (vec3.cross up w)) w = 0 ∧
    vec3.dot (vec3.cross w (vec3.unit_vector sqrt (vec3.cross up w))) w = 0 ∧
    vec3.dot (vec3.unit_vector sqrt (vec3.cross up w)) up = 0 := by
  have hu := vec3.unit_vector_length_squared sqrt (vec3.cross up w) hc hs
  have huw : vec3.dot (vec3.unit_vector sqrt (vec3.cross up w)) w = 0 := by
    unfold vec3.unit_vector
    rw [vec3.dot_sdiv_left, vec3.dot_cross_right, mul_zero]
  have huup : vec3.dot (vec3.unit_vector sqrt (vec3.cross up w)) up = 0 := by
    unfold vec3.unit_vector
    rw [vec3.dot_sdiv_left, vec3.dot_cross_left, mul_zero]
  refine ⟨hu, ?_, ?_, huw, ?_, huup⟩
  · rw [vec3.length_squared_cross, hw, hu, vec3.dot_comm, huw]
    ring
  · rw [vec3.dot_comm, vec3.dot_cross_right]
  · exact vec3.dot_cross_left _ _

end CameraBasisLemmas

section PathtraceLemmas
variable {K σ : Type} [LinearOrderedField K]

theorem Sphere.hit_info_mat (m : CMath K) (s : Sphere K) (r : Ray K) (temp : K)
    (rec : HitRecord K) : (Sphere.hit_info m s r temp rec).mat = some s.mat := by
  unfold Sphere.hit_info HitRecord.set_face_normal
  split <;> rfl

/-- The value of `Camera::pathtrace` on a hit whose material scatters, for a
positive depth. -/
theorem Camera.pathtrace_scatter_eq (sh : Shading K σ) (cam : Camera K) (rec : HitRecord K)
    (r : Ray K) (depth : Int) (world : Hittable K) (lights : List (Light K σ)) (g : σ)
    (mat : Material K) (A : vec3 K) (scattered : Ray K) (g2 : σ)
    (hd : 0 < depth)
    (hhit : (world.intersect r Camera.ray_interval rec).1 = true)
    (hmat : (world.intersect r Camera.ray_interval rec).2.mat = some mat)
    (hev : sh.evaluate mat r (world.intersect r Camera.ray_interval rec).2 ⟨0, 0, 0⟩
      ⟨⟨0, 0, 0⟩, ⟨0, 0, 0⟩⟩
      (Camera.calculateDirectLighting world (world.intersect r Camera.ray_interval rec).2
        lights g).2 = ((true, A, scattered), g2)) :
    Camera.pathtrace sh cam rec r depth world lights g =
      (Camera.pathtrace sh cam rec scattered (depth - 1) world lights g2).map
        (fun next => (vec3.mul A (Camera.calculateDirectLighting world
          (world.intersect r Camera.ray_interval rec).2 lights g).1 + vec3.mul A next.1,
            next.2)) := by
  rw [Camera.pathtrace, dif_neg (not_le.2 hd)]
  simp only [hhit, if_true, hmat, hev]
  cases Camera.pathtrace sh cam rec scattered (depth - 1) world lights g2 <;> rfl

end PathtraceLemmas

theorem Camera.unitSphere_zRay_mat :
    ((Sphere.toHittable qmath unitSphere).intersect zRay Camera.ray_interval rec0).2.mat
      = some grey := by
  have h := Camera.unitSphere_zRay_hit
  show (Sphere.intersect qmath unitSphere zRay Camera.ray_interval rec0).2.mat = some grey
  rw [Sphere.sphere_hit_rec qmath unitSphere zRay Camera.ray_interval rec0 h,
    Sphere.hit_info_mat]
  rfl

section NestingLemmas
variable {K σ : Type} [LinearOrderedField K]

/-- The nesting inside a secondary-ray block is one more than the nesting of
the call it makes. -/
theorem BlinnPhong.secondary_nesting
    (recurse : Material K → HitRecord K → σ → Option (vec3 K × σ) × Nat)
    (fresh : HitRecord K) (world : Hittable K) (ray : Ray K) (backgroundColor : vec3 K)
    (k : K) (g : σ) (n : Nat) (h : ∀ mat rec g2, (recurse mat rec g2).2 ≤ n) :
    (BlinnPhong.secondary recurse fresh world ray backgroundColor k g).2 ≤ n + 1 := by
  unfold BlinnPhong.secondary
  simp only []
  split
  · split
    · exact Nat.zero_le _
    · exact Nat.succ_le_succ (h _ _ _)
  · exact Nat.zero_le _

/-- One unfolding of `getShading`: the nesting is at most `depth` when the
calls at `depth - 1` nest at most `depth - 1` deep. -/
theorem Material.getShading_traced_step [FloorRing K] (m : CMath K) (rnd : Random K σ)
    (fresh : HitRecord K) (world : Hittable K) (lights : List (Light K σ))
    (backgroundColor : vec3 K) (depth : Int)
    (ih : 0 < depth → ∀ (mat : Material K) (r_in : Ray K) (rec : HitRecord K) (g : σ),
      (Material.getShading_traced m rnd fresh mat world lights r_in backgroundColor rec
        (depth - 1) g).2 ≤ (depth - 1).toNat)
    (mat : Material K) (r_in : Ray K) (rec : HitRecord K) (g : σ) :
    (Material.getShading_traced m rnd fresh mat world lights r_in backgroundColor rec
      depth g).2 ≤ depth.toNat := by
  have hsec : 0 < depth → ∀ (ray : Ray K) (k : K) (g2 : σ),
      (BlinnPhong.secondary
        (fun mat2 rec2 g3 => Material.getShading_traced m rnd fresh mat2 world lights ray
          backgroundColor rec2 (depth - 1) g3)
        fresh world ray backgroundColor k g2).2 ≤ depth.toNat := by
    intro hd ray k g2
    have := BlinnPhong.secondary_nesting
      (fun mat2 rec2 g3 => Material.getShading_traced m rnd fresh mat2 world lights ray
        backgroundColor rec2 (depth - 1) g3)
      fresh world ray backgroundColor k g2 (depth - 1).toNat
      (fun mat2 rec2 g3 => ih hd mat2 ray rec2 g3)
    omega
  unfold Material.getShading_traced
  split
  · simp only []
    split
    · exact Nat.zero_le _
    · split
      · exact Nat.zero_le _
      · split
        · exact Nat.zero_le _
        · split
          · rename_i heq
            have hn := congrArg Prod.snd heq
            simp only at hn
            rw [← hn]
            split
            · rename_i h1
              exact hsec h1.2.1 _ _ _
            · exact Nat.zero_le _
          · rename_i shading1 n1 heq
            have hn := congrArg Prod.snd heq
            simp only at hn
            have hn1 : n1 ≤ depth.toNat := by
              rw [← hn]
              split
              · rename_i h1
                exact hsec h1.2.1 _ _ _
              · exact Nat.zero_le _
            split
            · rename_i h2
              have hd := h2.2
              repeat' split
              all_goals exact max_le hn1 (hsec hd _ _ _)
            · exact hn1
  · exact Nat.zero_le _

/-- The nesting of the calls of `getShading` is at most `depth`, and 0 for
`depth <= 0`. -/
theorem Material.getShading_traced_nesting [FloorRing K] (m : CMath K) (rnd : Random K σ)
    (fresh : HitRecord K) (world : Hittable K) (lights : List (Light K σ))
    (backgroundColor : vec3 K) (n : Nat) :
    ∀ (depth : Int), depth.toNat ≤ n → ∀ (mat : Material K) (r_in : Ray K)
      (rec : HitRecord K) (g : σ),
      (Material.getShading_traced m rnd fresh mat world lights r_in backgroundColor rec
        depth g).2 ≤ depth.toNat := by
  induction n with
  | zero =>
    intro depth hd
    exact Material.getShading_traced_step m rnd fresh world lights backgroundColor depth
      (fun h => by omega)
  | succ n ih =>
    intro depth hd
    exact Material.getShading_traced_step m rnd fresh world lights backgroundColor depth
      (fun h => ih (depth - 1) (by omega))

/-- The first component of `pathtrace_traced` is `pathtrace`, and the nesting
of its calls is at most `depth`. -/
theorem Camera.pathtrace_traced_spec (sh : Shading K σ) (cam : Camera K) (rec : HitRecord K)
    (world : Hittable K) (lights : List (Light K σ)) (n : Nat) :
    ∀ (depth : Int), depth.toNat ≤ n → ∀ (r : Ray K) (g : σ),
      (Camera.pathtrace_traced sh cam rec r depth world lights g).1
        = Camera.pathtrace sh cam rec r depth world lights g ∧
      (Camera.pathtrace_traced sh cam rec r depth world lights g).2 ≤ depth.toNat := by
  induction n with
  | zero =>
    intro depth hd r g
    have h0 : depth ≤ 0 := by omega
    rw [Camera.pathtrace_traced, Camera.pathtrace, dif_pos h0, dif_pos h0]
    exact ⟨rfl, Nat.zero_le _⟩
  | succ n ih =>
    intro depth hd r g
    by_cases h0 : depth ≤ 0
    · rw [Camera.pathtrace_traced, Camera.pathtrace, dif_pos h0, dif_pos h0]
      exact ⟨rfl, Nat.zero_le _⟩
    · rw [Camera.pathtrace_traced, Camera.pathtrace, dif_neg h0, dif_neg h0]
      simp only []
      split
      · split
        · exact ⟨rfl, Nat.zero_le _⟩
        · split
          · rename_i mat hmat hev
            have hrec := ih (depth - 1) (by omega)
              (sh.evaluate mat r (world.intersect r Camera.ray_interval rec).2 ⟨0, 0, 0⟩
                ⟨⟨0, 0, 0⟩, ⟨0, 0, 0⟩⟩ (Camera.calculateDirectLighting world
                  (world.intersect r Camera.ray_interval rec).2 lights g).2).1.2.2
              (sh.evaluate mat r (world.intersect r Camera.ray_interval rec).2 ⟨0, 0, 0⟩
                ⟨⟨0, 0, 0⟩, ⟨0, 0, 0⟩⟩ (Camera.calculateDirectLighting world
                  (world.intersect r Camera.ray_interval rec).2 lights g).2).2
            rw [← hrec.1]
            split
            · rename_i heq
              rw [heq] at hrec ⊢
              simp only at hrec
              exact ⟨rfl, by omega⟩
            · rename_i heq
              rw [heq] at hrec ⊢
              simp only at hrec
              exact ⟨rfl, by omega⟩
          · exact ⟨rfl, Nat.zero_le _⟩
      · exact ⟨rfl, Nat.zero_le _⟩

/-- A secondary-ray block that hits a surface makes the nested call, and its
nesting is one more than the nesting of that call. -/
theorem BlinnPhong.secondary_hit
    (recurse : Material K → HitRecord K → σ → Option (vec3 K × σ) × Nat)
    (fresh : HitRecord K) (world : Hittable K) (ray : Ray K) (backgroundColor : vec3 K)
    (k : K) (g : σ) (mat : Material K)
    (hhit : (world.intersect ray Camera.ray_interval fresh).1 = true)
    (hmat : (world.intersect ray Camera.ray_interval fresh).2.mat = some mat) :
    BlinnPhong.secondary recurse fresh world ray backgroundColor k g =
      ((recurse mat (world.intersect ray Camera.ray_interval fresh).2 g).1.map
          (fun c => (vec3.smul k c.1, c.2)),
        (recurse mat (world.intersect ray Camera.ray_interval fresh).2 g).2 + 1) := by
  unfold BlinnPhong.secondary
  simp only [hhit, hmat, if_true]

end NestingLemmas

/-- The nesting counted for a path of one bounce is 1. -/
theorem Camera.pathtrace_traced_zRay :
    (Camera.pathtrace_traced halfShading whiteCamera rec0 zRay 1
      (Sphere.toHittable qmath unitSphere) [unitLight] ()).2 = 1 := by
  have h0 : ∀ (r : Ray ℚ) (g : Unit),
      Camera.pathtrace_traced halfShading whiteCamera rec0 r (1 - 1)
        (Sphere.toHittable qmath unitSphere) [unitLight] g = (some (⟨0, 0, 0⟩, g), 0) := by
    intro r g
    rw [Camera.pathtrace_traced, dif_pos (by norm_num)]
  have hev : ∀ (mat : Material ℚ) (r : Ray ℚ) (rec : HitRecord ℚ) (a : vec3 ℚ) (s : Ray ℚ)
      (g : Unit), halfShading.evaluate mat r rec a s g
        = ((true, ⟨1/2, 1/2, 1/2⟩, missRay), g) := fun _ _ _ _ _ _ => rfl
  rw [Camera.pathtrace_traced, dif_neg (by norm_num)]
  simp only [Camera.unitSphere_zRay_hit, Camera.unitSphere_zRay_mat, if_true, hev, h0]

theorem qsqrt_zero : qsqrt 0 = 0 := by
  have := qsqrt_mul_self 0 (le_refl 0)
  simpa using this

section DegenerateLemmas
variable {K : Type} [LinearOrderedField K]

/-- `Sphere::intersect` on a ray whose discriminant is zero, for a square root
with `sqrt(0) = 0`: both candidate roots are `-b / a`. -/
theorem Sphere.intersect_tangent (m : CMath K) (s : Sphere K) (r : Ray K) (ray_t : interval K)
    (rec : HitRecord K) (hD : Sphere.discriminant s r = 0) (h0 : m.sqrt 0 = 0) :
    Sphere.intersect m s r ray_t rec =
      if ray_t.surrounds (-vec3.dot (r.origin - s.center) r.direction
          / vec3.dot r.direction r.direction) = true then
        (true, Sphere.hit_info m s r (-vec3.dot (r.origin - s.center) r.direction
          / vec3.dot r.direction r.direction) rec)
      else (false, rec) := by
  rw [Sphere.intersect_eq, hD, h0, if_neg (lt_irrefl 0), sub_zero, add_zero]
  split <;> rfl

/-- For a unit axis and a ray parallel to it, the leading and the linear
coefficient of the quadratic of `Cylinder::intersect` are zero. -/
theorem Cylinder.quad_parallel (cy : Cylinder K) (r : Ray K)
    (hax : vec3.length_squared cy.axis = 1)
    (hpar : vec3.cross r.direction cy.axis = ⟨0, 0, 0⟩) :
    Cylinder.quad_a cy r = 0 ∧ Cylinder.quad_b cy r = 0 := by
  have hx : r.direction.y * cy.axis.z - r.direction.z * cy.axis.y = 0 :=
    congrArg vec3.x hpar
  have hy : r.direction.z * cy.axis.x - r.direction.x * cy.axis.z = 0 :=
    congrArg vec3.y hpar
  have hz : r.direction.x * cy.axis.y - r.direction.y * cy.axis.x = 0 :=
    congrArg vec3.z hpar
  simp only [vec3.length_squared] at hax
  constructor
  · simp only [Cylinder.quad_a, vec3.length_squared, vec3.dot]
    linear_combination (r.direction.y * cy.axis.z - r.direction.z * cy.axis.y) * hx
      + (r.direction.z * cy.axis.x - r.direction.x * cy.axis.z) * hy
      + (r.direction.x * cy.axis.y - r.direction.y * cy.axis.x) * hz
      - (r.direction.x * r.direction.x + r.direction.y * r.direction.y
        + r.direction.z * r.direction.z) * hax
  · simp only [Cylinder.quad_b, vec3.dot, vec3.sub_x, vec3.sub_y, vec3.sub_z]
    linear_combination
      2 * (((r.origin.y - cy.center.y) * cy.axis.z - (r.origin.z - cy.center.z) * cy.axis.y) * hx
      + ((r.origin.z - cy.center.z) * cy.axis.x - (r.origin.x - cy.center.x) * cy.axis.z) * hy
      + ((r.origin.x - cy.center.x) * cy.axis.y - (r.origin.y - cy.center.y) * cy.axis.x) * hz)
      - 2 * ((r.origin.x - cy.center.x) * r.direction.x
        + (r.origin.y - cy.center.y) * r.direction.y
        + (r.origin.z - cy.center.z) * r.direction.z) * hax

end DegenerateLemmas

section LightSignLemmas
variable {K : Type} [LinearOrderedField K]

/-- The sample of a point light with non-negative intensity is non-negative
in every channel, for every hit record and every world. -/
theorem PointLight.sampleLight_nonneg (m : CMath K) (shadowRec : HitRecord K)
    (light : PointLight K) (rec : HitRecord K) (world : Hittable K)
    (hx : 0 ≤ light.intensity.x) (hy : 0 ≤ light.intensity.y) (hz : 0 ≤ light.intensity.z) :
    0 ≤ (light.sampleLight m shadowRec rec world).x ∧
    0 ≤ (light.sampleLight m shadowRec rec world).y ∧
    0 ≤ (light.sampleLight m shadowRec rec world).z := by
  unfold PointLight.sampleLight
  simp only []
  split
  · exact ⟨le_refl 0, le_refl 0, le_refl 0⟩
  · have hd : 0 ≤ 1 / (vec3.length m.sqrt (light.position - rec.p)
        * vec3.length m.sqrt (light.position - rec.p)) :=
      div_nonneg zero_le_one (mul_self_nonneg _)
    have hn : (0 : K) ≤ max 0.0 (vec3.dot rec.normal
        (vec3.unit_vector m.sqrt (light.position - rec.p))) := by
      apply le_max_of_le_left
      norm_num
    simp only [vec3.sdiv, vec3.smul_x, vec3.smul_y, vec3.smul_z]
    exact ⟨mul_nonneg hd (mul_nonneg zero_le_two (mul_nonneg hn hx)),
      mul_nonneg hd (mul_nonneg zero_le_two (mul_nonneg hn hy)),
      mul_nonneg hd (mul_nonneg zero_le_two (mul_nonneg hn hz))⟩

end LightSignLemmas

theorem qsqrt_one : qsqrt 1 = 1 := by
  have := qsqrt_mul_self 1 (by norm_num)
  simpa using this

/-- At normal incidence on `frontHit` the Fresnel weight is the material's
`fresnelReflectance`. -/
theorem fresnelSchlick_frontHit (f : ℚ) :
    fresnelSchlick qmathPow
      (vec3.dot (vec3.unit_vector qmathPow.sqrt (-zRay.direction)) frontHit.normal) f = f := by
  have hl : vec3.length_squared (-zRay.direction) = 1 := by
    norm_num [vec3.length_squared, zRay]
  have hu : vec3.unit_vector qmathPow.sqrt (-zRay.direction) = ⟨0, 0, -1⟩ := by
    unfold vec3.unit_vector vec3.length
    rw [hl]
    show vec3.sdiv (-zRay.direction) (qsqrt 1) = _
    rw [qsqrt_one]
    apply vec3.ext3 <;> norm_num [vec3.sdiv, vec3.smul, zRay]
  rw [hu]
  have hc : vec3.dot (⟨0, 0, -1⟩ : vec3 ℚ) frontHit.normal = 1 := by
    norm_num [vec3.dot, frontHit]
  rw [hc]
  unfold fresnelSchlick
  show f + (1.0 - f) * qpow (1.0 - 1) 5.0 = f
  have hp : qpow (1.0 - 1) 5.0 = 0 := by
    have h5 : (5.0 : ℚ) = 5 := by norm_num
    have h0 : (1.0 - 1 : ℚ) = 0 := by norm_num
    rw [h5, h0]
    unfold qpow
    have hden : (5 : ℚ).den = 1 := rfl
    have hnum : (5 : ℚ).num = 5 := rfl
    rw [if_pos ⟨hden, by rw [hnum]; norm_num⟩, hnum]
    norm_num
  rw [hp]
  ring

section ScatterLemmas
variable {K σ : Type} [LinearOrderedField K]

/-- `SchlickBRDF::evaluate` when the draw is below the Fresnel weight. -/
theorem SchlickBRDF.evaluate_below (m : CMath K) (rnd : Random K σ) (fresnelReflectance : K)
    (r_in : Ray K) (rec : HitRecord K) (attenuation : vec3 K) (scattered : Ray K) (g : σ)
    (h : (rnd.random_float g).1 < fresnelSchlick m
      (vec3.dot (vec3.unit_vector m.sqrt (-r_in.direction)) rec.normal) fresnelReflectance) :
    SchlickBRDF.evaluate m rnd fresnelReflectance r_in rec attenuation scattered g
      = ((true, ⟨1, 1, 1⟩, ⟨rec.p, vec3.reflect r_in.direction rec.normal⟩),
        (rnd.random_float g).2) := by
  unfold SchlickBRDF.evaluate
  simp only [h, if_true]
  norm_num

/-- `SchlickBRDF::evaluate` when the draw is not below the Fresnel weight: the
out-parameters are returned as they came in. -/
theorem SchlickBRDF.evaluate_not_below (m : CMath K) (rnd : Random K σ)
    (fresnelReflectance : K) (r_in : Ray K) (rec : HitRecord K) (attenuation : vec3 K)
    (scattered : Ray K) (g : σ)
    (h : ¬ (rnd.random_float g).1 < fresnelSchlick m
      (vec3.dot (vec3.unit_vector m.sqrt (-r_in.direction)) rec.normal) fresnelReflectance) :
    SchlickBRDF.evaluate m rnd fresnelReflectance r_in rec attenuation scattered g
      = ((true, attenuation, scattered), (rnd.random_float g).2) := by
  unfold SchlickBRDF.evaluate
  simp only [h, if_false]

end ScatterLemmas

section RefractionLemmas
variable {K σ : Type} [LinearOrderedField K]

/-- The Cauchy-Schwarz inequality, `(u.v)^2 <= |u|^2 |v|^2`. -/
theorem vec3.dot_sq_le (u v : vec3 K) :
    vec3.dot u v * vec3.dot u v ≤ vec3.length_squared u * vec3.length_squared v := by
  have h := vec3.length_squared_cross u v
  have h0 : 0 ≤ vec3.length_squared (vec3.cross u v) := by
    simp only [vec3.length_squared]
    nlinarith [mul_self_nonneg (vec3.cross u v).x, mul_self_nonneg (vec3.cross u v).y,
      mul_self_nonneg (vec3.cross u v).z]
  linarith

/-- The result of `unit_vector` has squared length at most 1 when the square
root of the squared length is exact. -/
theorem vec3.unit_vector_length_squared_le (sqrt : K → K) (v : vec3 K)
    (hs : ExactSqrt sqrt (vec3.length_squared v)) :
    vec3.length_squared (vec3.unit_vector sqrt v) ≤ 1 := by
  by_cases hv : vec3.length_squared v = 0
  · unfold vec3.unit_vector vec3.length
    have h0 : sqrt (vec3.length_squared v) = 0 := by
      have := hs.2
      rw [hv] at this ⊢
      exact mul_self_eq_zero.1 this
    rw [h0]
    simp [vec3.length_squared, vec3.sdiv]
  · exact le_of_eq (vec3.unit_vector_length_squared sqrt v hv hs)

/-- The radicand `1 - cos_theta^2` of the refraction test is not negative for
a unit normal. -/
theorem radicand_nonneg (sqrt : K → K) (d n : vec3 K)
    (hn : vec3.length_squared n = 1) (hs : ExactSqrt sqrt (vec3.length_squared d)) :
    0 ≤ 1.0 - vec3.dot (-vec3.unit_vector sqrt d) n * vec3.dot (-vec3.unit_vector sqrt d) n := by
  have h1 := vec3.dot_sq_le (-vec3.unit_vector sqrt d) n
  have h2 := vec3.unit_vector_length_squared_le sqrt d hs
  rw [vec3.length_squared_neg, hn, mul_one] at h1
  norm_num
  linarith

end RefractionLemmas

section ShadingLemmas
variable {K σ : Type} [LinearOrderedField K]

/-- The state of the generator after the loop over the lights: each light's
`sampleLight` in turn. -/
theorem BlinnPhong.light_step_state (m : CMath K) (specular_color : vec3 K)
    (specular_exponent : K) (world : Hittable K) (view_direction : vec3 K) (rec : HitRecord K)
    (lights : List (Light K σ)) :
    ∀ acc : (vec3 K × vec3 K) × σ,
      (lights.foldl (BlinnPhong.light_step m specular_color specular_exponent world
        view_direction rec) acc).2
      = lights.foldl (fun g light => (light.sampleLight rec world g).2) acc.2 := by
  induction lights with
  | nil => intro acc; rfl
  | cons light rest ih =>
    intro acc
    simp only [List.foldl_cons]
    rw [ih]
    rfl

/-- The state of the generator that the local part of `getShading` leaves
does not depend on the material. -/
theorem BlinnPhong.local_shading_state [FloorRing K] (m : CMath K)
    (diffuse_color specular_color : vec3 K) (specular_exponent ks kd : K) (mat : Material K)
    (world : Hittable K) (lights : List (Light K σ)) (r_in : Ray K) (rec : HitRecord K) (g : σ)
    (shading : vec3 K × σ)
    (h : BlinnPhong.local_shading m diffuse_color specular_color specular_exponent ks kd mat
      world lights r_in rec g = some shading) :
    shading.2 = lights.foldl (fun g light => (light.sampleLight rec world g).2) g := by
  unfold BlinnPhong.local_shading at h
  simp only [] at h
  rw [← BlinnPhong.light_step_state m specular_color specular_exponent world
    (vec3.unit_vector m.sqrt (-r_in.direction)) rec lights ((⟨0, 0, 0⟩, ⟨0, 0, 0⟩), g)]
  split at h
  · split at h
    · exact absurd h (by simp)
    · split at h
      · exact absurd h (by simp)
      · rw [← Option.some.inj h]
  · rw [← Option.some.inj h]

/-- `getShading` of a `BlinnPhong` material on a hit that makes no recursive
call: the value of the local part. -/
theorem Material.getShading_traced_local [FloorRing K] (m : CMath K) (rnd : Random K σ)
    (fresh : HitRecord K) (texture : Option Texture) (diffuse_color specular_color : vec3 K)
    (specular_exponent ks kd reflectivity refractiveIndex : K)
    (is_reflective is_refractive : Bool) (transparency : K)
    (world : Hittable K) (lights : List (Light K σ)) (r_in : Ray K) (backgroundColor : vec3 K)
    (rec : HitRecord K) (depth : Int) (g : σ) (rmat : Material K) (shading : vec3 K × σ)
    (hhit : (world.intersect r_in Camera.ray_interval rec).1 = true)
    (hmat : (world.intersect r_in Camera.ray_interval rec).2.mat = some rmat)
    (hlocal : BlinnPhong.local_shading m diffuse_color specular_color specular_exponent ks kd
      rmat world lights r_in (world.intersect r_in Camera.ray_interval rec).2 g = some shading)
    (hno : depth ≤ 0 ∨ (rmat.isReflective = false ∧ rmat.isRefractive = false)) :
    Material.getShading_traced m rnd fresh
      (.BlinnPhong texture diffuse_color specular_color specular_exponent ks kd reflectivity
        refractiveIndex is_reflective is_refractive transparency)
      world lights r_in backgroundColor rec depth g = (some shading, 0) := by
  have hn1 : ¬ (rmat.isReflective = true ∧ 0 < depth ∧ 0 < rmat.getReflectivity) := by
    rintro ⟨h1, h2, _⟩
    rcases hno with h | h
    · omega
    · rw [h.1] at h1
      exact Bool.noConfusion h1
  have hn2 : ¬ (rmat.isRefractive = true ∧ 0 < depth) := by
    rintro ⟨h1, h2⟩
    rcases hno with h | h
    · omega
    · rw [h.2] at h1
      exact Bool.noConfusion h1
  unfold Material.getShading_traced
  simp only [hhit, hmat, hlocal, Bool.not_true, Bool.false_eq_true, if_false]
  rw [dif_neg hn1]
  simp only [dif_neg hn2]

/-- `getShading` of a `BlinnPhong` material on a hit whose material is
reflective with positive reflectivity and not refractive, at a positive
depth: the secondary-ray block for the reflected ray. -/
theorem Material.getShading_traced_reflective [FloorRing K] (m : CMath K) (rnd : Random K σ)
    (fresh : HitRecord K) (texture : Option Texture) (diffuse_color specular_color : vec3 K)
    (specular_exponent ks kd reflectivity refractiveIndex : K)
    (is_reflective is_refractive : Bool) (transparency : K)
    (world : Hittable K) (lights : List (Light K σ)) (r_in : Ray K) (backgroundColor : vec3 K)
    (rec : HitRecord K) (depth : Int) (g : σ) (rmat : Material K) (shading : vec3 K × σ)
    (hhit : (world.intersect r_in Camera.ray_interval rec).1 = true)
    (hmat : (world.intersect r_in Camera.ray_interval rec).2.mat = some rmat)
    (hlocal : BlinnPhong.local_shading m diffuse_color specular_color specular_exponent ks kd
      rmat world lights r_in (world.intersect r_in Camera.ray_interval rec).2 g = some shading)
    (hrefl : rmat.isReflective = true) (hpos : 0 < rmat.getReflectivity)
    (hnrefr : rmat.isRefractive = false) (hd : 0 < depth) :
    Material.getShading_traced m rnd fresh
      (.BlinnPhong texture diffuse_color specular_color specular_exponent ks kd reflectivity
        refractiveIndex is_reflective is_refractive transparency)
      world lights r_in backgroundColor rec depth g
    = BlinnPhong.secondary
        (fun mat2 rec2 g2 => Material.getShading_traced m rnd fresh mat2 world lights
          ⟨(world.intersect r_in Camera.ray_interval rec).2.p,
            vec3.reflect (vec3.unit_vector m.sqrt r_in.direction)
              (world.intersect r_in Camera.ray_interval rec).2.normal⟩
          backgroundColor rec2 (depth - 1) g2)
        fresh world
        ⟨(world.intersect r_in Camera.ray_interval rec).2.p,
          vec3.reflect (vec3.unit_vector m.sqrt r_in.direction)
            (world.intersect r_in Camera.ray_interval rec).2.normal⟩
        backgroundColor reflectivity shading.2 := by
  have hn2 : ¬ (rmat.isRefractive = true ∧ 0 < depth) := by
    rintro ⟨h1, _⟩
    rw [hnrefr] at h1
    exact Bool.noConfusion h1
  rw [Material.getShading_traced]
  simp only [hhit, hmat, hlocal, Bool.not_true, Bool.false_eq_true, if_false]
  rw [dif_pos ⟨hrefl, hd, hpos⟩]
  simp only [dif_neg hn2]
  split
  · rename_i heq
    rw [heq]
  · rename_i heq
    rw [heq]

end ShadingLemmas

section LocalShadingLemmas
variable {K σ : Type} [LinearOrderedField K]

/-- The local part of `getShading` for an untextured hit lit by one point
light whose shadow ray is not occluded. -/
theorem BlinnPhong.local_shading_point_light [FloorRing K] (m : CMath K)
    (shadowRec : HitRecord K) (diffuse_color specular_color : vec3 K)
    (specular_exponent ks kd : K) (mat : Material K) (world : Hittable K)
    (light : PointLight K) (r_in : Ray K) (rec : HitRecord K) (g : σ)
    (L H : vec3 K) (d NL NH : K)
    (hunt : mat.isTextured = false)
    (hshadow : (world.intersect ⟨rec.p, vec3.unit_vector m.sqrt (light.position - rec.p)⟩
      Camera.ray_interval shadowRec).1 = false)
    (hL : L = vec3.unit_vector m.sqrt (light.position - rec.p))
    (hd : d = vec3.length m.sqrt (light.position - rec.p))
    (hH : H = vec3.unit_vector m.sqrt (vec3.unit_vector m.sqrt (-r_in.direction) + L))
    (hNL : NL = max 0 (vec3.dot rec.normal L))
    (hNH : NH = max 0 (vec3.dot rec.normal H)) :
    BlinnPhong.local_shading m diffuse_color specular_color specular_exponent ks kd mat world
      [light.toLight m shadowRec] r_in rec g
    = some (⟨kd * diffuse_color.x * light.intensity.x * 4 * NL ^ 2 / d ^ 4
          + ks * specular_color.x * light.intensity.x * 4 * NL * m.pow NH specular_exponent
            / d ^ 4
          + 0.2 * diffuse_color.x,
        kd * diffuse_color.y * light.intensity.y * 4 * NL ^ 2 / d ^ 4
          + ks * specular_color.y * light.intensity.y * 4 * NL * m.pow NH specular_exponent
            / d ^ 4
          + 0.2 * diffuse_color.y,
        kd * diffuse_color.z * light.intensity.z * 4 * NL ^ 2 / d ^ 4
          + ks * specular_color.z * light.intensity.z * 4 * NL * m.pow NH specular_exponent
            / d ^ 4
          + 0.2 * diffuse_color.z⟩, g) := by
  have h00 : (0.0 : K) = 0 := by norm_num
  subst hNH hNL hH hd hL
  unfold BlinnPhong.local_shading
  simp only [hunt, Bool.false_eq_true, if_false, List.foldl_cons, List.foldl_nil,
    BlinnPhong.light_step, PointLight.toLight, PointLight.sampleLight, hshadow, h00]
  refine congrArg some (Prod.ext ?_ rfl)
  apply vec3.ext3 <;>
    simp only [vec3.add_x, vec3.add_y, vec3.add_z, vec3.mul, vec3.sdiv, vec3.smul_x,
      vec3.smul_y, vec3.smul_z, vec3.smul] <;> ring

/-- The local part of `getShading` for an untextured hit and no lights: the
ambient term. -/
theorem BlinnPhong.local_shading_no_lights [FloorRing K] (m : CMath K)
    (diffuse_color specular_color : vec3 K) (specular_exponent ks kd : K) (mat : Material K)
    (world : Hittable K) (r_in : Ray K) (rec : HitRecord K) (g : σ)
    (hunt : mat.isTextured = false) :
    BlinnPhong.local_shading m diffuse_color specular_color specular_exponent ks kd mat world
      ([] : List (Light K σ)) r_in rec g
    = some (⟨0.2 * diffuse_color.x, 0.2 * diffuse_color.y, 0.2 * diffuse_color.z⟩, g) := by
  unfold BlinnPhong.local_shading
  simp only [hunt, Bool.false_eq_true, if_false, List.foldl_nil]
  refine congrArg some (Prod.ext ?_ rfl)
  apply vec3.ext3 <;>
    simp only [vec3.add_x, vec3.add_y, vec3.add_z, vec3.mul, vec3.smul_x,
      vec3.smul_y, vec3.smul_z] <;> ring

end LocalShadingLemmas

theorem Sphere.intersect_mirrorSphere_zRay :
    (Sphere.toHittable qmathPow mirrorSphere).intersect zRay Camera.ray_interval rec0
      = (true, mirrorHit) := by
  show Sphere.intersect qmathPow mirrorSphere zRay Camera.ray_interval rec0 = _
  have hD : Sphere.discriminant mirrorSphere zRay = 1 := by
    norm_num [Sphere.discriminant, mirrorSphere, Sphere.new, zRay, vec3.dot]
  have hq : qmathPow.sqrt 1 = 1 := qsqrt_one
  have ht : (-vec3.dot (zRay.origin - mirrorSphere.center) zRay.direction - 1)
      / vec3.dot zRay.direction zRay.direction = (4 : ℚ) := by
    norm_num [mirrorSphere, Sphere.new, zRay, vec3.dot]
  have hs : (⟨1 / 1000, ⊤⟩ : interval ℚ).surrounds 4 = true := by
    rw [interval.surrounds_iff]
    exact ⟨by show (1 / 1000 : ℚ) < 4; norm_num, WithTop.coe_lt_top _⟩
  rw [Camera.ray_interval_rat, Sphere.intersect_eq, hD, hq, ht, if_neg (by norm_num), if_pos hs]
  refine Prod.ext rfl ?_
  show Sphere.hit_info qmathPow mirrorSphere zRay 4 rec0 = mirrorHit
  have hn : vec3.dot zRay.direction (vec3.sdiv (zRay.at 4 - mirrorSphere.center)
      mirrorSphere.radius) < 0 := by
    norm_num [vec3.dot, vec3.sdiv, vec3.smul, Ray.at, zRay, mirrorSphere, Sphere.new]
  unfold Sphere.hit_info HitRecord.set_face_normal
  simp only [hn, decide_True, if_true]
  have htex : mirrorSphere.mat.isTextured = false := rfl
  simp only [htex, Bool.false_eq_true, if_false]
  simp only [mirrorHit, rec0, HitRecord.mk.injEq]
  refine ⟨?_, ?_, rfl, trivial, trivial, trivial, trivial⟩
  · apply vec3.ext3 <;> norm_num [Ray.at, zRay, vec3.smul]
  · apply vec3.ext3 <;>
      norm_num [vec3.sdiv, vec3.smul, Ray.at, zRay, mirrorSphere, Sphere.new]

theorem Sphere.intersect_mirrorSphere_backRay (rec : HitRecord ℚ) :
    (Sphere.toHittable qmathPow mirrorSphere).intersect backRay Camera.ray_interval rec
      = (false, rec) := by
  show Sphere.intersect qmathPow mirrorSphere backRay Camera.ray_interval rec = _
  have hD : Sphere.discriminant mirrorSphere backRay = 1 := by
    norm_num [Sphere.discriminant, mirrorSphere, Sphere.new, backRay, vec3.dot]
  have hq : qmathPow.sqrt 1 = 1 := qsqrt_one
  have h1 : (-vec3.dot (backRay.origin - mirrorSphere.center) backRay.direction - 1)
      / vec3.dot backRay.direction backRay.direction = (-2 : ℚ) := by
    norm_num [mirrorSphere, Sphere.new, backRay, vec3.dot]
  have h2 : (-vec3.dot (backRay.origin - mirrorSphere.center) backRay.direction + 1)
      / vec3.dot backRay.direction backRay.direction = (0 : ℚ) := by
    norm_num [mirrorSphere, Sphere.new, backRay, vec3.dot]
  have hs1 : ¬ (⟨1 / 1000, ⊤⟩ : interval ℚ).surrounds (-2) = true := by
    rw [interval.surrounds_iff]
    rintro ⟨h, _⟩
    have : (1 / 1000 : ℚ) < -2 := h
    norm_num at this
  have hs2 : ¬ (⟨1 / 1000, ⊤⟩ : interval ℚ).surrounds 0 = true := by
    rw [interval.surrounds_iff]
    rintro ⟨h, _⟩
    have : (1 / 1000 : ℚ) < 0 := h
    norm_num at this
  rw [Camera.ray_interval_rat, Sphere.intersect_eq, hD, hq, h1, h2, if_neg (by norm_num),
    if_neg hs1, if_neg hs2]

/-- The unit vector of the direction of `zRay`. -/
theorem unit_vector_zRay : vec3.unit_vector qmathPow.sqrt zRay.direction = ⟨0, 0, 1⟩ := by
  have hl : vec3.length_squared zRay.direction = 1 := by
    norm_num [vec3.length_squared, zRay]
  unfold vec3.unit_vector vec3.length
  rw [hl]
  show vec3.sdiv zRay.direction (qsqrt 1) = _
  rw [qsqrt_one]
  apply vec3.ext3 <;> norm_num [vec3.sdiv, vec3.smul, zRay]

/-- The mirror reflection of `zRay` at `mirrorHit` is `backRay`. -/
theorem reflect_zRay_mirrorHit :
    (⟨mirrorHit.p, vec3.reflect (vec3.unit_vector qmathPow.sqrt zRay.direction)
      mirrorHit.normal⟩ : Ray ℚ) = backRay := by
  rw [unit_vector_zRay]
  simp only [backRay, mirrorHit, Ray.mk.injEq, true_and]
  apply vec3.ext3 <;> norm_num [vec3.reflect, vec3.smul, vec3.dot]

/-- The unit vector and the length of `(0, 0, -2)`. -/
theorem unit_vector_down :
    vec3.unit_vector qmathPow.sqrt (⟨0, 0, -2⟩ : vec3 ℚ) = ⟨0, 0, -1⟩ ∧
    vec3.length qmathPow.sqrt (⟨0, 0, -2⟩ : vec3 ℚ) = 2 := by
  have hl : vec3.length qmathPow.sqrt (⟨0, 0, -2⟩ : vec3 ℚ) = 2 := by
    have : vec3.length_squared (⟨0, 0, -2⟩ : vec3 ℚ) = 4 := by
      norm_num [vec3.length_squared]
    unfold vec3.length
    rw [this]
    exact qsqrt_four
  refine ⟨?_, hl⟩
  unfold vec3.unit_vector
  rw [hl]
  apply vec3.ext3 <;> norm_num [vec3.sdiv, vec3.smul]

/-- The unit vector against the direction of `zRay`. -/
theorem unit_vector_neg_zRay :
    vec3.unit_vector qmathPow.sqrt (-zRay.direction) = ⟨0, 0, -1⟩ := by
  have hl : vec3.length_squared (-zRay.direction) = 1 := by
    norm_num [vec3.length_squared, zRay]
  unfold vec3.unit_vector vec3.length
  rw [hl]
  show vec3.sdiv (-zRay.direction) (qsqrt 1) = _
  rw [qsqrt_one]
  apply vec3.ext3 <;> norm_num [vec3.sdiv, vec3.smul, zRay]

theorem qpow_one_two : qmathPow.pow 1 2 = 1 := by
  show qpow 1 2 = 1
  unfold qpow
  have hden : (2 : ℚ).den = 1 := rfl
  have hnum : (2 : ℚ).num = 2 := rfl
  rw [if_pos ⟨hden, by rw [hnum]; norm_num⟩, hnum]
  norm_num

section RadicalLemmas
variable {K : Type} [LinearOrderedField K]

theorem radical_inverse_nil (base : Nat) : radical_inverse (K := K) base [] = 0 := rfl

/-- The radical inverse, one digit at a time. -/
theorem radical_inverse_cons (base d : Nat) (ds : List Nat) :
    radical_inverse (K := K) base (d :: ds)
      = ((d : K) + radical_inverse base ds) / (base : K) := by
  unfold radical_inverse
  rw [List.length_cons, List.range_succ_eq_map, List.map_cons, List.sum_cons, List.map_map]
  have hmap : (List.range ds.length).map
      ((fun k => (((d :: ds).getD k 0 : Nat) : K) / (base : K) ^ (k + 1)) ∘ Nat.succ)
      = (List.range ds.length).map
        (fun k => ((ds.getD k 0 : Nat) : K) / (base : K) ^ (k + 1) * ((base : K))⁻¹) := by
    apply List.map_congr_left
    intro k _
    simp only [Function.comp, Nat.succ_eq_add_one, List.getD_cons_succ]
    rw [pow_succ, div_mul_eq_div_div, div_eq_mul_inv _ (base : K)]
  rw [hmap, List.sum_map_mul_right]
  simp only [List.getD_cons_zero, zero_add, pow_one]
  rw [add_div, div_eq_mul_inv _ (base : K), div_eq_mul_inv _ (base : K)]

/-- The radical inverse of a list of digits below the base lies in `[0, 1)`. -/
theorem radical_inverse_range (base : Nat) (hb : 2 ≤ base) (ds : List Nat)
    (hds : ∀ d ∈ ds, d < base) :
    0 ≤ radical_inverse (K := K) base ds ∧ radical_inverse (K := K) base ds < 1 := by
  have hbK : (2 : K) ≤ (base : K) := by exact_mod_cast hb
  have hb0 : (0 : K) < (base : K) := by linarith
  induction ds with
  | nil => rw [radical_inverse_nil]; exact ⟨le_refl 0, zero_lt_one⟩
  | cons d ds ih =>
    obtain ⟨h0, h1⟩ := ih (fun x hx => hds x (List.mem_cons_of_mem _ hx))
    have hd : d < base := hds d (List.mem_cons_self _ _)
    have hdK : (d : K) ≤ (base : K) - 1 := by
      have : d + 1 ≤ base := hd
      have h2 : ((d + 1 : Nat) : K) ≤ (base : K) := by exact_mod_cast this
      push_cast at h2
      linarith
    have hd0 : (0 : K) ≤ (d : K) := Nat.cast_nonneg d
    rw [radical_inverse_cons]
    constructor
    · exact div_nonneg (by linarith) (le_of_lt hb0)
    · rw [div_lt_one hb0]
      linarith

end RadicalLemmas

section RadicalLoop
variable {K : Type} [LinearOrderedField K] [FloorRing K]

/-- The loop of `halton` started at the number with the digits `ds` adds
`f * base` times the radical inverse of `ds` to `result`. -/
theorem halton_loop_digits (base : Nat) (hb : 2 ≤ base) (ds : List Nat) :
    (∀ d ∈ ds, d < base) → ∀ (fuel : Nat) (result f : K), Nat.ofDigits base ds < fuel →
      halton_loop (base : Int) fuel result f ((Nat.ofDigits base ds : Nat) : Int)
        = some (result + f * (base : K) * radical_inverse base ds) := by
  have hbK : (2 : K) ≤ (base : K) := by exact_mod_cast hb
  have hb0 : (base : K) ≠ 0 := by linarith
  induction ds with
  | nil =>
    intro _ fuel result f hlt
    cases fuel with
    | zero => omega
    | succ k =>
      rw [Nat.ofDigits_nil, halton_loop, if_neg (by simp), radical_inverse_nil]
      simp
  | cons d ds ih =>
    intro hds fuel result f hlt
    have hd : d < base := hds d (List.mem_cons_self _ _)
    have ih2 := ih (fun x hx => hds x (List.mem_cons_of_mem _ hx))
    rw [Nat.ofDigits_cons] at hlt ⊢
    have h2n : 2 * Nat.ofDigits base ds ≤ base * Nat.ofDigits base ds :=
      Nat.mul_le_mul_right _ hb
    cases fuel with
    | zero => omega
    | succ k =>
      by_cases hpos : (((d + base * Nat.ofDigits base ds : Nat) : Int)) > 0
      · have hi0 : (0 : Int) ≤ ((d + base * Nat.ofDigits base ds : Nat) : Int) :=
          Int.natCast_nonneg _
        have hnext := halton_next_index (K := K) ((d + base * Nat.ofDigits base ds : Nat) : Int)
          (base : Int) hi0 (by omega)
        have hdiv : ((d + base * Nat.ofDigits base ds : Nat) : Int) / (base : Int)
            = ((Nat.ofDigits base ds : Nat) : Int) := by
          have : (d + base * Nat.ofDigits base ds) / base = Nat.ofDigits base ds := by
            rw [Nat.add_mul_div_left _ _ (by omega), Nat.div_eq_of_lt hd, zero_add]
          exact_mod_cast this
        have hmod : Int.tmod ((d + base * Nat.ofDigits base ds : Nat) : Int) (base : Int)
            = (d : Int) := by
          rw [Int.tmod_eq_emod hi0 (by omega)]
          have : (d + base * Nat.ofDigits base ds) % base = d := by
            rw [Nat.add_mul_mod_self_left, Nat.mod_eq_of_lt hd]
          exact_mod_cast this
        rw [halton_loop, if_pos hpos, hnext, hdiv, hmod]
        have hcast : (((base : Nat) : Int) : K) = (base : K) := by norm_cast
        rw [hcast, ih2 k _ _ (by omega), radical_inverse_cons]
        congr 1
        have hdc : (((d : Nat) : Int) : K) = (d : K) := by norm_cast
        rw [hdc]
        field_simp
        ring
      · have hzero : d + base * Nat.ofDigits base ds = 0 := by
          have : ¬ (0 < d + base * Nat.ofDigits base ds) := by
            intro h
            exact hpos (by exact_mod_cast h)
          omega
        have hd0 : d = 0 := by omega
        have hn0 : Nat.ofDigits base ds = 0 := by
          rcases Nat.eq_zero_or_pos (Nat.ofDigits base ds) with h | h
          · exact h
          · omega
        have hri : radical_inverse (K := K) base ds = 0 := by
          have h1 := ih2 1 (0 : K) 1 (by omega)
          rw [hn0, halton_loop, if_neg (by simp)] at h1
          have h2 := Option.some.inj h1
          have h3 : (base : K) * radical_inverse (K := K) base ds = 0 := by linarith
          rcases mul_eq_zero.1 h3 with h | h
          · exact absurd h hb0
          · exact h
        rw [halton_loop, if_neg hpos, radical_inverse_cons, hri, hd0]
        simp

/-- For `index >= 0` and `base >= 2`, `halton(index, base)` is the radical
inverse of the digits of `index` in that base. -/
theorem halton_eq_digits (base index : Nat) (hb : 2 ≤ base) (fuel : Nat) (hf : index < fuel) :
    halton (K := K) fuel (index : Int) (base : Int)
      = some (radical_inverse base (Nat.digits base index)) := by
  have hbK : (2 : K) ≤ (base : K) := by exact_mod_cast hb
  have h := halton_loop_digits (K := K) base hb (Nat.digits base index)
    (fun d hd => Nat.digits_lt_base (by omega) hd) fuel 0 (1.0 / (base : K))
    (by rw [Nat.ofDigits_digits]; exact hf)
  rw [Nat.ofDigits_digits] at h
  unfold halton
  have hcast : (((base : Nat) : Int) : K) = (base : K) := by norm_cast
  rw [hcast, h]
  congr 1
  have hb0 : (base : K) ≠ 0 := by linarith
  have h10 : (1.0 : K) = 1 := by norm_num
  rw [h10, zero_add, div_mul_cancel₀ _ hb0, one_mul]

end RadicalLoop

section RadicalInjective
variable {K : Type} [LinearOrderedField K]

/-- The radical inverse of the digits of a positive number. -/
theorem radical_inverse_digits_pos (base : Nat) (hb : 2 ≤ base) (n : Nat) (hn : 0 < n) :
    radical_inverse (K := K) base (Nat.digits base n)
      = (((n % base : Nat) : K) + radical_inverse base (Nat.digits base (n / base)))
        / (base : K) := by
  rw [Nat.digits_def' (by omega) hn, radical_inverse_cons]

theorem radical_inverse_digits_range (base : Nat) (hb : 2 ≤ base) (n : Nat) :
    0 ≤ radical_inverse (K := K) base (Nat.digits base n) ∧
    radical_inverse (K := K) base (Nat.digits base n) < 1 :=
  radical_inverse_range base hb _ (fun _ hd => Nat.digits_lt_base (by omega) hd)

/-- The radical inverse of the digits of a positive number is positive. -/
theorem radical_inverse_digits_gt (base : Nat) (hb : 2 ≤ base) (n : Nat) :
    0 < n → 0 < radical_inverse (K := K) base (Nat.digits base n) := by
  have hbK : (2 : K) ≤ (base : K) := by exact_mod_cast hb
  have hb0 : (0 : K) < (base : K) := by linarith
  induction n using Nat.strong_induction_on with
  | _ n ih =>
    intro hn
    rw [radical_inverse_digits_pos base hb n hn]
    apply div_pos _ hb0
    have hr := (radical_inverse_digits_range (K := K) base hb (n / base)).1
    by_cases hm : n % base = 0
    · have hq : 0 < n / base := by
        rcases Nat.eq_zero_or_pos (n / base) with h | h
        · have := Nat.div_add_mod n base
          rw [h, hm] at this
          omega
        · exact h
      have := ih (n / base) (Nat.div_lt_self hn (by omega)) hq
      have hc : (0 : K) ≤ ((n % base : Nat) : K) := Nat.cast_nonneg _
      linarith
    · have hc : (1 : K) ≤ ((n % base : Nat) : K) := by
        have : 1 ≤ n % base := Nat.one_le_iff_ne_zero.2 hm
        exact_mod_cast this
      linarith

/-- Distinct numbers have distinct radical inverses. -/
theorem radical_inverse_digits_injective (base : Nat) (hb : 2 ≤ base) (n : Nat) :
    ∀ k : Nat, radical_inverse (K := K) base (Nat.digits base n)
      = radical_inverse (K := K) base (Nat.digits base k) → n = k := by
  have hbK : (2 : K) ≤ (base : K) := by exact_mod_cast hb
  have hb0 : (base : K) ≠ 0 := by linarith
  induction n using Nat.strong_induction_on with
  | _ n ih =>
    intro k h
    rcases Nat.eq_zero_or_pos n with hn | hn
    · rcases Nat.eq_zero_or_pos k with hk | hk
      · rw [hn, hk]
      · have := radical_inverse_digits_gt (K := K) base hb k hk
        rw [← h, hn] at this
        simp [radical_inverse] at this
    · rcases Nat.eq_zero_or_pos k with hk | hk
      · have := radical_inverse_digits_gt (K := K) base hb n hn
        rw [h, hk] at this
        simp [radical_inverse] at this
      · rw [radical_inverse_digits_pos base hb n hn, radical_inverse_digits_pos base hb k hk,
          div_left_inj' hb0] at h
        obtain ⟨hn0, hn1⟩ := radical_inverse_digits_range (K := K) base hb (n / base)
        obtain ⟨hk0, hk1⟩ := radical_inverse_digits_range (K := K) base hb (k / base)
        have hmod : n % base = k % base := by
          rcases Nat.lt_trichotomy (n % base) (k % base) with hlt | heq | hgt
          · have : ((n % base : Nat) : K) + 1 ≤ ((k % base : Nat) : K) := by
              have : n % base + 1 ≤ k % base := hlt
              exact_mod_cast this
            linarith
          · exact heq
          · have : ((k % base : Nat) : K) + 1 ≤ ((n % base : Nat) : K) := by
              have : k % base + 1 ≤ n % base := hgt
              exact_mod_cast this
            linarith
        rw [hmod] at h
        have hdiv := ih (n / base) (Nat.div_lt_self hn (by omega)) (k / base)
          (add_left_cancel h)
        have h1 := Nat.div_add_mod n base
        have h2 := Nat.div_add_mod k base
        rw [hdiv, hmod] at h1
        omega

end RadicalInjective

section RayLemmas
variable {K σ : Type} [LinearOrderedField K]

/-- The image height `Camera::initialize` leaves is positive when the one
configured is not negative. -/
theorem Camera.initialise_image_height_pos [FloorRing K] (m : CMath K) (cam : Camera K)
    (hh : 0 ≤ cam.image_height) : 0 < (cam.initialise m).image_height := by
  show 0 < (if cam.image_height = 0 then
      (if static_cast_int ((cam.image_width : K) / cam.aspect_ratio) < 1 then 1
        else static_cast_int ((cam.image_width : K) / cam.aspect_ratio))
    else cam.image_height)
  split
  · split <;> omega
  · omega

/-- The jitter of one axis: the integer `static_cast<int>(h * n)` divided by
`n` is `floor(h * n) / n` and lies in `[0, 1)` for `h` in `[0, 1)`. -/
theorem jitter_range [FloorRing K] (h : K) (n : Int) (h0 : 0 ≤ h) (h1 : h < 1) (hn : 0 < n) :
    ((static_cast_int (h * (n : K)) : Int) : K) / (n : K)
      = ((⌊h * (n : K)⌋ : Int) : K) / (n : K) ∧
    0 ≤ ((⌊h * (n : K)⌋ : Int) : K) / (n : K) ∧
    ((⌊h * (n : K)⌋ : Int) : K) / (n : K) < 1 := by
  have hnK : (0 : K) < (n : K) := by exact_mod_cast hn
  have hpos : 0 ≤ h * (n : K) := mul_nonneg h0 (le_of_lt hnK)
  have hcast : static_cast_int (h * (n : K)) = ⌊h * (n : K)⌋ := by
    unfold static_cast_int
    rw [if_pos hpos]
  have hfl0 : (0 : K) ≤ ((⌊h * (n : K)⌋ : Int) : K) := by
    exact_mod_cast Int.floor_nonneg.2 hpos
  have hfl1 : ((⌊h * (n : K)⌋ : Int) : K) < (n : K) := by
    have h2 : h * (n : K) < (n : K) := by nlinarith
    exact lt_of_le_of_lt (Int.floor_le _) h2
  refine ⟨by rw [hcast], div_nonneg hfl0 (le_of_lt hnK), ?_⟩
  rw [div_lt_one hnK]
  exact hfl1

/-- The value of `halton` for an index `>= 0` and a base `>= 2`, in `[0, 1)`. -/
theorem halton_value [FloorRing K] (s : Int) (base : Nat) (hb : 2 ≤ base) (hs : 0 ≤ s)
    (fuel : Nat) (hf : s.toNat < fuel) :
    ∃ v : K, halton (K := K) fuel s (base : Int) = some v ∧ 0 ≤ v ∧ v < 1 := by
  have hsn : s = ((s.toNat : Nat) : Int) := (Int.toNat_of_nonneg hs).symm
  refine ⟨radical_inverse base (Nat.digits base s.toNat), ?_,
    (radical_inverse_digits_range base hb _).1, (radical_inverse_digits_range base hb _).2⟩
  have h := halton_eq_digits (K := K) base s.toNat hb fuel hf
  rw [← hsn] at h
  exact h

end RayLemmas

section BoxLemmas
variable {K : Type} [LinearOrderedField K]

/-- The bounding boxes of the three constructors are made of their corners. -/
theorem bbox_of_corners (m : CMath K) :
    (∀ (center : vec3 K) (radius : K) (mat : Material K) (rot : K),
      (Sphere.new center radius mat rot).bbox
        = aabb.of_points (Sphere.corners center radius).1 (Sphere.corners center radius).2) ∧
    (∀ (center axis : vec3 K) (radius height : K) (mat : Material K),
      (Cylinder.new center axis radius height mat).bbox
        = aabb.of_points (Cylinder.extremes center axis radius height).1
          (Cylinder.extremes center axis radius height).2) ∧
    (∀ (v1 v2 v3 : vec3 K) (mat : Material K),
      (Triangle.new m v1 v2 v3 mat).bbox
        = aabb.of_points
          (Triangle.extremes (Triangle.new m v1 v2 v3 mat).vertex1
            (Triangle.new m v1 v2 v3 mat).vertex2 (Triangle.new m v1 v2 v3 mat).vertex3).1
          (Triangle.extremes (Triangle.new m v1 v2 v3 mat).vertex1
            (Triangle.new m v1 v2 v3 mat).vertex2 (Triangle.new m v1 v2 v3 mat).vertex3).2) := by
  refine ⟨fun _ _ _ _ => rfl, fun center axis radius height mat => ?_, fun _ _ _ _ => rfl⟩
  unfold Cylinder.new Cylinder.extremes
  rfl

/-- The vertices `Triangle::Triangle` stores are the ones it received, in some
order. -/
theorem Triangle.sortCounterClockwise_perm (m : CMath K) (v1 v2 v3 : vec3 K) :
    (Triangle.sortCounterClockwise m v1 v2 v3).Perm [v1, v2, v3] := by
  unfold Triangle.sortCounterClockwise
  exact List.perm_insertionSort _ _

end BoxLemmas

section BoxHitLemmas
variable {K : Type} [LinearOrderedField K]

/-- A coordinate is within `r` of the centre when the squared distance,
of which its square is one term, is at most `r^2`. -/
theorem coord_bound (a s r : K) (hr : 0 ≤ r) (hs : 0 ≤ s) (h : a * a + s ≤ r * r) :
    -r ≤ a ∧ a ≤ r := by
  constructor
  · by_contra hlt
    push_neg at hlt
    nlinarith
  · by_contra hlt
    push_neg at hlt
    nlinarith

/-- The hit point of a sphere of radius `>= 0` is between the corners its
constructor passes to the bounding box. -/
theorem Sphere.hit_between_sphere (m : CMath K) (center : vec3 K) (radius : K) (mat : Material K)
    (rot : K) (r : Ray K) (ray_t : interval K) (rec : HitRecord K) (hr : 0 ≤ radius)
    (hd : r.direction ≠ ⟨0, 0, 0⟩)
    (hs : 0 ≤ Sphere.discriminant (Sphere.new center radius mat rot) r →
      ExactSqrt m.sqrt (Sphere.discriminant (Sphere.new center radius mat rot) r))
    (h : (Sphere.intersect m (Sphere.new center radius mat rot) r ray_t rec).1 = true) :
    vec3.between (Sphere.corners center radius).1 (Sphere.corners center radius).2
      (Sphere.intersect m (Sphere.new center radius mat rot) r ray_t rec).2.p := by
  have hon := ((Sphere.sphere_intersect_spec m (Sphere.new center radius mat rot) r ray_t rec
    hd hs).2 h).2.2.2.2
  generalize (Sphere.intersect m (Sphere.new center radius mat rot) r ray_t rec).2.p = p at hon
  have hon2 : (p.x - center.x) * (p.x - center.x) + (p.y - center.y) * (p.y - center.y)
      + (p.z - center.z) * (p.z - center.z) = radius * radius := hon
  have hx := coord_bound (p.x - center.x)
    ((p.y - center.y) * (p.y - center.y) + (p.z - center.z) * (p.z - center.z)) radius hr
    (add_nonneg (mul_self_nonneg _) (mul_self_nonneg _)) (by linarith)
  have hy := coord_bound (p.y - center.y)
    ((p.x - center.x) * (p.x - center.x) + (p.z - center.z) * (p.z - center.z)) radius hr
    (add_nonneg (mul_self_nonneg _) (mul_self_nonneg _)) (by linarith)
  have hz := coord_bound (p.z - center.z)
    ((p.x - center.x) * (p.x - center.x) + (p.y - center.y) * (p.y - center.y)) radius hr
    (add_nonneg (mul_self_nonneg _) (mul_self_nonneg _)) (by linarith)
  simp only [vec3.between, Sphere.corners, vec3.sub_x, vec3.sub_y, vec3.sub_z, vec3.add_x,
    vec3.add_y, vec3.add_z]
  refine ⟨⟨?_, ?_⟩, ⟨?_, ?_⟩, ⟨?_, ?_⟩⟩ <;> linarith [hx.1, hx.2, hy.1, hy.2, hz.1, hz.2]

/-- The hit point of a triangle is a convex combination of its vertices. -/
theorem Triangle.hit_convex (m : CMath K) (tr : Triangle K) (r : Ray K) (ray_t : interval K)
    (rec : HitRecord K) (h : (Triangle.intersect m tr r ray_t rec).1 = true) :
    ∃ w1 w2 w3 : K, 0 ≤ w1 ∧ 0 ≤ w2 ∧ 0 ≤ w3 ∧ w1 + w2 + w3 = 1 ∧
      (Triangle.intersect m tr r ray_t rec).2.p
        = vec3.smul w1 tr.vertex1 + vec3.smul w2 tr.vertex2 + vec3.smul w3 tr.vertex3 := by
  obtain ⟨_, hp, _, _⟩ := Triangle.intersect_hit_rec m tr r ray_t rec h
  obtain ⟨heps, _, h1, h2, h3⟩ := (Triangle.intersect_hit_iff m tr r ray_t rec).1 h
  have hnd : vec3.dot (Triangle.normal tr) r.direction ≠ 0 := by
    intro h0
    rw [h0, abs_zero] at heps
    exact absurd Triangle.epsilon_pos (not_lt.2 heps)
  have hplane := Triangle.plane_t_in_plane tr r hnd
  have hNN : 0 < vec3.dot (Triangle.normal tr) (Triangle.normal tr) := by
    apply vec3.dot_self_pos
    intro hN
    apply hnd
    rw [hN]
    simp [vec3.dot]
  rw [hp]
  refine ⟨vec3.dot (Triangle.normal tr) (vec3.cross (tr.vertex3 - tr.vertex2)
      (r.at (Triangle.plane_t tr r) - tr.vertex2))
        / vec3.dot (Triangle.normal tr) (Triangle.normal tr),
    vec3.dot (Triangle.normal tr) (vec3.cross (tr.vertex1 - tr.vertex3)
      (r.at (Triangle.plane_t tr r) - tr.vertex3))
        / vec3.dot (Triangle.normal tr) (Triangle.normal tr),
    vec3.dot (Triangle.normal tr) (vec3.cross (tr.vertex2 - tr.vertex1)
      (r.at (Triangle.plane_t tr r) - tr.vertex1))
        / vec3.dot (Triangle.normal tr) (Triangle.normal tr),
    div_nonneg h2 (le_of_lt hNN), div_nonneg h3 (le_of_lt hNN), div_nonneg h1 (le_of_lt hNN),
    ?_, ?_⟩
  · rw [← add_div, ← add_div, div_eq_one_iff_eq (ne_of_gt hNN)]
    have := Triangle.edge_sum tr (r.at (Triangle.plane_t tr r))
    linear_combination this
  · have hb := Triangle.barycentric tr (r.at (Triangle.plane_t tr r)) hplane
    have hne := ne_of_gt hNN
    have hx := congrArg vec3.x hb
    have hy := congrArg vec3.y hb
    have hz := congrArg vec3.z hb
    simp only [vec3.add_x, vec3.add_y, vec3.add_z, vec3.smul_x, vec3.smul_y, vec3.smul_z]
      at hx hy hz
    apply vec3.ext3 <;>
      simp only [vec3.add_x, vec3.add_y, vec3.add_z, vec3.smul_x, vec3.smul_y, vec3.smul_z]
    · field_simp
      linear_combination hx
    · field_simp
      linear_combination hy
    · field_simp
      linear_combination hz

/-- A convex combination of three numbers is between their least and their
greatest. -/
theorem convex_between (w1 w2 w3 a b c : K) (h1 : 0 ≤ w1) (h2 : 0 ≤ w2) (h3 : 0 ≤ w3)
    (hsum : w1 + w2 + w3 = 1) :
    min a (min b c) ≤ w1 * a + w2 * b + w3 * c ∧
    w1 * a + w2 * b + w3 * c ≤ max a (max b c) := by
  have ha1 : min a (min b c) ≤ a := min_le_left _ _
  have hb1 : min a (min b c) ≤ b := le_trans (min_le_right _ _) (min_le_left _ _)
  have hc1 : min a (min b c) ≤ c := le_trans (min_le_right _ _) (min_le_right _ _)
  have ha2 : a ≤ max a (max b c) := le_max_left _ _
  have hb2 : b ≤ max a (max b c) := le_trans (le_max_left _ _) (le_max_right _ _)
  have hc2 : c ≤ max a (max b c) := le_trans (le_max_right _ _) (le_max_right _ _)
  generalize min a (min b c) = lo at ha1 hb1 hc1
  generalize max a (max b c) = hi at ha2 hb2 hc2
  have hlo : lo = w1 * lo + w2 * lo + w3 * lo := by
    rw [← add_mul, ← add_mul, hsum, one_mul]
  have hhi : hi = w1 * hi + w2 * hi + w3 * hi := by
    rw [← add_mul, ← add_mul, hsum, one_mul]
  have e1 := mul_nonneg h1 (sub_nonneg.2 ha1)
  have e2 := mul_nonneg h2 (sub_nonneg.2 hb1)
  have e3 := mul_nonneg h3 (sub_nonneg.2 hc1)
  have f1 := mul_nonneg h1 (sub_nonneg.2 ha2)
  have f2 := mul_nonneg h2 (sub_nonneg.2 hb2)
  have f3 := mul_nonneg h3 (sub_nonneg.2 hc2)
  rw [mul_sub] at e1 e2 e3 f1 f2 f3
  constructor <;> linarith

/-- The hit point of a triangle is between the corners made of the extreme
coordinates of its vertices. -/
theorem Triangle.hit_between_triangle (m : CMath K) (tr : Triangle K) (r : Ray K) (ray_t : interval K)
    (rec : HitRecord K) (h : (Triangle.intersect m tr r ray_t rec).1 = true) :
    vec3.between (Triangle.extremes tr.vertex1 tr.vertex2 tr.vertex3).1
      (Triangle.extremes tr.vertex1 tr.vertex2 tr.vertex3).2
      (Triangle.intersect m tr r ray_t rec).2.p := by
  obtain ⟨w1, w2, w3, h1, h2, h3, hsum, hp⟩ := Triangle.hit_convex m tr r ray_t rec h
  rw [hp]
  simp only [vec3.between, Triangle.extremes, vec3.add_x, vec3.add_y, vec3.add_z, vec3.smul_x,
    vec3.smul_y, vec3.smul_z]
  exact ⟨convex_between w1 w2 w3 _ _ _ h1 h2 h3 hsum,
    convex_between w1 w2 w3 _ _ _ h1 h2 h3 hsum,
    convex_between w1 w2 w3 _ _ _ h1 h2 h3 hsum⟩

end BoxHitLemmas

section CylinderBoxLemmas
variable {K : Type} [LinearOrderedField K]

theorem Cylinder.cap_info_p (m : CMath K) (cy : Cylinder K) (r : Ray K) (root : K)
    (point : vec3 K) (rec : HitRecord K) : (Cylinder.cap_info m cy r root point rec).p = point :=
  rfl

theorem Cylinder.body_info_p (m : CMath K) (phi0 : K) (cy : Cylinder K) (r : Ray K)
    (hit_point projection : K) (rec : HitRecord K) :
    (Cylinder.body_info m phi0 cy r hit_point projection rec).p = r.at hit_point := by
  unfold Cylinder.body_info HitRecord.set_face_normal
  split <;> rfl

/-- Where the hit point of `Cylinder::intersect` lies: on a cap plane within
the radius of the cap centre, or at a root of the quadratic with its
projection on the axis within the height. -/
theorem Cylinder.hit_point_cases (m : CMath K) (phi0 : K) (cy : Cylinder K) (r : Ray K)
    (ray_t : interval K) (rec : HitRecord K)
    (h : (Cylinder.intersect m phi0 cy r ray_t rec).1 = true) :
    0 < Cylinder.discriminant cy r ∧
    ((∃ sign : K, (sign = -1 ∨ sign = 1) ∧ vec3.dot cy.axis r.direction ≠ 0 ∧
        (Cylinder.intersect m phi0 cy r ray_t rec).2.p
          = r.at (-(vec3.dot cy.axis
              (r.origin - (cy.center + vec3.smul (sign * cy.height) cy.axis)))
            / vec3.dot cy.axis r.direction) ∧
        vec3.length_squared ((Cylinder.intersect m phi0 cy r ray_t rec).2.p
          - (cy.center + vec3.smul (sign * cy.height) cy.axis)) ≤ cy.radius * cy.radius) ∨
      (∃ hit_point,
        (hit_point = (-Cylinder.quad_b cy r - m.sqrt (Cylinder.discriminant cy r))
            / (2 * Cylinder.quad_a cy r) ∨
          hit_point = (-Cylinder.quad_b cy r + m.sqrt (Cylinder.discriminant cy r))
            / (2 * Cylinder.quad_a cy r)) ∧
        (Cylinder.intersect m phi0 cy r ray_t rec).2.p = r.at hit_point ∧
        -cy.height ≤ vec3.dot (r.at hit_point - cy.center) cy.axis ∧
        vec3.dot (r.at hit_point - cy.center) cy.axis ≤ cy.height)) := by
  have hc1 : cy.center - vec3.smul cy.height cy.axis
      = cy.center + vec3.smul (-1 * cy.height) cy.axis := by
    apply vec3.ext3 <;>
      simp only [vec3.sub_x, vec3.sub_y, vec3.sub_z, vec3.add_x, vec3.add_y, vec3.add_z,
        vec3.smul_x, vec3.smul_y, vec3.smul_z] <;> ring
  have hc2 : cy.center + vec3.smul cy.height cy.axis
      = cy.center + vec3.smul (1 * cy.height) cy.axis := by rw [one_mul]
  revert h
  generalize hres : Cylinder.intersect m phi0 cy r ray_t rec = res
  unfold Cylinder.intersect Cylinder.body at hres
  unfold Cylinder.discriminant Cylinder.quad_a Cylinder.quad_b
  simp only [] at hres ⊢
  rw [hc1, hc2, vec3.dot_comm r.direction cy.axis] at hres
  rw [vec3.dot_comm r.direction cy.axis]
  generalize vec3.length_squared r.direction
    - vec3.dot cy.axis r.direction * vec3.dot cy.axis r.direction = a at hres ⊢
  generalize 2 * (vec3.dot (r.origin - cy.center) r.direction
    - vec3.dot (r.origin - cy.center) cy.axis * vec3.dot cy.axis r.direction) = b at hres ⊢
  generalize vec3.length_squared (r.origin - cy.center)
    - vec3.dot (r.origin - cy.center) cy.axis * vec3.dot (r.origin - cy.center) cy.axis
    - cy.radius * cy.radius = c at hres ⊢
  generalize m.sqrt (b * b - 4 * a * c) = sq at hres ⊢
  have hp : (if (-b - sq) / (2 * a) < (-b + sq) / (2 * a) then (-b - sq) / (2 * a)
      else (-b + sq) / (2 * a)) = (-b - sq) / (2 * a) ∨
      (if (-b - sq) / (2 * a) < (-b + sq) / (2 * a) then (-b - sq) / (2 * a)
      else (-b + sq) / (2 * a)) = (-b + sq) / (2 * a) := by
    split
    · exact Or.inl rfl
    · exact Or.inr rfl
  generalize (if (-b - sq) / (2 * a) < (-b + sq) / (2 * a) then (-b - sq) / (2 * a)
      else (-b + sq) / (2 * a)) = hit_point at hp hres
  generalize hr3 : -vec3.dot cy.axis
    (r.origin - (cy.center + vec3.smul (-1 * cy.height) cy.axis))
      / vec3.dot cy.axis r.direction = root3 at hres
  generalize hr4 : -vec3.dot cy.axis
    (r.origin - (cy.center + vec3.smul (1 * cy.height) cy.axis))
      / vec3.dot cy.axis r.direction = root4 at hres
  intro h
  split_ifs at hres with h1 h2 h3 h4 h5 h6 h7
  all_goals subst hres
  · exact absurd h (by simp)
  · refine ⟨h1, Or.inl ⟨-1, Or.inl rfl, h3, ?_, ?_⟩⟩
    · rw [hr3]; rfl
    · exact h4.2.2
  · refine ⟨h1, Or.inl ⟨1, Or.inr rfl, h3, ?_, ?_⟩⟩
    · rw [hr4]; rfl
    · exact h5.2
  · exact absurd h (by simp)
  · push_neg at h6
    exact ⟨h1, Or.inr ⟨hit_point, hp, Cylinder.body_info_p _ _ _ _ _ _ _, h6.1, h6.2⟩⟩
  · exact absurd h (by simp)
  · push_neg at h7
    exact ⟨h1, Or.inr ⟨hit_point, hp, Cylinder.body_info_p _ _ _ _ _ _ _, h7.1, h7.2⟩⟩
  · exact absurd h (by simp)

end CylinderBoxLemmas

section CylinderBetween
variable {K : Type} [LinearOrderedField K]

/-- A point within `radius` of the axis and within `height` along it is
between the corners of the bounding box, for an axis that is a unit basis
vector. -/
theorem Cylinder.between_of_surface (center axis : vec3 K) (radius height : K) (P : vec3 K)
    (hax : axis = ⟨1, 0, 0⟩ ∨ axis = ⟨0, 1, 0⟩ ∨ axis = ⟨0, 0, 1⟩)
    (hr : 0 ≤ radius)
    (hA : vec3.length_squared (P - center - vec3.smul (vec3.dot (P - center) axis) axis)
      ≤ radius * radius)
    (hB : -height ≤ vec3.dot (P - center) axis ∧ vec3.dot (P - center) axis ≤ height) :
    vec3.between (Cylinder.extremes center axis radius height).1
      (Cylinder.extremes center axis radius height).2 P := by
  rcases hax with rfl | rfl | rfl
  · simp only [vec3.length_squared, vec3.dot, vec3.sub_x, vec3.sub_y, vec3.sub_z, vec3.smul_x,
      vec3.smul_y, vec3.smul_z, mul_zero, mul_one, add_zero, sub_zero] at hA hB
    have hy := coord_bound (P.y - center.y) ((P.z - center.z) * (P.z - center.z)) radius hr
      (mul_self_nonneg _) (by nlinarith)
    have hz := coord_bound (P.z - center.z) ((P.y - center.y) * (P.y - center.y)) radius hr
      (mul_self_nonneg _) (by nlinarith)
    simp only [Cylinder.extremes, if_true, vec3.between]
    refine ⟨⟨?_, ?_⟩, ⟨?_, ?_⟩, ⟨?_, ?_⟩⟩ <;> linarith [hB.1, hB.2, hy.1, hy.2, hz.1, hz.2]
  · simp only [vec3.length_squared, vec3.dot, vec3.sub_x, vec3.sub_y, vec3.sub_z, vec3.smul_x,
      vec3.smul_y, vec3.smul_z, mul_zero, mul_one, add_zero, zero_add, sub_zero] at hA hB
    have hx := coord_bound (P.x - center.x) ((P.z - center.z) * (P.z - center.z)) radius hr
      (mul_self_nonneg _) (by nlinarith)
    have hz := coord_bound (P.z - center.z) ((P.x - center.x) * (P.x - center.x)) radius hr
      (mul_self_nonneg _) (by nlinarith)
    simp only [Cylinder.extremes, zero_ne_one, if_false, if_true, vec3.between]
    refine ⟨⟨?_, ?_⟩, ⟨?_, ?_⟩, ⟨?_, ?_⟩⟩ <;> linarith [hB.1, hB.2, hx.1, hx.2, hz.1, hz.2]
  · simp only [vec3.length_squared, vec3.dot, vec3.sub_x, vec3.sub_y, vec3.sub_z, vec3.smul_x,
      vec3.smul_y, vec3.smul_z, mul_zero, mul_one, add_zero, zero_add, sub_zero] at hA hB
    have hx := coord_bound (P.x - center.x) ((P.y - center.y) * (P.y - center.y)) radius hr
      (mul_self_nonneg _) (by nlinarith)
    have hy := coord_bound (P.y - center.y) ((P.x - center.x) * (P.x - center.x)) radius hr
      (mul_self_nonneg _) (by nlinarith)
    simp only [Cylinder.extremes, zero_ne_one, if_false, if_true, vec3.between]
    refine ⟨⟨?_, ?_⟩, ⟨?_, ?_⟩, ⟨?_, ?_⟩⟩ <;> linarith [hB.1, hB.2, hx.1, hx.2, hy.1, hy.2]

/-- The hit point of a cylinder with radius and height `>= 0` around a unit
basis vector is between the corners its constructor passes to the bounding
box. -/
theorem Cylinder.hit_between_cylinder (m : CMath K) (phi0 : K) (cy : Cylinder K) (r : Ray K)
    (ray_t : interval K) (rec : HitRecord K)
    (hax : cy.axis = ⟨1, 0, 0⟩ ∨ cy.axis = ⟨0, 1, 0⟩ ∨ cy.axis = ⟨0, 0, 1⟩)
    (hr : 0 ≤ cy.radius) (hh : 0 ≤ cy.height)
    (hs : 0 < Cylinder.discriminant cy r → ExactSqrt m.sqrt (Cylinder.discriminant cy r))
    (h : (Cylinder.intersect m phi0 cy r ray_t rec).1 = true) :
    vec3.between (Cylinder.extremes cy.center cy.axis cy.radius cy.height).1
      (Cylinder.extremes cy.center cy.axis cy.radius cy.height).2
      (Cylinder.intersect m phi0 cy r ray_t rec).2.p := by
  have hunit : vec3.length_squared cy.axis = 1 := by
    rcases hax with h1 | h1 | h1 <;> rw [h1] <;> norm_num [vec3.length_squared]
  obtain ⟨hD, hcase⟩ := Cylinder.hit_point_cases m phi0 cy r ray_t rec h
  generalize (Cylinder.intersect m phi0 cy r ray_t rec).2.p = P at hcase
  apply Cylinder.between_of_surface cy.center cy.axis cy.radius cy.height P hax hr
  · rcases hcase with ⟨sign, _, hd, hp, hl⟩ | ⟨t, ht, hp, _, _⟩
    · have hplane : vec3.dot cy.axis
          (P - (cy.center + vec3.smul (sign * cy.height) cy.axis)) = 0 := by
        rw [hp]
        simp only [Ray.at, vec3.dot, vec3.sub_x, vec3.sub_y, vec3.sub_z, vec3.add_x,
          vec3.add_y, vec3.add_z, vec3.smul_x, vec3.smul_y, vec3.smul_z] at hd ⊢
        field_simp
        ring
      have hproj : vec3.dot (P - cy.center) cy.axis = sign * cy.height := by
        simp only [vec3.length_squared] at hunit
        simp only [vec3.dot, vec3.sub_x, vec3.sub_y, vec3.sub_z, vec3.add_x,
          vec3.add_y, vec3.add_z, vec3.smul_x, vec3.smul_y, vec3.smul_z] at hplane ⊢
        linear_combination hplane + sign * cy.height * hunit
      rw [hproj]
      have heq : P - cy.center - vec3.smul (sign * cy.height) cy.axis
          = P - (cy.center + vec3.smul (sign * cy.height) cy.axis) := by
        apply vec3.ext3 <;>
          simp only [vec3.sub_x, vec3.sub_y, vec3.sub_z, vec3.add_x, vec3.add_y, vec3.add_z,
            vec3.smul_x, vec3.smul_y, vec3.smul_z] <;> ring
      rw [heq]
      exact hl
    · rw [hp]
      exact le_of_eq (Cylinder.root_radial cy r hunit (Cylinder.quad_a_ne_zero cy r hunit hD)
        (m.sqrt (Cylinder.discriminant cy r)) (hs hD).2 t ht)
  · rcases hcase with ⟨sign, hsign, hd, hp, hl⟩ | ⟨t, ht, hp, h1, h2⟩
    · have hplane : vec3.dot cy.axis
          (P - (cy.center + vec3.smul (sign * cy.height) cy.axis)) = 0 := by
        rw [hp]
        simp only [Ray.at, vec3.dot, vec3.sub_x, vec3.sub_y, vec3.sub_z, vec3.add_x,
          vec3.add_y, vec3.add_z, vec3.smul_x, vec3.smul_y, vec3.smul_z] at hd ⊢
        field_simp
        ring
      have hproj : vec3.dot (P - cy.center) cy.axis = sign * cy.height := by
        simp only [vec3.length_squared] at hunit
        simp only [vec3.dot, vec3.sub_x, vec3.sub_y, vec3.sub_z, vec3.add_x,
          vec3.add_y, vec3.add_z, vec3.smul_x, vec3.smul_y, vec3.smul_z] at hplane ⊢
        linear_combination hplane + sign * cy.height * hunit
      rw [hproj]
      rcases hsign with hs1 | hs1 <;> rw [hs1] <;> constructor <;> linarith
    · rw [hp]
      exact ⟨h1, h2⟩

end CylinderBetween

section BoxConcrete

theorem Cylinder.intersect_inwardCylinder_sideRay :
    (Cylinder.intersect qmath 0 inwardCylinder sideRay ⟨1 / 1000, ⊤⟩ rec0).1 = true ∧
    (Cylinder.intersect qmath 0 inwardCylinder sideRay ⟨1 / 1000, ⊤⟩ rec0).2.p = ⟨-1, 0, 0⟩ := by
  constructor
  · simp [Cylinder.intersect, inwardCylinder, Cylinder.new, sideRay, qmath, vec3.dot,
      vec3.length_squared]
    norm_num [qsqrt_four, interval.contains, Cylinder.body, Ray.at]
  · simp [Cylinder.intersect, inwardCylinder, Cylinder.new, sideRay, qmath, vec3.dot,
      vec3.length_squared]
    norm_num [qsqrt_four, interval.contains, Cylinder.body, Ray.at, Cylinder.body_info_p]
    apply vec3.ext3 <;> norm_num [vec3.add_x, vec3.add_y, vec3.add_z, vec3.smul]

theorem Cylinder.intersect_unitCylinder_sideRay :
    (Cylinder.intersect qmath 0 unitCylinder sideRay ⟨1 / 1000, ⊤⟩ rec0).1 = true ∧
    Cylinder.discriminant unitCylinder sideRay = 4 := by
  constructor
  · simp [Cylinder.intersect, unitCylinder, Cylinder.new, sideRay, qmath, vec3.dot,
      vec3.length_squared]
    norm_num [qsqrt_four, interval.contains, Cylinder.body, Ray.at]
  · norm_num [Cylinder.discriminant, Cylinder.quad_a, Cylinder.quad_b, Cylinder.quad_c,
      unitCylinder, Cylinder.new, sideRay, vec3.dot, vec3.length_squared]

end BoxConcrete

/-! ## The claims -/

section Claims

variable {K : Type} [LinearOrderedField K]

/-- C1.  For a list of objects that obey the intersection contract on the ray,
`HittableList::intersect` reports a hit if and only if some object reports a
hit when queried alone with the interval; the record it returns is the one an
object of the list produced, that object's own hit has the returned `t`, every
object's own hit is at that `t` or farther, and the objects before it in the
list hit strictly farther (so it is the earliest object with the minimal `t`). -/
theorem HittableList.intersect_nearest (objects : List (Hittable K))
    (temp_rec rec : HitRecord K) (r : Ray K) (ray_t : interval K)
    (hc : ∀ o ∈ objects, ObeysContract o r) :
    ((HittableList.intersect objects temp_rec r ray_t rec).1 = true ↔
      ∃ o ∈ objects, ∃ rec0, (o.intersect r ray_t rec0).1 = true) ∧
    ((HittableList.intersect objects temp_rec r ray_t rec).1 = true →
      ∃ l1 o l2, objects = l1 ++ o :: l2 ∧
        (∃ c tmp, o.intersect r ⟨ray_t.min, c⟩ tmp =
          (true, (HittableList.intersect objects temp_rec r ray_t rec).2)) ∧
        (∀ rec0, (o.intersect r ray_t rec0).1 = true ∧ (o.intersect r ray_t rec0).2.t =
          (HittableList.intersect objects temp_rec r ray_t rec).2.t) ∧
        (∀ o1 ∈ l1, ∀ rec0, (o1.intersect r ray_t rec0).1 = true →
          (HittableList.intersect objects temp_rec r ray_t rec).2.t <
            (o1.intersect r ray_t rec0).2.t) ∧
        (∀ o2 ∈ objects, ∀ rec0, (o2.intersect r ray_t rec0).1 = true →
          (HittableList.intersect objects temp_rec r ray_t rec).2.t ≤
            (o2.intersect r ray_t rec0).2.t)) := by
  unfold HittableList.intersect
  simp only []
  rcases HittableList.foldl_spec objects r ray_t temp_rec rec hc with
    ⟨h1, _, _, h4⟩ | ⟨h1, _, _, l1, o, l2, hdec, hrec, hown, hbefore, hafter⟩
  · rw [h1]
    refine ⟨⟨fun h => Bool.noConfusion h, ?_⟩, fun h => Bool.noConfusion h⟩
    rintro ⟨o, ho, rec0, hhit⟩
    rw [h4 o ho rec0] at hhit
    exact Bool.noConfusion hhit
  · rw [h1]
    refine ⟨⟨fun _ => ⟨o, by simp [hdec], rec, (hown rec).1⟩, fun _ => rfl⟩, fun _ => ?_⟩
    refine ⟨l1, o, l2, hdec, hrec, hown, hbefore, ?_⟩
    intro o2 ho2 rec0 hhit
    rw [hdec] at ho2
    rcases List.mem_append.1 ho2 with ho2 | ho2
    · exact le_of_lt (hbefore o2 ho2 rec0 hhit)
    · rcases List.mem_cons.1 ho2 with ho2 | ho2
      · subst ho2
        exact le_of_eq (hown rec0).2.symm
      · exact hafter o2 ho2 rec0 hhit

/-- The hypothesis of C1 holds for two spheres on the z axis and the ray along
that axis, and the list reports a hit exactly when a sphere does. -/
theorem HittableList.intersect_nearest_witness :
    (∀ o ∈ twoSpheres, ObeysContract o zRay) ∧
    ((HittableList.intersect twoSpheres rec0 zRay ⟨1 / 1000, ⊤⟩ rec0).1 = true ↔
      ∃ o ∈ twoSpheres, ∃ rec1, (o.intersect zRay ⟨1 / 1000, ⊤⟩ rec1).1 = true) := by
  have hd : zRay.direction ≠ (⟨0, 0, 0⟩ : vec3 ℚ) := by simp [zRay]
  have hc : ∀ o ∈ twoSpheres, ObeysContract o zRay := by
    intro o ho
    simp only [twoSpheres, List.mem_cons, List.mem_singleton, List.not_mem_nil, or_false] at ho
    rcases ho with ho | ho
    · subst ho
      refine Sphere.obeysContract qmath farSphere zRay hd (fun _ => ?_)
      have : Sphere.discriminant farSphere zRay = 1 * 1 := by
        norm_num [Sphere.discriminant, farSphere, Sphere.new, zRay, vec3.dot]
      rw [this]
      exact qsqrt_exact 1 (by norm_num)
    · subst ho
      refine Sphere.obeysContract qmath unitSphere zRay hd (fun _ => ?_)
      have : Sphere.discriminant unitSphere zRay = 1 * 1 := by
        norm_num [Sphere.discriminant, unitSphere, Sphere.new, zRay, vec3.dot]
      rw [this]
      exact qsqrt_exact 1 (by norm_num)
  exact ⟨hc, (HittableList.intersect_nearest twoSpheres rec0 rec0 zRay ⟨1 / 1000, ⊤⟩ hc).1⟩

/-- C2.  For a ray with non-zero direction and an exact square root of the
discriminant, `Sphere::intersect` reports a hit exactly when the sphere
equation `|origin + t*direction - center|^2 = radius^2` has a root `t` with
`tmin < t < tmax`; on a hit `rec.t` is such a root, no root inside the interval
is smaller, and `rec.p = origin + rec.t*direction` lies on the sphere. -/
theorem Sphere.intersect_nearest_root (m : CMath K) (s : Sphere K) (r : Ray K)
    (ray_t : interval K) (rec : HitRecord K) (hd : r.direction ≠ ⟨0, 0, 0⟩)
    (hs : 0 ≤ Sphere.discriminant s r → ExactSqrt m.sqrt (Sphere.discriminant s r)) :
    ((Sphere.intersect m s r ray_t rec).1 = true ↔
      ∃ t, vec3.length_squared (r.at t - s.center) = s.radius * s.radius ∧
        ray_t.surrounds t = true) ∧
    ((Sphere.intersect m s r ray_t rec).1 = true →
      vec3.length_squared (r.at (Sphere.intersect m s r ray_t rec).2.t - s.center)
          = s.radius * s.radius ∧
        ray_t.surrounds (Sphere.intersect m s r ray_t rec).2.t = true ∧
        (∀ t, vec3.length_squared (r.at t - s.center) = s.radius * s.radius →
          ray_t.surrounds t = true → (Sphere.intersect m s r ray_t rec).2.t ≤ t) ∧
        (Sphere.intersect m s r ray_t rec).2.p = r.at (Sphere.intersect m s r ray_t rec).2.t ∧
        vec3.length_squared ((Sphere.intersect m s r ray_t rec).2.p - s.center)
          = s.radius * s.radius) :=
  Sphere.sphere_intersect_spec m s r ray_t rec hd hs

/-- The hypotheses of C2 hold for the unit sphere and the ray from `(0, 0, -5)`
along the z axis, where the discriminant is 1. -/
theorem Sphere.intersect_nearest_root_witness :
    zRay.direction ≠ (⟨0, 0, 0⟩ : vec3 ℚ) ∧
    ExactSqrt qmath.sqrt (Sphere.discriminant unitSphere zRay) ∧
    ((Sphere.intersect qmath unitSphere zRay ⟨1 / 1000, ⊤⟩ rec0).1 = true ↔
      ∃ t, vec3.length_squared (zRay.at t - unitSphere.center)
        = unitSphere.radius * unitSphere.radius ∧
        (⟨1 / 1000, ⊤⟩ : interval ℚ).surrounds t = true) := by
  have hd : zRay.direction ≠ (⟨0, 0, 0⟩ : vec3 ℚ) := by simp [zRay]
  have hs : ExactSqrt qmath.sqrt (Sphere.discriminant unitSphere zRay) := by
    have : Sphere.discriminant unitSphere zRay = 1 * 1 := by
      norm_num [Sphere.discriminant, unitSphere, Sphere.new, zRay, vec3.dot]
    rw [this]
    exact qsqrt_exact 1 (by norm_num)
  exact ⟨hd, hs,
    (Sphere.intersect_nearest_root qmath unitSphere zRay ⟨1 / 1000, ⊤⟩ rec0 hd (fun _ => hs)).1⟩

/-- C3.  If `Triangle::intersect` reports a hit then `tmin < rec.t < tmax` and
`rec.p = origin + rec.t*direction` lies in the plane of the triangle and is a
convex combination of the three vertices; conversely, a ray that is not
parallel to the plane (`|N.direction|` at least the tolerance) and meets the
plane strictly inside the interval at a convex combination of the vertices is
reported as a hit with that parameter; a ray parallel to the plane never
reports a hit. -/
theorem Triangle.intersect_in_triangle (m : CMath K) (tr : Triangle K) (r : Ray K)
    (ray_t : interval K) (rec : HitRecord K) :
    ((Triangle.intersect m tr r ray_t rec).1 = true →
      (ray_t.min < (Triangle.intersect m tr r ray_t rec).2.t ∧
        ((Triangle.intersect m tr r ray_t rec).2.t : WithTop K) < ray_t.max) ∧
      (Triangle.intersect m tr r ray_t rec).2.p
        = r.at (Triangle.intersect m tr r ray_t rec).2.t ∧
      vec3.dot (Triangle.normal tr) ((Triangle.intersect m tr r ray_t rec).2.p - tr.vertex1)
        = 0 ∧
      ∃ w1 w2 w3 : K, 0 ≤ w1 ∧ 0 ≤ w2 ∧ 0 ≤ w3 ∧ w1 + w2 + w3 = 1 ∧
        (Triangle.intersect m tr r ray_t rec).2.p
          = vec3.smul w1 tr.vertex1 + vec3.smul w2 tr.vertex2 + vec3.smul w3 tr.vertex3) ∧
    (∀ t w1 w2 w3 : K, Triangle.epsilon ≤ |vec3.dot (Triangle.normal tr) r.direction| →
      ray_t.min < t → (t : WithTop K) < ray_t.max →
      0 ≤ w1 → 0 ≤ w2 → 0 ≤ w3 → w1 + w2 + w3 = 1 →
      r.at t = vec3.smul w1 tr.vertex1 + vec3.smul w2 tr.vertex2 + vec3.smul w3 tr.vertex3 →
      (Triangle.intersect m tr r ray_t rec).1 = true ∧
        (Triangle.intersect m tr r ray_t rec).2.t = t) ∧
    (vec3.dot (Triangle.normal tr) r.direction = 0 →
      (Triangle.intersect m tr r ray_t rec).1 = false) := by
  refine ⟨fun h => ?_, fun t w1 w2 w3 heps htmin htmax hw1 hw2 hw3 hsum hP => ?_, fun hpar => ?_⟩
  · obtain ⟨ht, hp, _, _⟩ := Triangle.intersect_hit_rec m tr r ray_t rec h
    obtain ⟨heps, hin, h1, h2, h3⟩ := (Triangle.intersect_hit_iff m tr r ray_t rec).1 h
    have hnd : vec3.dot (Triangle.normal tr) r.direction ≠ 0 := by
      intro h0
      rw [h0, abs_zero] at heps
      exact absurd Triangle.epsilon_pos (not_lt.2 heps)
    have hplane := Triangle.plane_t_in_plane tr r hnd
    have hNN : 0 < vec3.dot (Triangle.normal tr) (Triangle.normal tr) := by
      apply vec3.dot_self_pos
      intro hN
      apply hnd
      rw [hN]
      simp [vec3.dot]
    rw [ht, hp]
    refine ⟨(interval.surrounds_iff _ _).1 hin, rfl, hplane, ?_⟩
    refine ⟨vec3.dot (Triangle.normal tr) (vec3.cross (tr.vertex3 - tr.vertex2)
        (r.at (Triangle.plane_t tr r) - tr.vertex2))
          / vec3.dot (Triangle.normal tr) (Triangle.normal tr),
      vec3.dot (Triangle.normal tr) (vec3.cross (tr.vertex1 - tr.vertex3)
        (r.at (Triangle.plane_t tr r) - tr.vertex3))
          / vec3.dot (Triangle.normal tr) (Triangle.normal tr),
      vec3.dot (Triangle.normal tr) (vec3.cross (tr.vertex2 - tr.vertex1)
        (r.at (Triangle.plane_t tr r) - tr.vertex1))
          / vec3.dot (Triangle.normal tr) (Triangle.normal tr),
      div_nonneg h2 (le_of_lt hNN), div_nonneg h3 (le_of_lt hNN), div_nonneg h1 (le_of_lt hNN),
      ?_, ?_⟩
    · rw [← add_div, ← add_div, div_eq_one_iff_eq (ne_of_gt hNN)]
      have := Triangle.edge_sum tr (r.at (Triangle.plane_t tr r))
      linear_combination this
    · have hb := Triangle.barycentric tr (r.at (Triangle.plane_t tr r)) hplane
      have hne := ne_of_gt hNN
      have hx := congrArg vec3.x hb
      have hy := congrArg vec3.y hb
      have hz := congrArg vec3.z hb
      simp only [vec3.add_x, vec3.add_y, vec3.add_z, vec3.smul_x, vec3.smul_y, vec3.smul_z]
        at hx hy hz
      apply vec3.ext3 <;>
        simp only [vec3.add_x, vec3.add_y, vec3.add_z, vec3.smul_x, vec3.smul_y, vec3.smul_z]
      · field_simp
        linear_combination hx
      · field_simp
        linear_combination hy
      · field_simp
        linear_combination hz
  · have hnd : vec3.dot (Triangle.normal tr) r.direction ≠ 0 := by
      intro h0
      rw [h0, abs_zero] at heps
      exact absurd Triangle.epsilon_pos (not_lt.2 heps)
    obtain ⟨e1, e2, e3, hplane⟩ := Triangle.edge_of_combination tr w1 w2 w3 hsum (r.at t) hP
    have htt := Triangle.plane_t_unique tr r hnd t hplane
    have hNN : 0 ≤ vec3.dot (Triangle.normal tr) (Triangle.normal tr) := by
      simp only [vec3.dot]
      nlinarith [mul_self_nonneg (Triangle.normal tr).x, mul_self_nonneg (Triangle.normal tr).y,
        mul_self_nonneg (Triangle.normal tr).z]
    have hhit : (Triangle.intersect m tr r ray_t rec).1 = true := by
      rw [Triangle.intersect_hit_iff, ← htt, e1, e2, e3]
      exact ⟨heps, (interval.surrounds_iff _ _).2 ⟨htmin, htmax⟩, mul_nonneg hw3 hNN,
        mul_nonneg hw1 hNN, mul_nonneg hw2 hNN⟩
    exact ⟨hhit, by rw [(Triangle.intersect_hit_rec m tr r ray_t rec hhit).1, htt]⟩
  · by_contra hne
    have hhit : (Triangle.intersect m tr r ray_t rec).1 = true := by simpa using hne
    have heps := ((Triangle.intersect_hit_iff m tr r ray_t rec).1 hhit).1
    rw [hpar, abs_zero] at heps
    exact absurd Triangle.epsilon_pos (not_lt.2 heps)

/-- C4, at a failing input.  For the cylinder of radius 1 and height 1 around
the y axis, the ray from its centre along the x axis and the interval
`(0.001, 10)`, `Cylinder::intersect` reports a body hit with `rec.t = -1`; for
the ray from `(-2, 0, 0)` in direction `(1, 1/2, 0)` and the interval
`(0.001, 3/2)` it reports a top-cap hit with `rec.t = 2`.  Neither parameter
is in the queried interval. -/
theorem Cylinder.intersect_t_outside_interval :
    ((Cylinder.intersect qmath 0 unitCylinder xRay ⟨1 / 1000, ((10 : ℚ) : WithTop ℚ)⟩ rec0).1
        = true ∧
      (Cylinder.intersect qmath 0 unitCylinder xRay ⟨1 / 1000, ((10 : ℚ) : WithTop ℚ)⟩ rec0).2.t
        = -1 ∧
      (⟨1 / 1000, ((10 : ℚ) : WithTop ℚ)⟩ : interval ℚ).contains (-1) = false) ∧
    ((Cylinder.intersect qmath 0 unitCylinder slantRay
        ⟨1 / 1000, ((3 / 2 : ℚ) : WithTop ℚ)⟩ rec0).1 = true ∧
      (Cylinder.intersect qmath 0 unitCylinder slantRay
        ⟨1 / 1000, ((3 / 2 : ℚ) : WithTop ℚ)⟩ rec0).2.t = 2 ∧
      (⟨1 / 1000, ((3 / 2 : ℚ) : WithTop ℚ)⟩ : interval ℚ).contains 2 = false) := by
  refine ⟨⟨?_, ?_, ?_⟩, ?_, ?_, ?_⟩
  · simp [Cylinder.intersect, unitCylinder, Cylinder.new, xRay, qmath, vec3.dot, vec3.length_squared]
    norm_num [qsqrt_four, interval.contains, Cylinder.body]
  · simp [Cylinder.intersect, unitCylinder, Cylinder.new, xRay, qmath, vec3.dot, vec3.length_squared]
    norm_num [qsqrt_four, interval.contains, Cylinder.body, Cylinder.body_info_t]
  · norm_num [interval.contains]
  · simp [Cylinder.intersect, unitCylinder, Cylinder.new, slantRay, qmath, vec3.dot, vec3.length_squared]
    norm_num [qsqrt_four, interval.contains, Cylinder.body, Ray.at]
  · simp [Cylinder.intersect, unitCylinder, Cylinder.new, slantRay, qmath, vec3.dot, vec3.length_squared]
    norm_num [qsqrt_four, interval.contains, Cylinder.body, Ray.at, Cylinder.cap_info_t]
  · rw [← Bool.not_eq_true, interval.contains_iff]
    rintro ⟨_, h⟩
    exact absurd (WithTop.coe_le_coe.1 h) (by norm_num)

/-- C5, at a failing input.  For the cylinder of radius 1 and height 1 around
the y axis, the ray from `(-2, 0, 0)` in direction `(1, 1/2, 0)` and the
interval `(0.001, INFTY)`, `Cylinder::intersect` reports the top-cap hit at
`rec.t = 2`, although the ray meets the lateral surface of the cylinder at
the smaller parameter `t = 1`, which is inside the interval. -/
theorem Cylinder.intersect_not_nearest :
    (Cylinder.intersect qmath 0 unitCylinder slantRay ⟨1 / 1000, ⊤⟩ rec0).1 = true ∧
    (Cylinder.intersect qmath 0 unitCylinder slantRay ⟨1 / 1000, ⊤⟩ rec0).2.t = 2 ∧
    Cylinder.on_surface unitCylinder (slantRay.at 1) ∧
    (⟨1 / 1000, ⊤⟩ : interval ℚ).surrounds 1 = true ∧
    (1 : ℚ) < (Cylinder.intersect qmath 0 unitCylinder slantRay ⟨1 / 1000, ⊤⟩ rec0).2.t := by
  have ht := Cylinder.intersect_slantRay_hit.2
  refine ⟨Cylinder.intersect_slantRay_hit.1, ht, ?_, ?_, ?_⟩
  · left
    norm_num [unitCylinder, Cylinder.new, slantRay, Ray.at, vec3.dot, vec3.length_squared]
  · norm_num [interval.surrounds]
  · rw [ht]; norm_num

/-- C6.  Whenever `intersect` reports a hit, the recorded normal has squared
length 1, hence Euclidean length 1: for a `Sphere` with radius > 0 and a ray
with non-zero direction; for a `Cylinder` with a unit axis (a basis vector in
particular) and radius > 0, on body hits and on cap hits; and for a
`Triangle`.  The square root is taken to be exact at the values the code
applies it to: the discriminant, and the squared length of the vector passed
to `unit_vector`. -/
theorem intersect_normal_unit (m : CMath K) :
    (∀ (s : Sphere K) (r : Ray K) (ray_t : interval K) (rec : HitRecord K),
      0 < s.radius → r.direction ≠ ⟨0, 0, 0⟩ →
      (0 ≤ Sphere.discriminant s r → ExactSqrt m.sqrt (Sphere.discriminant s r)) →
      (Sphere.intersect m s r ray_t rec).1 = true →
      vec3.length_squared (Sphere.intersect m s r ray_t rec).2.normal = 1) ∧
    (∀ (phi0 : K) (cy : Cylinder K) (r : Ray K) (ray_t : interval K) (rec : HitRecord K),
      vec3.length_squared cy.axis = 1 → 0 < cy.radius →
      (0 < Cylinder.discriminant cy r → ExactSqrt m.sqrt (Cylinder.discriminant cy r)) →
      ExactSqrt m.sqrt (vec3.length_squared cy.axis) →
      ExactSqrt m.sqrt (cy.radius * cy.radius) →
      (Cylinder.intersect m phi0 cy r ray_t rec).1 = true →
      vec3.length_squared (Cylinder.intersect m phi0 cy r ray_t rec).2.normal = 1) ∧
    (∀ (tr : Triangle K) (r : Ray K) (ray_t : interval K) (rec : HitRecord K),
      ExactSqrt m.sqrt (vec3.length_squared (Triangle.normal tr)) →
      (Triangle.intersect m tr r ray_t rec).1 = true →
      vec3.length_squared (Triangle.intersect m tr r ray_t rec).2.normal = 1) := by
  refine ⟨?_, ?_, ?_⟩
  · intro s r ray_t rec hr hd hs h
    have hon := ((Sphere.sphere_intersect_spec m s r ray_t rec hd hs).2 h).1
    rw [Sphere.sphere_hit_rec m s r ray_t rec h, Sphere.hit_info_normal,
      HitRecord.set_face_normal_length, vec3.length_squared_sdiv _ _ (ne_of_gt hr), hon]
    exact div_self (ne_of_gt (mul_pos hr hr))
  · intro phi0 cy r ray_t rec hax hr hs hsax hsr h
    obtain ⟨hD, hcase⟩ := Cylinder.intersect_hit_cases m phi0 cy r ray_t rec h
    rcases hcase with ⟨root, point, hrec⟩ | ⟨hit_point, hp, hrec⟩
    · rw [hrec, Cylinder.cap_info_normal, HitRecord.set_face_normal_length]
      exact vec3.unit_vector_length_squared m.sqrt cy.axis (by rw [hax]; exact one_ne_zero) hsax
    · have ha := Cylinder.quad_a_ne_zero cy r hax hD
      have hrad := Cylinder.root_radial cy r hax ha _ (hs hD).2 hit_point hp
      rw [hrec, Cylinder.body_info_normal, HitRecord.set_face_normal_length]
      apply vec3.unit_vector_length_squared
      · rw [hrad]; exact ne_of_gt (mul_pos hr hr)
      · rw [hrad]; exact hsr
  · intro tr r ray_t rec hs h
    obtain ⟨heps, _⟩ := (Triangle.intersect_hit_iff m tr r ray_t rec).1 h
    have hN : vec3.length_squared (Triangle.normal tr) ≠ 0 := by
      intro h0
      have hz : Triangle.normal tr = ⟨0, 0, 0⟩ := by
        by_contra hne
        have := vec3.dot_self_pos _ hne
        simp only [vec3.dot, vec3.length_squared] at this h0
        linarith
      rw [hz] at heps
      simp only [vec3.dot, zero_mul, add_zero, abs_zero] at heps
      exact absurd Triangle.epsilon_pos (not_lt.2 heps)
    rw [(Triangle.intersect_hit_rec m tr r ray_t rec h).2.2.1, vec3.length_squared_neg]
    exact vec3.unit_vector_length_squared m.sqrt _ hN hs

/-- The three parts of C6 at concrete inputs: the unit sphere hit along the z
axis, the cylinder hit on its top cap, and the triangle hit from below. -/
theorem intersect_normal_unit_witness :
    vec3.length_squared (Sphere.intersect qmath unitSphere zRay ⟨1 / 1000, ⊤⟩ rec0).2.normal = 1 ∧
    vec3.length_squared
      (Cylinder.intersect qmath 0 unitCylinder slantRay ⟨1 / 1000, ⊤⟩ rec0).2.normal = 1 ∧
    vec3.length_squared
      (Triangle.intersect qmath flatTriangle upRay ⟨1 / 1000, ⊤⟩ rec0).2.normal = 1 := by
  have one_exact : ExactSqrt qmath.sqrt (1 : ℚ) := by
    have := qsqrt_exact 1 (by norm_num)
    rwa [mul_one] at this
  refine ⟨?_, ?_, ?_⟩
  · refine (intersect_normal_unit qmath).1 unitSphere zRay ⟨1 / 1000, ⊤⟩ rec0 (by norm_num [unitSphere, Sphere.new])
      (by simp [zRay]) (fun _ => ?_) Sphere.intersect_zRay_hit
    have : Sphere.discriminant unitSphere zRay = 1 := by
      norm_num [Sphere.discriminant, unitSphere, Sphere.new, zRay, vec3.dot]
    rw [this]
    exact one_exact
  · refine (intersect_normal_unit qmath).2.1 0 unitCylinder slantRay ⟨1 / 1000, ⊤⟩ rec0
      (by norm_num [unitCylinder, Cylinder.new, vec3.length_squared]) (by norm_num [unitCylinder, Cylinder.new])
      (fun _ => ?_) ?_ ?_ Cylinder.intersect_slantRay_hit.1
    · have : Cylinder.discriminant unitCylinder slantRay = 2 * 2 := by
        norm_num [Cylinder.discriminant, unitCylinder, Cylinder.new, slantRay, vec3.dot, vec3.length_squared]
      rw [this]
      exact qsqrt_exact 2 (by norm_num)
    · have : vec3.length_squared unitCylinder.axis = 1 := by
        norm_num [unitCylinder, Cylinder.new, vec3.length_squared]
      rw [this]
      exact one_exact
    · have : unitCylinder.radius * unitCylinder.radius = 1 := by norm_num [unitCylinder, Cylinder.new]
      rw [this]
      exact one_exact
  · refine (intersect_normal_unit qmath).2.2 flatTriangle upRay ⟨1 / 1000, ⊤⟩ rec0 ?_
      Triangle.intersect_upRay_hit
    have : vec3.length_squared (Triangle.normal flatTriangle) = 1 := by
      norm_num [Triangle.normal, flatTriangle, vec3.cross, vec3.length_squared]
    rw [this]
    exact one_exact

/-- C7, at a failing input.  For the triangle `(0,0,0)`, `(1,0,0)`, `(0,1,0)`
and the ray from `(1/4, 1/4, 1)` in direction `(0, 0, -1)`,
`Triangle::intersect` reports a hit whose recorded normal is `(0, 0, -1)`:
it points along the ray, `dot(direction, rec.normal) = 1 > 0`.  The hit does
not set `rec.front_face`: the field keeps whatever the record passed in held. -/
theorem Triangle.intersect_normal_along_ray :
    (Triangle.intersect qmath flatTriangle downRay ⟨1 / 1000, ⊤⟩ rec0).1 = true ∧
    vec3.dot downRay.direction
      (Triangle.intersect qmath flatTriangle downRay ⟨1 / 1000, ⊤⟩ rec0).2.normal = 1 ∧
    (Triangle.intersect qmath flatTriangle downRay ⟨1 / 1000, ⊤⟩ rec0).2.front_face = false ∧
    (Triangle.intersect qmath flatTriangle downRay ⟨1 / 1000, ⊤⟩
      { rec0 with front_face := true }).2.front_face = true := by
  have h := Triangle.intersect_downRay_hit
  have h1 : (Triangle.intersect qmath flatTriangle downRay ⟨1 / 1000, ⊤⟩
      { rec0 with front_face := true }).1 = true := by
    rw [Triangle.intersect_hit_iff]
    exact (Triangle.intersect_hit_iff _ _ _ _ rec0).1 h
  have hq : qsqrt 1 = 1 := by
    have := qsqrt_mul_self 1 (by norm_num)
    rwa [mul_one] at this
  refine ⟨h, ?_, ?_, ?_⟩
  · rw [(Triangle.intersect_hit_rec _ _ _ _ _ h).2.2.1]
    norm_num [Triangle.normal, flatTriangle, downRay, qmath, vec3.unit_vector, vec3.length,
      vec3.length_squared, vec3.sdiv, vec3.cross, vec3.dot, hq]
  · rw [(Triangle.intersect_hit_rec _ _ _ _ _ h).2.2.2]
    rfl
  · rw [(Triangle.intersect_hit_rec _ _ _ _ _ h1).2.2.2]

/-- C8, at a failing input.  For the scene of the cylinder of radius 1 and
height 1 around the y axis and the unit sphere at `(0, -5, 0)`, and the ray
from `(0, 3/2, 0)` in direction `(1, 1, 0)`, brute-force testing with
`HittableList::intersect` over `(0.001, INFTY)` reports a hit (the cylinder's,
at `rec.t = -1`), and the hierarchy built over the same two primitives reports
no hit: the ray misses the box of the root for every parameter of the
interval. -/
theorem bvh_node.intersect_differs_from_list :
    (HittableList.intersect cylinderScene rec0 awayRay ⟨1 / 1000, ⊤⟩ rec0).1 = true ∧
    (HittableList.intersect cylinderScene rec0 awayRay ⟨1 / 1000, ⊤⟩ rec0).2.t = -1 ∧
    (HittableList.intersect cylinderWorld rec0 awayRay ⟨1 / 1000, ⊤⟩ rec0).1 = false := by
  rw [HittableList.intersect_cylinderScene, HittableList.intersect_cylinderWorld]
  exact ⟨rfl, Cylinder.intersect_awayRay_hit.2, rfl⟩

/-- C9.  Called with `depth <= 0`, `Camera::pathtrace` returns the colour
`(0, 0, 0)` for every ray, world, light list and material behaviour, without
touching the random generator. -/
theorem Camera.pathtrace_depth_nonpos {σ : Type} (sh : Shading K σ) (cam : Camera K) (rec : HitRecord K)
    (r : Ray K) (depth : Int) (world : Hittable K) (lights : List (Light K σ)) (g : σ)
    (h : depth ≤ 0) :
    Camera.pathtrace sh cam rec r depth world lights g = some (⟨0, 0, 0⟩, g) := by
  rw [Camera.pathtrace, dif_pos h]

/-- C9 at `nbounces = 0`, for a ray that hits the unit sphere. -/
theorem Camera.pathtrace_depth_nonpos_witness :
    (0 : Int) ≤ 0 ∧
    ((Sphere.toHittable qmath unitSphere).intersect zRay Camera.ray_interval rec0).1 = true ∧
    Camera.pathtrace baseShading whiteCamera rec0 zRay 0 (Sphere.toHittable qmath unitSphere)
      [] () = some (⟨0, 0, 0⟩, ()) :=
  ⟨le_refl 0, Camera.unitSphere_zRay_hit,
    Camera.pathtrace_depth_nonpos baseShading whiteCamera rec0 zRay 0
      (Sphere.toHittable qmath unitSphere) [] () (le_refl 0)⟩

/-- C10 as stated fails.  With a white background and a ray that misses the
only object of the world, the binary integrator returns black, and so does
the path tracer with a bounce count of 0: neither is the background colour. -/
theorem Camera.miss_not_background :
    ((Sphere.toHittable qmath unitSphere).intersect missRay Camera.ray_interval rec0).1 = false ∧
    Camera.binary whiteCamera rec0 missRay (Sphere.toHittable qmath unitSphere)
      ≠ whiteCamera.background ∧
    Camera.pathtrace baseShading whiteCamera rec0 missRay 0 (Sphere.toHittable qmath unitSphere)
      [] () ≠ some (whiteCamera.background, ()) := by
  refine ⟨?_, ?_, ?_⟩
  · simp [Sphere.toHittable, Sphere.intersect_unitSphere_missRay]
  · simp [Camera.binary, Sphere.toHittable, Sphere.intersect_unitSphere_missRay, whiteCamera]
  · rw [Camera.pathtrace, dif_pos (le_refl 0)]
    simp [whiteCamera]

/-- C10, amended.  For a ray that intersects no geometry in `(0.001, INFTY)`:
the phong integrator returns the configured background colour for every
bounce count; the path tracer returns the background colour for every bounce
count of at least 1; the binary integrator returns black. -/
theorem Camera.miss_returns_background {σ : Type} (sh : Shading K σ) (cam : Camera K) (rec : HitRecord K)
    (r : Ray K) (world : Hittable K) (lights : List (Light K σ)) (g : σ)
    (hmiss : (world.intersect r Camera.ray_interval rec).1 = false) :
    (∀ depth : Int, Camera.blinn_phong sh cam rec r world lights depth g
      = some (cam.background, g)) ∧
    (∀ depth : Int, 0 < depth →
      Camera.pathtrace sh cam rec r depth world lights g = some (cam.background, g)) ∧
    Camera.binary cam rec r world = ⟨0, 0, 0⟩ := by
  refine ⟨fun depth => ?_, fun depth hd => ?_, ?_⟩
  · simp [Camera.blinn_phong, hmiss]
  · rw [Camera.pathtrace, dif_neg (not_le.2 hd)]
    simp [hmiss]
  · simp [Camera.binary, hmiss]

/-- The hypothesis of the amended C10 holds for the unit sphere and a ray that
passes above it, with a white background. -/
theorem Camera.miss_returns_background_witness :
    ((Sphere.toHittable qmath unitSphere).intersect missRay Camera.ray_interval rec0).1 = false ∧
    Camera.blinn_phong baseShading whiteCamera rec0 missRay (Sphere.toHittable qmath unitSphere)
      [] 3 () = some (⟨1, 1, 1⟩, ()) ∧
    Camera.pathtrace baseShading whiteCamera rec0 missRay 3 (Sphere.toHittable qmath unitSphere)
      [] () = some (⟨1, 1, 1⟩, ()) := by
  have hmiss : ((Sphere.toHittable qmath unitSphere).intersect missRay
      Camera.ray_interval rec0).1 = false := by
    simp [Sphere.toHittable, Sphere.intersect_unitSphere_missRay]
  have h := Camera.miss_returns_background baseShading whiteCamera rec0 missRay
    (Sphere.toHittable qmath unitSphere) [] () hmiss
  exact ⟨hmiss, h.1 3, h.2.1 3 (by norm_num)⟩

/-- C12.  Each of the three integers `write_color` emits lies in `[0, 255]`,
however large the accumulated colour is: it is the floor of
`256 * clamp(g, 0, 0.9999)`, where `g = pow(c, 1/2)` is the gamma transform
(the square root) of the Reinhard tone-mapped value `c` of the accumulated
channel divided by `samples_per_pixel`. -/
theorem write_color_range [FloorRing K] (m : CMath K) (pixel_color : vec3 K)
    (samples_per_pixel : Int) (exposure : K) :
    ((write_color m pixel_color samples_per_pixel exposure).1 =
        ⌊256 * (⟨0.000, ((0.9999 : K) : WithTop K)⟩ : interval K).clamp
          (m.pow (reinhardToneMapping
            (vec3.smul (1.0 / (samples_per_pixel : K)) pixel_color) exposure).x (1.0 / 2.0))⌋ ∧
      0 ≤ (write_color m pixel_color samples_per_pixel exposure).1 ∧
      (write_color m pixel_color samples_per_pixel exposure).1 ≤ 255) ∧
    ((write_color m pixel_color samples_per_pixel exposure).2.1 =
        ⌊256 * (⟨0.000, ((0.9999 : K) : WithTop K)⟩ : interval K).clamp
          (m.pow (reinhardToneMapping
            (vec3.smul (1.0 / (samples_per_pixel : K)) pixel_color) exposure).y (1.0 / 2.0))⌋ ∧
      0 ≤ (write_color m pixel_color samples_per_pixel exposure).2.1 ∧
      (write_color m pixel_color samples_per_pixel exposure).2.1 ≤ 255) ∧
    ((write_color m pixel_color samples_per_pixel exposure).2.2 =
        ⌊256 * (⟨0.000, ((0.9999 : K) : WithTop K)⟩ : interval K).clamp
          (m.pow (reinhardToneMapping
            (vec3.smul (1.0 / (samples_per_pixel : K)) pixel_color) exposure).z (1.0 / 2.0))⌋ ∧
      0 ≤ (write_color m pixel_color samples_per_pixel exposure).2.2 ∧
      (write_color m pixel_color samples_per_pixel exposure).2.2 ≤ 255) := by
  unfold write_color linear_to_gamma
  exact ⟨static_cast_int_channel _ (interval.clamp_intensity _).1 (interval.clamp_intensity _).2,
    static_cast_int_channel _ (interval.clamp_intensity _).1 (interval.clamp_intensity _).2,
    static_cast_int_channel _ (interval.clamp_intensity _).1 (interval.clamp_intensity _).2⟩

/-- C13.  For a colour with non-negative components and an exposure `>= 0`,
raising one input channel while the other two stay fixed never lowers the
value `reinhardToneMapping` gives that channel. -/
theorem reinhardToneMapping_monotone (c : vec3 K) (e t : K) (hx : 0 ≤ c.x) (hy : 0 ≤ c.y)
    (hz : 0 ≤ c.z) (he : 0 ≤ e) :
    (c.x ≤ t → (reinhardToneMapping c e).x ≤ (reinhardToneMapping ⟨t, c.y, c.z⟩ e).x) ∧
    (c.y ≤ t → (reinhardToneMapping c e).y ≤ (reinhardToneMapping ⟨c.x, t, c.z⟩ e).y) ∧
    (c.z ≤ t → (reinhardToneMapping c e).z ≤ (reinhardToneMapping ⟨c.x, c.y, t⟩ e).z) := by
  have hL := reinhard_luminance_nonneg c e hx hy hz he
  have hxe := mul_nonneg hx he
  have hye := mul_nonneg hy he
  have hze := mul_nonneg hz he
  simp only [reinhardToneMapping]
  norm_num at hL ⊢
  refine ⟨fun h => ?_, fun h => ?_, fun h => ?_⟩
  · have hte : c.x * e ≤ t * e := mul_le_mul_of_nonneg_right h he
    rw [div_le_div_iff (by linarith) (by linarith)]
    nlinarith
  · have hte : c.y * e ≤ t * e := mul_le_mul_of_nonneg_right h he
    rw [div_le_div_iff (by linarith) (by linarith)]
    nlinarith
  · have hte : c.z * e ≤ t * e := mul_le_mul_of_nonneg_right h he
    rw [div_le_div_iff (by linarith) (by linarith)]
    nlinarith

/-- C13 at the colour `(1, 1, 1)` with exposure 1, raising a channel to 2. -/
theorem reinhardToneMapping_monotone_witness :
    (reinhardToneMapping (⟨1, 1, 1⟩ : vec3 ℚ) 1).x ≤ (reinhardToneMapping ⟨2, 1, 1⟩ 1).x ∧
    (reinhardToneMapping (⟨1, 1, 1⟩ : vec3 ℚ) 1).y ≤ (reinhardToneMapping ⟨1, 2, 1⟩ 1).y ∧
    (reinhardToneMapping (⟨1, 1, 1⟩ : vec3 ℚ) 1).z ≤ (reinhardToneMapping ⟨1, 1, 2⟩ 1).z := by
  have h := reinhardToneMapping_monotone (⟨1, 1, 1⟩ : vec3 ℚ) 1 2 (by norm_num) (by norm_num)
    (by norm_num) (by norm_num)
  exact ⟨h.1 (by norm_num), h.2.1 (by norm_num), h.2.2 (by norm_num)⟩

/-- C14 as stated fails.  For the colour `(10, 0, 0)` and exposure 1 the red
channel of the tone-mapped colour is `10 / 3.126`, which is greater than 1. -/
theorem reinhardToneMapping_exceeds_one :
    (0 : ℚ) ≤ 10 ∧ (0 : ℚ) ≤ 1 ∧ 1 < (reinhardToneMapping (⟨10, 0, 0⟩ : vec3 ℚ) 1).x := by
  norm_num [reinhardToneMapping]

/-- C14, amended.  For a colour with non-negative components and an exposure
`>= 0`, every channel of the tone-mapped colour is non-negative and the
luminance of the tone-mapped colour, `0.2126 r + 0.7152 g + 0.0722 b`, is
below 1; so the red channel is below `1 / 0.2126`, the green channel below
`1 / 0.7152` and the blue channel below `1 / 0.0722`. -/
theorem reinhardToneMapping_bounded (c : vec3 K) (e : K) (hx : 0 ≤ c.x) (hy : 0 ≤ c.y)
    (hz : 0 ≤ c.z) (he : 0 ≤ e) :
    0 ≤ (reinhardToneMapping c e).x ∧ 0 ≤ (reinhardToneMapping c e).y ∧
    0 ≤ (reinhardToneMapping c e).z ∧
    0.2126 * (reinhardToneMapping c e).x + 0.7152 * (reinhardToneMapping c e).y
      + 0.0722 * (reinhardToneMapping c e).z < 1 ∧
    (reinhardToneMapping c e).x < 1 / 0.2126 ∧ (reinhardToneMapping c e).y < 1 / 0.7152 ∧
    (reinhardToneMapping c e).z < 1 / 0.0722 := by
  have hL := reinhard_luminance_nonneg c e hx hy hz he
  have hxe := mul_nonneg hx he
  have hye := mul_nonneg hy he
  have hze := mul_nonneg hz he
  simp only [reinhardToneMapping]
  norm_num at hL ⊢
  have hpos : (0 : K) < 1 + (1063 / 5000 * (c.x * e) + 447 / 625 * (c.y * e)
      + 361 / 5000 * (c.z * e)) := by linarith
  refine ⟨div_nonneg hxe (le_of_lt hpos), div_nonneg hye (le_of_lt hpos),
    div_nonneg hze (le_of_lt hpos), ?_, ?_, ?_, ?_⟩
  · rw [← mul_div_assoc, ← mul_div_assoc, ← mul_div_assoc, ← add_div, ← add_div,
      div_lt_one hpos]
    linarith
  · rw [div_lt_div_iff hpos (by norm_num)]
    linarith
  · rw [div_lt_div_iff hpos (by norm_num)]
    linarith
  · rw [div_lt_div_iff hpos (by norm_num)]
    linarith

/-- The amended C14 at the colour `(10, 0, 0)` with exposure 1. -/
theorem reinhardToneMapping_bounded_witness :
    0 ≤ (reinhardToneMapping (⟨10, 0, 0⟩ : vec3 ℚ) 1).x ∧
    (reinhardToneMapping (⟨10, 0, 0⟩ : vec3 ℚ) 1).x < 1 / 0.2126 := by
  have h := reinhardToneMapping_bounded (⟨10, 0, 0⟩ : vec3 ℚ) 1 (by norm_num) (by norm_num)
    (by norm_num) (by norm_num)
  exact ⟨h.1, h.2.2.2.2.1⟩

/-- C15.  For `index >= 0` and `base >= 2` the loop of `halton` finishes
within `index + 1` tests of its condition, the value returned is the same for
every larger bound (it depends on `index` and `base` only), and it lies in
`[0, 1)`. -/
theorem halton_range [FloorRing K] (index base : Int) (hi : 0 ≤ index) (hb : 2 ≤ base) :
    ∃ v : K, (∀ fuel : Nat, index.toNat < fuel → halton fuel index base = some v) ∧
      0 ≤ v ∧ v < 1 := by
  have hbK : (2 : K) ≤ (base : K) := by exact_mod_cast hb
  obtain ⟨v, _, hv0, hv1, hall⟩ := halton_loop_spec (K := K) base hb (index.toNat + 1) 0
    (1.0 / (base : K)) index hi (by omega) (le_refl 0)
    (by norm_num; linarith)
    (by norm_num; rw [inv_mul_cancel₀ (by linarith : (base : K) ≠ 0)])
  exact ⟨v, fun fuel hf => hall fuel hf, hv0, hv1⟩

/-- C15 at `index = 5`, `base = 2`. -/
theorem halton_range_witness :
    (0 : Int) ≤ 5 ∧ (2 : Int) ≤ 2 ∧
    ∃ v : ℚ, (∀ fuel : Nat, (5 : Int).toNat < fuel → halton fuel 5 2 = some v) ∧
      0 ≤ v ∧ v < 1 :=
  ⟨by norm_num, le_refl 2, halton_range 5 2 (by norm_num) (le_refl 2)⟩

/-- C19.  For a loaded texture with `width >= 1` and `height >= 1` and every
pair `(u, v)`, `Texture::getTextureColor` reads a pixel that exists in the
grid, in column `floor(clamp(u, 0, 1) * (width - 1))` of row
`floor((1 - clamp(v, 0, 1)) * (height - 1))`, and returns its three channels
divided by 255, each in `[0, 1]`; `v = 1` selects row 0, the top row, and
`v = 0` row `height - 1`, the bottom row. -/
theorem Texture.getTextureColor_in_grid [FloorRing K] (t : Texture) (width height : Nat) (u v : K)
    (hl : t.Loaded width height) (hw : 1 ≤ width) (hh : 1 ≤ height) :
    (∃ row pixel,
      (⌊(1 - (⟨0, ((1 : K) : WithTop K)⟩ : interval K).clamp v)
          * ((height - 1 : Nat) : K)⌋.toNat < height ∧
        t.texture[⌊(1 - (⟨0, ((1 : K) : WithTop K)⟩ : interval K).clamp v)
          * ((height - 1 : Nat) : K)⌋.toNat]? = some row) ∧
      (⌊(⟨0, ((1 : K) : WithTop K)⟩ : interval K).clamp u
          * ((width - 1 : Nat) : K)⌋.toNat < width ∧
        row[⌊(⟨0, ((1 : K) : WithTop K)⟩ : interval K).clamp u
          * ((width - 1 : Nat) : K)⌋.toNat]? = some pixel) ∧
      t.getTextureColor u v
        = some ⟨(pixel.r : K) / 255, (pixel.g : K) / 255, (pixel.b : K) / 255⟩ ∧
      (0 ≤ (pixel.r : K) / 255 ∧ (pixel.r : K) / 255 ≤ 1) ∧
      (0 ≤ (pixel.g : K) / 255 ∧ (pixel.g : K) / 255 ≤ 1) ∧
      (0 ≤ (pixel.b : K) / 255 ∧ (pixel.b : K) / 255 ≤ 1)) ∧
    ⌊(1 - (⟨0, ((1 : K) : WithTop K)⟩ : interval K).clamp 1) * ((height - 1 : Nat) : K)⌋ = 0 ∧
    ⌊(1 - (⟨0, ((1 : K) : WithTop K)⟩ : interval K).clamp 0) * ((height - 1 : Nat) : K)⌋
      = ((height - 1 : Nat) : Int) := by
  have hcu := interval.clamp_unit u
  have hcv := interval.clamp_unit v
  have hv0 : 0 ≤ 1 - (⟨0, ((1 : K) : WithTop K)⟩ : interval K).clamp v := by linarith [hcv.2]
  have hv1 : 1 - (⟨0, ((1 : K) : WithTop K)⟩ : interval K).clamp v ≤ 1 := by linarith [hcv.1]
  obtain ⟨hxe, hx0, hxlt⟩ := static_cast_int_index _ width hcu.1 hcu.2 hw
  obtain ⟨hye, hy0, hylt⟩ := static_cast_int_index _ height hv0 hv1 hh
  have hlen0 : 0 < t.texture.length := by rw [hl.rows]; omega
  have hrow0 : t.texture[0]? = some t.texture[0] := List.getElem?_eq_getElem hlen0
  have hrow0len : (t.texture[0]).length = width :=
    hl.columns _ (List.getElem_mem _)
  have hylt2 : (static_cast_int ((1 - (⟨0, ((1 : K) : WithTop K)⟩ : interval K).clamp v)
      * ((height - 1 : Nat) : K))).toNat < t.texture.length := by rw [hl.rows]; exact hylt
  have hrowlen : (t.texture[(static_cast_int
      ((1 - (⟨0, ((1 : K) : WithTop K)⟩ : interval K).clamp v)
        * ((height - 1 : Nat) : K))).toNat]).length = width :=
    hl.columns _ (List.getElem_mem _)
  have hxlt2 : (static_cast_int ((⟨0, ((1 : K) : WithTop K)⟩ : interval K).clamp u
      * ((width - 1 : Nat) : K))).toNat < (t.texture[(static_cast_int
      ((1 - (⟨0, ((1 : K) : WithTop K)⟩ : interval K).clamp v)
        * ((height - 1 : Nat) : K))).toNat]).length := by rw [hrowlen]; exact hxlt
  have hbytes := hl.bytes _ (List.getElem_mem hylt2) _ (List.getElem_mem hxlt2)
  have hchan : ∀ z : Int, 0 ≤ z → z ≤ 255 → 0 ≤ (z : K) / 255 ∧ (z : K) / 255 ≤ 1 := by
    intro z h0 h255
    have h0K : (0 : K) ≤ (z : K) := by exact_mod_cast h0
    have h255K : (z : K) ≤ 255 := by exact_mod_cast h255
    exact ⟨div_nonneg h0K (by norm_num), by rw [div_le_one (by norm_num)]; exact h255K⟩
  refine ⟨⟨t.texture[(static_cast_int
      ((1 - (⟨0, ((1 : K) : WithTop K)⟩ : interval K).clamp v)
        * ((height - 1 : Nat) : K))).toNat],
    (t.texture[(static_cast_int
      ((1 - (⟨0, ((1 : K) : WithTop K)⟩ : interval K).clamp v)
        * ((height - 1 : Nat) : K))).toNat])[(static_cast_int
      ((⟨0, ((1 : K) : WithTop K)⟩ : interval K).clamp u * ((width - 1 : Nat) : K))).toNat],
    ⟨?_, ?_⟩, ⟨?_, ?_⟩, ?_, hchan _ hbytes.1.1 hbytes.1.2,
    hchan _ hbytes.2.1.1 hbytes.2.1.2, hchan _ hbytes.2.2.1 hbytes.2.2.2⟩, ?_, ?_⟩
  · rw [← hye]; exact hylt
  · rw [← hye]; exact List.getElem?_eq_getElem hylt2
  · rw [← hxe]; exact hxlt
  · rw [← hxe]; exact List.getElem?_eq_getElem hxlt2
  · have h10 : (1.0 : K) = 1 := by norm_num
    unfold Texture.getTextureColor
    simp only [hrow0, hrow0len, hl.rows, size_t_pred_pos width hw hl.size.1,
      size_t_pred_pos height hh hl.size.2, h10]
    rw [if_neg (by push_neg; exact ⟨hx0, hy0⟩)]
    simp only [List.getElem?_eq_getElem hylt2, List.getElem?_eq_getElem hxlt2]
    norm_num [div_eq_mul_inv]
  · have : (⟨0, ((1 : K) : WithTop K)⟩ : interval K).clamp 1 = 1 := by
      unfold interval.clamp; norm_num
    rw [this]; simp
  · have : (⟨0, ((1 : K) : WithTop K)⟩ : interval K).clamp 0 = 0 := by
      unfold interval.clamp; norm_num
    rw [this]; simp

/-- C19 on the two-by-two texture at `(u, v) = (3, -1)`, outside the unit
square: the lookup returns an existing pixel with channels in `[0, 1]`. -/
theorem Texture.getTextureColor_in_grid_witness :
    checker.Loaded 2 2 ∧ 1 ≤ 2 ∧
    ∃ row pixel, checker.texture[1]? = some row ∧ row[1]? = some pixel ∧
      checker.getTextureColor (3 : ℚ) (-1)
        = some ⟨(pixel.r : ℚ) / 255, (pixel.g : ℚ) / 255, (pixel.b : ℚ) / 255⟩ ∧
      (0 ≤ (pixel.r : ℚ) / 255 ∧ (pixel.r : ℚ) / 255 ≤ 1) := by
  obtain ⟨⟨row, pixel, ⟨_, hrow⟩, ⟨_, hpix⟩, hget, hr, _, _⟩, _, _⟩ :=
    Texture.getTextureColor_in_grid (K := ℚ) checker 2 2 3 (-1) checker_loaded
      (by norm_num) (by norm_num)
  have hc3 : (⟨0, ((1 : ℚ) : WithTop ℚ)⟩ : interval ℚ).clamp 3 = 1 := by
    unfold interval.clamp; norm_num
  have hcm : (⟨0, ((1 : ℚ) : WithTop ℚ)⟩ : interval ℚ).clamp (-1) = 0 := by
    unfold interval.clamp; norm_num
  rw [hcm] at hrow
  rw [hc3] at hpix
  norm_num at hrow hpix
  exact ⟨checker_loaded, by norm_num, row, pixel, hrow, hpix, hget, hr⟩

/-- C16.  `PointLight::sampleLight` returns `(0, 0, 0)` whenever the world
reports a hit of the shadow ray, from the hit point in the unit direction `L`
to the light, inside `(0.001, INFTY)`, whatever the distance of that hit; and
otherwise it returns `max(0, N.L) * intensity * 2 / d^2`, with `N` the normal
of the hit record and `d` the computed distance from the hit point to the
light. -/
theorem PointLight.sampleLight_spec (m : CMath K) (shadowRec : HitRecord K)
    (light : PointLight K) (rec : HitRecord K) (world : Hittable K) :
    ((world.intersect ⟨rec.p, vec3.unit_vector m.sqrt (light.position - rec.p)⟩
        Camera.ray_interval shadowRec).1 = true →
      light.sampleLight m shadowRec rec world = ⟨0, 0, 0⟩) ∧
    ((world.intersect ⟨rec.p, vec3.unit_vector m.sqrt (light.position - rec.p)⟩
        Camera.ray_interval shadowRec).1 = false →
      light.sampleLight m shadowRec rec world =
        ⟨max 0 (vec3.dot rec.normal (vec3.unit_vector m.sqrt (light.position - rec.p)))
            * light.intensity.x * 2
            / (vec3.length m.sqrt (light.position - rec.p)
              * vec3.length m.sqrt (light.position - rec.p)),
          max 0 (vec3.dot rec.normal (vec3.unit_vector m.sqrt (light.position - rec.p)))
            * light.intensity.y * 2
            / (vec3.length m.sqrt (light.position - rec.p)
              * vec3.length m.sqrt (light.position - rec.p)),
          max 0 (vec3.dot rec.normal (vec3.unit_vector m.sqrt (light.position - rec.p)))
            * light.intensity.z * 2
            / (vec3.length m.sqrt (light.position - rec.p)
              * vec3.length m.sqrt (light.position - rec.p))⟩) := by
  constructor
  · intro h
    unfold PointLight.sampleLight
    simp only [h, if_true]
  · intro h
    unfold PointLight.sampleLight
    simp only [h, Bool.false_eq_true, if_false]
    apply vec3.ext3 <;> simp only [vec3.sdiv, vec3.smul] <;> norm_num <;> ring

/-- C16 on a scene where the occluder is farther than the light: the light is
at distance 2 from the hit point, the shadow ray meets the unit sphere at
parameter 4, beyond the light, and the sample is `(0, 0, 0)`. -/
theorem PointLight.sampleLight_spec_witness :
    vec3.length qmath.sqrt (nearLight.position - shadePoint.p) = 2 ∧
    ((Sphere.toHittable qmath unitSphere).intersect
      ⟨shadePoint.p, vec3.unit_vector qmath.sqrt (nearLight.position - shadePoint.p)⟩
      Camera.ray_interval rec0).2.t = 4 ∧
    nearLight.sampleLight qmath rec0 shadePoint (Sphere.toHittable qmath unitSphere)
      = ⟨0, 0, 0⟩ := by
  have hray : (⟨shadePoint.p, vec3.unit_vector qmath.sqrt (nearLight.position - shadePoint.p)⟩
      : Ray ℚ) = zRay := by
    rw [nearLight_direction.1]; rfl
  refine ⟨nearLight_direction.2, ?_, ?_⟩
  · rw [hray, Camera.ray_interval_rat]
    have hD : Sphere.discriminant unitSphere zRay = 1 := by
      norm_num [Sphere.discriminant, unitSphere, Sphere.new, zRay, vec3.dot]
    have hq : qsqrt 1 = 1 := by
      have := qsqrt_mul_self 1 (by norm_num)
      norm_num at this
      exact this
    show (Sphere.intersect qmath unitSphere zRay ⟨1 / 1000, ⊤⟩ rec0).2.t = 4
    rw [Sphere.intersect_eq, hD]
    have hs : (⟨1 / 1000, ⊤⟩ : interval ℚ).surrounds
        ((-vec3.dot (zRay.origin - unitSphere.center) zRay.direction - qmath.sqrt 1)
          / vec3.dot zRay.direction zRay.direction) = true := by
      rw [interval.surrounds_iff]
      refine ⟨?_, WithTop.coe_lt_top _⟩
      show (1 / 1000 : ℚ) < _
      simp only [qmath, hq]
      norm_num [unitSphere, Sphere.new, zRay, vec3.dot]
    rw [if_neg (by norm_num), if_pos hs, Sphere.hit_info_t]
    simp only [qmath, hq]
    norm_num [unitSphere, Sphere.new, zRay, vec3.dot]
  · refine (PointLight.sampleLight_spec qmath rec0 nearLight shadePoint
      (Sphere.toHittable qmath unitSphere)).1 ?_
    rw [hray]
    exact Camera.unitSphere_zRay_hit

/-- C17.  The area light with corner `(0, 0, -3)` sampled once with the draws
`u = v = 0`, seen from the hit point `(0, 0, -5)` with normal `(0, 0, 1)` in
a scene where nothing occludes it: the sample point is at distance `d = 2`
with `cos(theta) = 1`, and `AreaLight::sampleLight` returns `50/39` in each
channel, which is `2 / (1 + 0.1 * d^2 + 0.01 * d^4)`, and not
`2 * a(d) = 2 / (1 + 0.1 * d + 0.01 * d^2) = 50/31`. -/
theorem AreaLight.sampleLight_squared_distance :
    AreaLight.sampleLight qmath listRandom rec0 squareLight shadePoint
        (Sphere.toHittable qmath lowSphere) [0, 0]
      = (⟨50 / 39, 50 / 39, 50 / 39⟩, []) ∧
    vec3.length qmath.sqrt (squareLight.corner + vec3.smul 0 squareLight.edge1
      + vec3.smul 0 squareLight.edge2 - shadePoint.p) = 2 ∧
    vec3.dot shadePoint.normal (vec3.unit_vector qmath.sqrt (squareLight.corner
      + vec3.smul 0 squareLight.edge1 + vec3.smul 0 squareLight.edge2 - shadePoint.p)) = 1 ∧
    (2 * (1 / (1 + 0.1 * 2 + 0.01 * 2 ^ 2)) * 1 * squareLight.intensity.x : ℚ) = 50 / 31 ∧
    (2 * (1 / (1 + 0.1 * 2 ^ 2 + 0.01 * 2 ^ 4)) * 1 * squareLight.intensity.x : ℚ) = 50 / 39 := by
  have hp : squareLight.corner + vec3.smul 0 squareLight.edge1
      + vec3.smul 0 squareLight.edge2 - shadePoint.p = nearLight.position - shadePoint.p := by
    apply vec3.ext3 <;>
      norm_num [squareLight, AreaLight.new, vec3.smul, nearLight, shadePoint]
  refine ⟨?_, ?_, ?_, ?_, ?_⟩
  · unfold AreaLight.sampleLight
    have hn : squareLight.numSamples.toNat = 1 := rfl
    rw [hn]
    simp only [Function.iterate_succ, Function.iterate_zero, Function.comp, id]
    unfold AreaLight.sample_step
    simp only [listRandom, List.headD_cons, List.tail_cons]
    rw [hp, nearLight_direction.1, nearLight_direction.2]
    have hray : (⟨shadePoint.p, ⟨0, 0, 1⟩⟩ : Ray ℚ) = zRay := rfl
    rw [hray]
    have hmiss : ((Sphere.toHittable qmath lowSphere).intersect zRay Camera.ray_interval
        rec0) = (false, rec0) := Sphere.intersect_lowSphere_zRay _ _
    rw [hmiss]
    simp only [Bool.not_false, if_true]
    refine Prod.ext ?_ rfl
    apply vec3.ext3 <;>
      norm_num [squareLight, AreaLight.new, vec3.sdiv, vec3.smul, vec3.dot, shadePoint]
  · rw [hp]; exact nearLight_direction.2
  · rw [hp, nearLight_direction.1]
    norm_num [vec3.dot, shadePoint]
  · norm_num [squareLight, AreaLight.new]
  · norm_num [squareLight, AreaLight.new]

/-- C18.  After `Camera::initialize`, for `lookfrom ≠ lookat` and `vup` not
parallel to `lookfrom - lookat` (their cross product is not zero), and with
exact square roots of the two squared lengths the code normalises by, the
vectors `u`, `v`, `w` each have squared length 1 and are pairwise
perpendicular; `w` is `lookfrom - lookat` divided by its positive length `d`,
`u` is perpendicular to `vup`, and `v = cross(w, u)`. -/
theorem Camera.basis_orthonormal [FloorRing K] (m : CMath K) (cam : Camera K)
    (hne : cam.lookfrom ≠ cam.lookat)
    (hup : vec3.cross cam.vup (cam.lookfrom - cam.lookat) ≠ ⟨0, 0, 0⟩)
    (hs1 : ExactSqrt m.sqrt (vec3.length_squared (cam.lookfrom - cam.lookat)))
    (hs2 : ExactSqrt m.sqrt (vec3.length_squared (vec3.cross cam.vup
      (vec3.unit_vector m.sqrt (cam.lookfrom - cam.lookat))))) :
    (vec3.length_squared (cam.initialise m).u = 1 ∧
      vec3.length_squared (cam.initialise m).v = 1 ∧
      vec3.length_squared (cam.initialise m).w = 1) ∧
    (vec3.dot (cam.initialise m).u (cam.initialise m).v = 0 ∧
      vec3.dot (cam.initialise m).u (cam.initialise m).w = 0 ∧
      vec3.dot (cam.initialise m).v (cam.initialise m).w = 0) ∧
    (∃ d : K, 0 < d ∧ d * d = vec3.length_squared (cam.lookfrom - cam.lookat) ∧
      (cam.initialise m).w = vec3.sdiv (cam.lookfrom - cam.lookat) d) ∧
    vec3.dot (cam.initialise m).u cam.vup = 0 ∧
    (cam.initialise m).v = vec3.cross (cam.initialise m).w (cam.initialise m).u := by
  obtain ⟨hw, hu, hv⟩ := Camera.initialise_basis m cam
  have hD : vec3.length_squared (cam.lookfrom - cam.lookat) ≠ 0 :=
    ne_of_gt (vec3.dot_self_pos _ (vec3.sub_ne_zero hne))
  have hd0 : m.sqrt (vec3.length_squared (cam.lookfrom - cam.lookat)) ≠ 0 := by
    intro h0
    apply hD
    rw [← hs1.2, h0, mul_zero]
  have hwl := vec3.unit_vector_length_squared m.sqrt _ hD hs1
  have hC : vec3.length_squared (vec3.cross cam.vup
      (vec3.unit_vector m.sqrt (cam.lookfrom - cam.lookat))) ≠ 0 := by
    unfold vec3.unit_vector vec3.length
    rw [vec3.cross_sdiv_right]
    have hpos := vec3.dot_self_pos _ hup
    rw [← vec3.length_squared_eq_dot] at hpos
    have : vec3.length_squared (vec3.smul
        (1 / m.sqrt (vec3.length_squared (cam.lookfrom - cam.lookat)))
        (vec3.cross cam.vup (cam.lookfrom - cam.lookat)))
        = (1 / m.sqrt (vec3.length_squared (cam.lookfrom - cam.lookat)))
          * (1 / m.sqrt (vec3.length_squared (cam.lookfrom - cam.lookat)))
          * vec3.length_squared (vec3.cross cam.vup (cam.lookfrom - cam.lookat)) := by
      simp only [vec3.length_squared, vec3.smul_x, vec3.smul_y, vec3.smul_z]; ring
    rw [this]
    exact mul_ne_zero (mul_ne_zero (one_div_ne_zero hd0) (one_div_ne_zero hd0)) (ne_of_gt hpos)
  obtain ⟨h1, h2, h3, h4, h5, h6⟩ := vec3.basis_of_unit m.sqrt cam.vup _ hwl hC hs2
  rw [hv, hu, hw]
  refine ⟨⟨h1, h2, hwl⟩, ⟨h3, h4, h5⟩,
    ⟨m.sqrt (vec3.length_squared (cam.lookfrom - cam.lookat)),
      lt_of_le_of_ne hs1.1 (Ne.symm hd0), hs1.2, rfl⟩, h6, rfl⟩

/-- C18 on the camera with the default `lookfrom = (0, 0, -1)`,
`lookat = (0, 0, 0)` and `vup = (0, 1, 0)`. -/
theorem Camera.basis_orthonormal_witness :
    whiteCamera.lookfrom ≠ whiteCamera.lookat ∧
    (vec3.length_squared (whiteCamera.initialise qmath).u = 1 ∧
      vec3.length_squared (whiteCamera.initialise qmath).v = 1 ∧
      vec3.length_squared (whiteCamera.initialise qmath).w = 1) ∧
    (vec3.dot (whiteCamera.initialise qmath).u (whiteCamera.initialise qmath).v = 0 ∧
      vec3.dot (whiteCamera.initialise qmath).u (whiteCamera.initialise qmath).w = 0 ∧
      vec3.dot (whiteCamera.initialise qmath).v (whiteCamera.initialise qmath).w = 0) := by
  have hq : qsqrt 1 = 1 := by
    have := qsqrt_mul_self 1 (by norm_num)
    norm_num at this
    exact this
  have hne : whiteCamera.lookfrom ≠ whiteCamera.lookat := by
    simp [whiteCamera]
  have hl : vec3.length_squared (whiteCamera.lookfrom - whiteCamera.lookat) = 1 * 1 := by
    norm_num [vec3.length_squared, whiteCamera]
  have hw : vec3.unit_vector qmath.sqrt (whiteCamera.lookfrom - whiteCamera.lookat)
      = ⟨0, 0, -1⟩ := by
    unfold vec3.unit_vector vec3.length
    rw [hl]
    simp only [qmath, mul_one, hq]
    apply vec3.ext3 <;> norm_num [vec3.sdiv, vec3.smul, whiteCamera]
  have hc : vec3.length_squared (vec3.cross whiteCamera.vup
      (vec3.unit_vector qmath.sqrt (whiteCamera.lookfrom - whiteCamera.lookat))) = 1 * 1 := by
    rw [hw]
    norm_num [vec3.length_squared, vec3.cross, whiteCamera]
  have h := Camera.basis_orthonormal qmath whiteCamera hne
    (by norm_num [vec3.cross, whiteCamera])
    (by rw [hl]; exact qsqrt_exact 1 (by norm_num))
    (by rw [hc]; exact qsqrt_exact 1 (by norm_num))
  exact ⟨hne, h.1, h.2.1⟩

/-- C20, counterexample.  The unit sphere lit by one light whose sample is
`D = (1, 1, 1)`, a material that scatters with attenuation
`A = (1/2, 1/2, 1/2)` into a ray that leaves the scene, depth 1: the next
bounce returns `(0, 0, 0)` at depth 0, `Camera::pathtrace` returns
`(1/2, 1/2, 1/2)`, and `D + A * pathtrace(r2, 0)` is `(1, 1, 1)`. -/
theorem Camera.pathtrace_attenuates_direct :
    ((Sphere.toHittable qmath unitSphere).intersect zRay Camera.ray_interval rec0).1 = true ∧
    halfShading.evaluate grey zRay
      ((Sphere.toHittable qmath unitSphere).intersect zRay Camera.ray_interval rec0).2
      ⟨0, 0, 0⟩ ⟨⟨0, 0, 0⟩, ⟨0, 0, 0⟩⟩ () = ((true, ⟨1/2, 1/2, 1/2⟩, missRay), ()) ∧
    Camera.calculateDirectLighting (Sphere.toHittable qmath unitSphere)
      ((Sphere.toHittable qmath unitSphere).intersect zRay Camera.ray_interval rec0).2
      [unitLight] () = (⟨1, 1, 1⟩, ()) ∧
    Camera.pathtrace halfShading whiteCamera rec0 missRay (1 - 1)
      (Sphere.toHittable qmath unitSphere) [unitLight] () = some (⟨0, 0, 0⟩, ()) ∧
    Camera.pathtrace halfShading whiteCamera rec0 zRay 1
      (Sphere.toHittable qmath unitSphere) [unitLight] () = some (⟨1/2, 1/2, 1/2⟩, ()) ∧
    (⟨1/2, 1/2, 1/2⟩ : vec3 ℚ)
      ≠ (⟨1, 1, 1⟩ : vec3 ℚ) + vec3.mul ⟨1/2, 1/2, 1/2⟩ ⟨0, 0, 0⟩ := by
  have hD : Camera.calculateDirectLighting (Sphere.toHittable qmath unitSphere)
      ((Sphere.toHittable qmath unitSphere).intersect zRay Camera.ray_interval rec0).2
      [unitLight] () = (⟨1, 1, 1⟩, ()) := by
    simp only [Camera.calculateDirectLighting, List.foldl_cons, List.foldl_nil, unitLight]
    refine Prod.ext ?_ rfl
    apply vec3.ext3 <;> norm_num
  have h0 : Camera.pathtrace halfShading whiteCamera rec0 missRay (1 - 1)
      (Sphere.toHittable qmath unitSphere) [unitLight] () = some (⟨0, 0, 0⟩, ()) := by
    rw [Camera.pathtrace, dif_pos (by norm_num)]
  refine ⟨Camera.unitSphere_zRay_hit, rfl, hD, h0, ?_, ?_⟩
  · rw [Camera.pathtrace_scatter_eq halfShading whiteCamera rec0 zRay 1
      (Sphere.toHittable qmath unitSphere) [unitLight] () grey ⟨1/2, 1/2, 1/2⟩ missRay ()
      (by norm_num) Camera.unitSphere_zRay_hit Camera.unitSphere_zRay_mat rfl, h0, hD]
    simp only [Option.map_some']
    congr 1
    refine Prod.ext ?_ rfl
    apply vec3.ext3 <;> norm_num [vec3.mul]
  · intro h
    have hx := congrArg vec3.x h
    norm_num [vec3.mul] at hx

/-- C20, amended.  For `depth > 0` and a ray that hits a surface whose
material scatters (`evaluate` returns true with attenuation `A` and scattered
ray `r2`), `Camera::pathtrace` returns `A * D + A * pathtrace(r2, depth - 1)`:
the direct lighting `D`, which `calculateDirectLighting` sums from
`sampleLight` over the lights at the hit point, is multiplied by the
attenuation too; `A` multiplies componentwise.  When the next bounce
dereferences a null material, so does this one. -/
theorem Camera.pathtrace_scatter {σ : Type} (sh : Shading K σ) (cam : Camera K)
    (rec : HitRecord K) (r : Ray K) (depth : Int) (world : Hittable K)
    (lights : List (Light K σ)) (g : σ) (mat : Material K) (A : vec3 K) (scattered : Ray K)
    (g2 : σ) (hd : 0 < depth)
    (hhit : (world.intersect r Camera.ray_interval rec).1 = true)
    (hmat : (world.intersect r Camera.ray_interval rec).2.mat = some mat)
    (hev : sh.evaluate mat r (world.intersect r Camera.ray_interval rec).2 ⟨0, 0, 0⟩
      ⟨⟨0, 0, 0⟩, ⟨0, 0, 0⟩⟩
      (Camera.calculateDirectLighting world (world.intersect r Camera.ray_interval rec).2
        lights g).2 = ((true, A, scattered), g2)) :
    Camera.pathtrace sh cam rec r depth world lights g =
      (Camera.pathtrace sh cam rec scattered (depth - 1) world lights g2).map
        (fun next => (vec3.mul A (Camera.calculateDirectLighting world
          (world.intersect r Camera.ray_interval rec).2 lights g).1 + vec3.mul A next.1,
            next.2)) :=
  Camera.pathtrace_scatter_eq sh cam rec r depth world lights g mat A scattered g2 hd
    hhit hmat hev

/-- The amended C20 on the unit sphere with one light of sample `(1, 1, 1)`
and attenuation `(1/2, 1/2, 1/2)`, at depth 2. -/
theorem Camera.pathtrace_scatter_witness :
    ((Sphere.toHittable qmath unitSphere).intersect zRay Camera.ray_interval rec0).1 = true ∧
    Camera.pathtrace halfShading whiteCamera rec0 zRay 2
        (Sphere.toHittable qmath unitSphere) [unitLight] () =
      (Camera.pathtrace halfShading whiteCamera rec0 missRay (2 - 1)
        (Sphere.toHittable qmath unitSphere) [unitLight] ()).map
        (fun next => (vec3.mul ⟨1/2, 1/2, 1/2⟩ (Camera.calculateDirectLighting
          (Sphere.toHittable qmath unitSphere)
          ((Sphere.toHittable qmath unitSphere).intersect zRay Camera.ray_interval rec0).2
          [unitLight] ()).1 + vec3.mul ⟨1/2, 1/2, 1/2⟩ next.1, next.2)) :=
  ⟨Camera.unitSphere_zRay_hit,
    (Camera.pathtrace_scatter halfShading whiteCamera rec0 zRay 2
      (Sphere.toHittable qmath unitSphere) [unitLight] () grey ⟨1/2, 1/2, 1/2⟩ missRay ()
      (by norm_num) Camera.unitSphere_zRay_hit Camera.unitSphere_zRay_mat rfl)⟩

/-- C11.  Both recursive integrators are total functions of the scene, the
ray and the integer depth, defined by recursion on `max(depth, 0)`: the only
calls `Camera::pathtrace` and `BlinnPhong::getShading` make to themselves are
at `depth - 1` and under the test `depth > 0`.  The nesting of the recursive
calls is at most `max(depth, 0)`, so there is none for `depth <= 0`; here
`pathtrace_traced` returns what `pathtrace` returns together with the nesting,
and `getShading` is the first component of `getShading_traced`. -/
theorem integrators_nesting_bounded [FloorRing K] {σ : Type} :
    (∀ (sh : Shading K σ) (cam : Camera K) (rec : HitRecord K) (r : Ray K) (depth : Int)
        (world : Hittable K) (lights : List (Light K σ)) (g : σ),
      (Camera.pathtrace_traced sh cam rec r depth world lights g).1
        = Camera.pathtrace sh cam rec r depth world lights g ∧
      (Camera.pathtrace_traced sh cam rec r depth world lights g).2 ≤ (max depth 0).toNat ∧
      (depth ≤ 0 → (Camera.pathtrace_traced sh cam rec r depth world lights g).2 = 0)) ∧
    (∀ (m : CMath K) (rnd : Random K σ) (fresh : HitRecord K) (mat : Material K)
        (world : Hittable K) (lights : List (Light K σ)) (r_in : Ray K)
        (backgroundColor : vec3 K) (rec : HitRecord K) (depth : Int) (g : σ),
      (Material.getShading_traced m rnd fresh mat world lights r_in backgroundColor rec
        depth g).1
        = Material.getShading m rnd fresh mat world lights r_in backgroundColor rec depth g ∧
      (Material.getShading_traced m rnd fresh mat world lights r_in backgroundColor rec
        depth g).2 ≤ (max depth 0).toNat ∧
      (depth ≤ 0 → (Material.getShading_traced m rnd fresh mat world lights r_in
        backgroundColor rec depth g).2 = 0)) := by
  constructor
  · intro sh cam rec r depth world lights g
    have h := Camera.pathtrace_traced_spec sh cam rec world lights depth.toNat depth
      (le_refl _) r g
    refine ⟨h.1, ?_, fun hd => ?_⟩
    · have := h.2
      omega
    · have := h.2
      omega
  · intro m rnd fresh mat world lights r_in backgroundColor rec depth g
    have h := Material.getShading_traced_nesting m rnd fresh world lights backgroundColor
      depth.toNat depth (le_refl _) mat r_in rec g
    refine ⟨rfl, ?_, fun hd => ?_⟩
    · omega
    · omega

/-- C24 as stated fails.  The ray from `(0, 1, -5)` along the z axis is
tangent to the unit sphere: the discriminant is 0, and `Sphere::intersect`
reports a hit, at `t = 5`. -/
theorem Sphere.intersect_tangent_hit :
    Sphere.discriminant unitSphere tangentRay = 0 ∧
    (Sphere.intersect qmath unitSphere tangentRay ⟨1 / 1000, ⊤⟩ rec0).1 = true ∧
    (Sphere.intersect qmath unitSphere tangentRay ⟨1 / 1000, ⊤⟩ rec0).2.t = 5 := by
  have hD : Sphere.discriminant unitSphere tangentRay = 0 := by
    norm_num [Sphere.discriminant, unitSphere, Sphere.new, tangentRay, vec3.dot]
  have hs : (⟨1 / 1000, ⊤⟩ : interval ℚ).surrounds
      (-vec3.dot (tangentRay.origin - unitSphere.center) tangentRay.direction
        / vec3.dot tangentRay.direction tangentRay.direction) = true := by
    rw [interval.surrounds_iff]
    refine ⟨?_, WithTop.coe_lt_top _⟩
    show (1 / 1000 : ℚ) < _
    norm_num [unitSphere, Sphere.new, tangentRay, vec3.dot]
  rw [Sphere.intersect_tangent qmath unitSphere tangentRay _ rec0 hD qsqrt_zero, if_pos hs]
  refine ⟨hD, rfl, ?_⟩
  rw [Sphere.hit_info_t]
  norm_num [unitSphere, Sphere.new, tangentRay, vec3.dot]

/-- C24, amended.  When the discriminant of the ray-sphere quadratic is
negative, `Sphere::intersect` reports no hit, for every interval.  When it is
exactly zero (the ray is tangent to the sphere) and `sqrt(0) = 0`,
`Sphere::intersect` reports a hit exactly when the double root `-b / a` lies
strictly inside the interval, and then `rec.t` is that root. -/
theorem Sphere.intersect_zero_discriminant (m : CMath K) (s : Sphere K) (r : Ray K)
    (ray_t : interval K) (rec : HitRecord K) :
    (Sphere.discriminant s r < 0 → Sphere.intersect m s r ray_t rec = (false, rec)) ∧
    (Sphere.discriminant s r = 0 → m.sqrt 0 = 0 →
      ((Sphere.intersect m s r ray_t rec).1 = true ↔
        ray_t.surrounds (-vec3.dot (r.origin - s.center) r.direction
          / vec3.dot r.direction r.direction) = true) ∧
      ((Sphere.intersect m s r ray_t rec).1 = true →
        (Sphere.intersect m s r ray_t rec).2.t
          = -vec3.dot (r.origin - s.center) r.direction
            / vec3.dot r.direction r.direction)) := by
  constructor
  · intro hD
    rw [Sphere.intersect_eq, if_pos hD]
  · intro hD h0
    rw [Sphere.intersect_tangent m s r ray_t rec hD h0]
    split
    · rename_i hs
      exact ⟨⟨fun _ => hs, fun _ => rfl⟩, fun _ => Sphere.hit_info_t _ _ _ _ _⟩
    · rename_i hs
      exact ⟨⟨fun h => Bool.noConfusion h, fun h => absurd h hs⟩, fun h => Bool.noConfusion h⟩

/-- The amended C24 on the tangent ray of the unit sphere, with the interval
`(0.001, INFTY)`. -/
theorem Sphere.intersect_zero_discriminant_witness :
    Sphere.discriminant unitSphere tangentRay = 0 ∧ qmath.sqrt 0 = 0 ∧
    ((Sphere.intersect qmath unitSphere tangentRay ⟨1 / 1000, ⊤⟩ rec0).1 = true ↔
      (⟨1 / 1000, ⊤⟩ : interval ℚ).surrounds
        (-vec3.dot (tangentRay.origin - unitSphere.center) tangentRay.direction
          / vec3.dot tangentRay.direction tangentRay.direction) = true) := by
  have hD : Sphere.discriminant unitSphere tangentRay = 0 := by
    norm_num [Sphere.discriminant, unitSphere, Sphere.new, tangentRay, vec3.dot]
  exact ⟨hD, qsqrt_zero,
    ((Sphere.intersect_zero_discriminant qmath unitSphere tangentRay ⟨1 / 1000, ⊤⟩ rec0).2
      hD qsqrt_zero).1⟩

/-- C28.  For a cylinder with a unit axis and a ray whose direction is
parallel to the axis (their cross product is zero), the coefficients `a` and
`b` of the quadratic are both zero, so the discriminant is zero, the test
`discriminant > 0` fails, and `Cylinder::intersect` reports no hit and
leaves the record as it was, for every interval. -/
theorem Cylinder.intersect_parallel_miss (m : CMath K) (phi0 : K) (cy : Cylinder K) (r : Ray K)
    (ray_t : interval K) (rec : HitRecord K)
    (hax : vec3.length_squared cy.axis = 1)
    (hpar : vec3.cross r.direction cy.axis = ⟨0, 0, 0⟩) :
    Cylinder.quad_a cy r = 0 ∧ Cylinder.quad_b cy r = 0 ∧ Cylinder.discriminant cy r = 0 ∧
    Cylinder.intersect m phi0 cy r ray_t rec = (false, rec) := by
  obtain ⟨ha, hb⟩ := Cylinder.quad_parallel cy r hax hpar
  have hD : Cylinder.discriminant cy r = 0 := by
    rw [Cylinder.discriminant_eq, ha, hb]
    ring
  refine ⟨ha, hb, hD, ?_⟩
  have hD2 : ¬ (Cylinder.discriminant cy r > 0) := by
    rw [hD]
    exact lt_irrefl 0
  unfold Cylinder.discriminant at hD2
  unfold Cylinder.intersect
  simp only []
  rw [if_neg hD2]

/-- C28 on the cylinder around the y axis with caps at `y = -1` and `y = 1`
and the ray from `(0, -5, 0)` up the axis, which passes through the centres of
both cap disks, at `t = 4` and `t = 6`. -/
theorem Cylinder.intersect_parallel_miss_witness :
    vec3.length_squared unitCylinder.axis = 1 ∧
    vec3.cross axisRay.direction unitCylinder.axis = ⟨0, 0, 0⟩ ∧
    axisRay.at 4 = unitCylinder.center - vec3.smul unitCylinder.height unitCylinder.axis ∧
    axisRay.at 6 = unitCylinder.center + vec3.smul unitCylinder.height unitCylinder.axis ∧
    Cylinder.intersect qmath 0 unitCylinder axisRay ⟨1 / 1000, ⊤⟩ rec0 = (false, rec0) := by
  have hax : vec3.length_squared unitCylinder.axis = 1 := by
    norm_num [vec3.length_squared, unitCylinder, Cylinder.new]
  have hpar : vec3.cross axisRay.direction unitCylinder.axis = ⟨0, 0, 0⟩ := by
    apply vec3.ext3 <;> norm_num [vec3.cross, unitCylinder, Cylinder.new, axisRay]
  refine ⟨hax, hpar, ?_, ?_,
    (Cylinder.intersect_parallel_miss qmath 0 unitCylinder axisRay ⟨1 / 1000, ⊤⟩ rec0
      hax hpar).2.2.2⟩
  · apply vec3.ext3 <;> norm_num [Ray.at, axisRay, unitCylinder, Cylinder.new, vec3.smul]
  · apply vec3.ext3 <;> norm_num [Ray.at, axisRay, unitCylinder, Cylinder.new, vec3.smul]

/-- C30.  The area light with corner `(0, 0, -3)` and intensity `(1, 1, 1)`,
sampled once with the draws `u = v = 0`, seen from the hit point `(0, 0, -5)`
whose normal `(0, 0, -1)` faces away from the light, in a scene where nothing
occludes it: `cos(theta) = -1` and `AreaLight::sampleLight` returns `-50/39`
in each channel, a negative contribution.  At the same hit point the point
light at `(0, 0, -3)` returns `(0, 0, 0)`. -/
theorem AreaLight.sampleLight_negative :
    (0 ≤ squareLight.intensity.x ∧ 0 ≤ squareLight.intensity.y ∧
      0 ≤ squareLight.intensity.z) ∧
    vec3.dot backPoint.normal (vec3.unit_vector qmath.sqrt (squareLight.corner
      + vec3.smul 0 squareLight.edge1 + vec3.smul 0 squareLight.edge2 - backPoint.p)) = -1 ∧
    AreaLight.sampleLight qmath listRandom rec0 squareLight backPoint
        (Sphere.toHittable qmath lowSphere) [0, 0]
      = (⟨-50 / 39, -50 / 39, -50 / 39⟩, []) ∧
    (AreaLight.sampleLight qmath listRandom rec0 squareLight backPoint
        (Sphere.toHittable qmath lowSphere) [0, 0]).1.x < 0 ∧
    nearLight.sampleLight qmath rec0 backPoint (Sphere.toHittable qmath lowSphere)
      = ⟨0, 0, 0⟩ := by
  have hp : squareLight.corner + vec3.smul 0 squareLight.edge1
      + vec3.smul 0 squareLight.edge2 - backPoint.p = nearLight.position - shadePoint.p := by
    apply vec3.ext3 <;>
      norm_num [squareLight, AreaLight.new, vec3.smul, nearLight, shadePoint, backPoint]
  have hray : (⟨backPoint.p, ⟨0, 0, 1⟩⟩ : Ray ℚ) = zRay := rfl
  have hmiss : ((Sphere.toHittable qmath lowSphere).intersect zRay Camera.ray_interval
      rec0) = (false, rec0) := Sphere.intersect_lowSphere_zRay _ _
  have hval : AreaLight.sampleLight qmath listRandom rec0 squareLight backPoint
      (Sphere.toHittable qmath lowSphere) [0, 0]
      = (⟨-50 / 39, -50 / 39, -50 / 39⟩, []) := by
    unfold AreaLight.sampleLight
    have hn : squareLight.numSamples.toNat = 1 := rfl
    rw [hn]
    simp only [Function.iterate_succ, Function.iterate_zero, Function.comp, id]
    unfold AreaLight.sample_step
    simp only [listRandom, List.headD_cons, List.tail_cons]
    rw [hp, nearLight_direction.1, nearLight_direction.2, hray, hmiss]
    simp only [Bool.not_false, if_true]
    refine Prod.ext ?_ rfl
    apply vec3.ext3 <;>
      norm_num [squareLight, AreaLight.new, vec3.sdiv, vec3.smul, vec3.dot, backPoint]
  refine ⟨?_, ?_, hval, ?_, ?_⟩
  · norm_num [squareLight, AreaLight.new]
  · rw [hp, nearLight_direction.1]
    norm_num [vec3.dot, backPoint]
  · rw [hval]
    norm_num
  · unfold PointLight.sampleLight
    have hpp : backPoint.p = shadePoint.p := rfl
    simp only [hpp]
    rw [nearLight_direction.1, nearLight_direction.2]
    have hray2 : (⟨shadePoint.p, ⟨0, 0, 1⟩⟩ : Ray ℚ) = zRay := rfl
    rw [hray2, hmiss]
    simp only [Bool.false_eq_true, if_false]
    apply vec3.ext3 <;> norm_num [vec3.sdiv, vec3.smul, vec3.dot, backPoint, nearLight]

/-- C22.  `SchlickBRDF(0.04)` hit head-on by the ray along the z axis at the
point `(0, 0, -1)` with normal `(0, 0, -1)`: the Fresnel weight is `F = 0.04`
and the mirror reflection of the incident direction is `(0, 0, -1)`.  With the
draw `0 < F`, `evaluate` returns true with the reflected ray and attenuation
`(1, 1, 1)`.  With the draw `1/2 >= F` it returns true and leaves `scattered`
and `attenuation` as the caller passed them, here the default-constructed
values of `Camera::pathtrace`, a ray with direction `(0, 0, 0)` and the
attenuation `(0, 0, 0)`. -/
theorem SchlickBRDF.evaluate_leaves_outputs :
    fresnelSchlick qmathPow
      (vec3.dot (vec3.unit_vector qmathPow.sqrt (-zRay.direction)) frontHit.normal) (1/25)
      = 1 / 25 ∧
    vec3.reflect zRay.direction frontHit.normal = ⟨0, 0, -1⟩ ∧
    SchlickBRDF.evaluate qmathPow listRandom (1/25) zRay frontHit ⟨0, 0, 0⟩
      ⟨⟨0, 0, 0⟩, ⟨0, 0, 0⟩⟩ [0]
      = ((true, ⟨1, 1, 1⟩, ⟨⟨0, 0, -1⟩, ⟨0, 0, -1⟩⟩), []) ∧
    SchlickBRDF.evaluate qmathPow listRandom (1/25) zRay frontHit ⟨0, 0, 0⟩
      ⟨⟨0, 0, 0⟩, ⟨0, 0, 0⟩⟩ [1/2]
      = ((true, ⟨0, 0, 0⟩, ⟨⟨0, 0, 0⟩, ⟨0, 0, 0⟩⟩), []) := by
  have hF := fresnelSchlick_frontHit (1/25)
  have hr : vec3.reflect zRay.direction frontHit.normal = ⟨0, 0, -1⟩ := by
    apply vec3.ext3 <;> norm_num [vec3.reflect, vec3.smul, vec3.dot, zRay, frontHit]
  refine ⟨hF, hr, ?_, ?_⟩
  · rw [SchlickBRDF.evaluate_below _ _ _ _ _ _ _ _
      (by rw [hF]; show (0 : ℚ) < 1 / 25; norm_num), hr]
    rfl
  · rw [SchlickBRDF.evaluate_not_below _ _ _ _ _ _ _ _
      (by rw [hF]; show ¬ ((1 / 2 : ℚ) < 1 / 25); norm_num)]
    rfl

/-- C23.  In `SchlickRefractionsBRDF::evaluate`, for a hit normal of unit
length, an exact square root of the squared length of the ray direction, and a
draw that does not select the reflection branch (`draw >= F`): the radicand
`1 - cos_theta^2` is not negative; with `ratio = 1/1.5` on a front-face hit
and `1.5` otherwise, the result is the reflected ray when
`ratio * sin_theta > 1` and the refracted ray when not, in both cases with
the attenuation `exp(-0.2 * rec.t)` in every channel; and on a front-face hit,
with an exact square root of the radicand, `ratio * sin_theta > 1` is false,
so the ray is refracted. -/
theorem SchlickRefractionsBRDF.evaluate_refraction {σ : Type} (m : CMath K)
    (rnd : Random K σ) (fresnelReflectance : K) (r_in : Ray K) (rec : HitRecord K)
    (attenuation : vec3 K) (scattered : Ray K) (g : σ)
    (hn : vec3.length_squared rec.normal = 1)
    (hs : ExactSqrt m.sqrt (vec3.length_squared r_in.direction))
    (hdraw : ¬ (rnd.random_float g).1 < fresnelSchlick m
      (vec3.dot (vec3.unit_vector m.sqrt (-r_in.direction)) rec.normal) fresnelReflectance) :
    0 ≤ 1.0 - vec3.dot (-vec3.unit_vector m.sqrt r_in.direction) rec.normal
      * vec3.dot (-vec3.unit_vector m.sqrt r_in.direction) rec.normal ∧
    ((if rec.front_face then (1.0 / 1.5 : K) else 1.5)
        * m.sqrt (1.0 - vec3.dot (-vec3.unit_vector m.sqrt r_in.direction) rec.normal
          * vec3.dot (-vec3.unit_vector m.sqrt r_in.direction) rec.normal) > 1.0 →
      SchlickRefractionsBRDF.evaluate m rnd fresnelReflectance r_in rec attenuation scattered g
        = ((true, ⟨m.exp (-0.2 * rec.t), m.exp (-0.2 * rec.t), m.exp (-0.2 * rec.t)⟩,
            ⟨rec.p, vec3.reflect r_in.direction rec.normal⟩), (rnd.random_float g).2)) ∧
    (¬ ((if rec.front_face then (1.0 / 1.5 : K) else 1.5)
        * m.sqrt (1.0 - vec3.dot (-vec3.unit_vector m.sqrt r_in.direction) rec.normal
          * vec3.dot (-vec3.unit_vector m.sqrt r_in.direction) rec.normal) > 1.0) →
      SchlickRefractionsBRDF.evaluate m rnd fresnelReflectance r_in rec attenuation scattered g
        = ((true, ⟨m.exp (-0.2 * rec.t), m.exp (-0.2 * rec.t), m.exp (-0.2 * rec.t)⟩,
            ⟨rec.p, vec3.refract m.sqrt r_in.direction rec.normal
              (if rec.front_face then (1.0 / 1.5 : K) else 1.5)⟩), (rnd.random_float g).2)) ∧
    (rec.front_face = true →
      ExactSqrt m.sqrt (1.0 - vec3.dot (-vec3.unit_vector m.sqrt r_in.direction) rec.normal
        * vec3.dot (-vec3.unit_vector m.sqrt r_in.direction) rec.normal) →
      ¬ ((if rec.front_face then (1.0 / 1.5 : K) else 1.5)
        * m.sqrt (1.0 - vec3.dot (-vec3.unit_vector m.sqrt r_in.direction) rec.normal
          * vec3.dot (-vec3.unit_vector m.sqrt r_in.direction) rec.normal) > 1.0)) := by
  have hrad := radicand_nonneg m.sqrt r_in.direction rec.normal hn hs
  refine ⟨hrad, ?_, ?_, ?_⟩
  · intro h
    unfold SchlickRefractionsBRDF.evaluate
    simp only [hdraw, if_false, h, decide_True, Bool.not_true, Bool.false_eq_true]
    refine Prod.ext (Prod.ext rfl (Prod.ext ?_ rfl)) rfl
    apply vec3.ext3 <;> norm_num [vec3.smul]
  · intro h
    unfold SchlickRefractionsBRDF.evaluate
    simp only [hdraw, if_false, h, decide_False, Bool.not_false, if_true]
    refine Prod.ext (Prod.ext rfl (Prod.ext ?_ rfl)) rfl
    apply vec3.ext3 <;> norm_num [vec3.smul]
  · intro hf hex
    rw [if_pos hf]
    have hx1 : (1.0 : K) - vec3.dot (-vec3.unit_vector m.sqrt r_in.direction) rec.normal
        * vec3.dot (-vec3.unit_vector m.sqrt r_in.direction) rec.normal ≤ 1 := by
      have := mul_self_nonneg (vec3.dot (-vec3.unit_vector m.sqrt r_in.direction) rec.normal)
      norm_num
      linarith
    generalize (1.0 : K) - vec3.dot (-vec3.unit_vector m.sqrt r_in.direction) rec.normal
      * vec3.dot (-vec3.unit_vector m.sqrt r_in.direction) rec.normal = x at hex hx1 ⊢
    obtain ⟨h0, hsq⟩ := hex
    have hle : m.sqrt x ≤ 1 := by
      by_contra hgt
      push_neg at hgt
      nlinarith
    norm_num
    linarith

/-- C23 on `SchlickRefractionsBRDF(0.04)` hit head-on on the front face, with
the draw `1/2`: the hypotheses hold, the ray is not totally reflected, and the
result is the refracted ray. -/
theorem SchlickRefractionsBRDF.evaluate_refraction_witness :
    vec3.length_squared frontHit.normal = 1 ∧
    ExactSqrt qmathPow.sqrt (vec3.length_squared zRay.direction) ∧
    frontHit.front_face = true ∧
    SchlickRefractionsBRDF.evaluate qmathPow listRandom (1/25) zRay frontHit ⟨0, 0, 0⟩
        ⟨⟨0, 0, 0⟩, ⟨0, 0, 0⟩⟩ [1/2]
      = ((true, ⟨qmathPow.exp (-0.2 * frontHit.t), qmathPow.exp (-0.2 * frontHit.t),
            qmathPow.exp (-0.2 * frontHit.t)⟩,
          ⟨frontHit.p, vec3.refract qmathPow.sqrt zRay.direction frontHit.normal
            (if frontHit.front_face then (1.0 / 1.5 : ℚ) else 1.5)⟩), []) := by
  have hn : vec3.length_squared frontHit.normal = 1 := by
    norm_num [vec3.length_squared, frontHit]
  have hl : vec3.length_squared zRay.direction = 1 * 1 := by
    norm_num [vec3.length_squared, zRay]
  have hs : ExactSqrt qmathPow.sqrt (vec3.length_squared zRay.direction) := by
    rw [hl]
    exact qsqrt_exact 1 (by norm_num)
  have hu : vec3.unit_vector qmathPow.sqrt zRay.direction = ⟨0, 0, 1⟩ := by
    unfold vec3.unit_vector vec3.length
    rw [hl]
    show vec3.sdiv zRay.direction (qsqrt (1 * 1)) = _
    rw [qsqrt_mul_self 1 (by norm_num)]
    apply vec3.ext3 <;> norm_num [vec3.sdiv, vec3.smul, zRay]
  have hrad : (1.0 : ℚ) - vec3.dot (-vec3.unit_vector qmathPow.sqrt zRay.direction)
      frontHit.normal * vec3.dot (-vec3.unit_vector qmathPow.sqrt zRay.direction)
      frontHit.normal = 0 * 0 := by
    rw [hu]
    norm_num [vec3.dot, frontHit]
  have h := SchlickRefractionsBRDF.evaluate_refraction qmathPow listRandom (1/25) zRay
    frontHit ⟨0, 0, 0⟩ ⟨⟨0, 0, 0⟩, ⟨0, 0, 0⟩⟩ [1/2] hn hs
    (by rw [fresnelSchlick_frontHit]; show ¬ ((1 / 2 : ℚ) < 1 / 25); norm_num)
  exact ⟨hn, hs, rfl, h.2.2.1 (h.2.2.2 rfl (by rw [hrad]; exact qsqrt_exact 0 (le_refl 0)))⟩

/-- C21.  `getShading` of a `BlinnPhong` material, for a ray that hits a
surface whose material is reflective with reflectivity `> 0` and not
refractive (at the calls the program makes, the material hit is the material
whose `getShading` runs), at `depth > 0` and with a defined local part (no
texture, or a texture lookup in range): the result is `reflectivity * C`,
where `C` is the background colour when the mirror-reflected ray from the
hit point hits nothing, and otherwise `getShading` of the material that ray
hits, at `depth - 1`.  The diffuse, specular and ambient terms and `kd`, `ks`
do not occur in the result; of the lights only the state `G` their
`sampleLight` calls leave in the random generator is passed on. -/
theorem Material.getShading_reflection [FloorRing K] {σ : Type} (m : CMath K)
    (rnd : Random K σ) (fresh : HitRecord K) (texture : Option Texture)
    (diffuse_color specular_color : vec3 K)
    (specular_exponent ks kd reflectivity refractiveIndex : K)
    (is_reflective is_refractive : Bool) (transparency : K)
    (world : Hittable K) (lights : List (Light K σ)) (r_in : Ray K) (backgroundColor : vec3 K)
    (rec : HitRecord K) (depth : Int) (g : σ) (rmat : Material K) (shading : vec3 K × σ)
    (reflectedRay : Ray K) (G : σ)
    (hhit : (world.intersect r_in Camera.ray_interval rec).1 = true)
    (hmat : (world.intersect r_in Camera.ray_interval rec).2.mat = some rmat)
    (hlocal : BlinnPhong.local_shading m diffuse_color specular_color specular_exponent ks kd
      rmat world lights r_in (world.intersect r_in Camera.ray_interval rec).2 g = some shading)
    (hrefl : rmat.isReflective = true) (hpos : 0 < rmat.getReflectivity)
    (hnrefr : rmat.isRefractive = false) (hd : 0 < depth)
    (hray : reflectedRay = ⟨(world.intersect r_in Camera.ray_interval rec).2.p,
      vec3.reflect (vec3.unit_vector m.sqrt r_in.direction)
        (world.intersect r_in Camera.ray_interval rec).2.normal⟩)
    (hG : G = lights.foldl (fun g2 light =>
      (light.sampleLight (world.intersect r_in Camera.ray_interval rec).2 world g2).2) g) :
    Material.getShading m rnd fresh
      (.BlinnPhong texture diffuse_color specular_color specular_exponent ks kd reflectivity
        refractiveIndex is_reflective is_refractive transparency)
      world lights r_in backgroundColor rec depth g
    = if (world.intersect reflectedRay Camera.ray_interval fresh).1 = true then
        match (world.intersect reflectedRay Camera.ray_interval fresh).2.mat with
        | none => none
        | some mat2 =>
          (Material.getShading m rnd fresh mat2 world lights reflectedRay backgroundColor
            (world.intersect reflectedRay Camera.ray_interval fresh).2 (depth - 1) G).map
            (fun c => (vec3.smul reflectivity c.1, c.2))
      else some (vec3.smul reflectivity backgroundColor, G) := by
  have hstate := BlinnPhong.local_shading_state m diffuse_color specular_color
    specular_exponent ks kd rmat world lights r_in _ g shading hlocal
  unfold Material.getShading
  rw [Material.getShading_traced_reflective m rnd fresh texture diffuse_color specular_color
    specular_exponent ks kd reflectivity refractiveIndex is_reflective is_refractive
    transparency world lights r_in backgroundColor rec depth g rmat shading hhit hmat hlocal
    hrefl hpos hnrefr hd, ← hray, hstate, ← hG]
  unfold BlinnPhong.secondary
  simp only []
  split
  · split <;> rfl
  · rfl

/-- C21 on the mirror sphere: the ray along the z axis is reflected back at
`(0, 0, -1)`, the reflected ray hits nothing, and at depth 1 `getShading`
returns the white background times the reflectivity `1/2`. -/
theorem Material.getShading_reflection_witness :
    ((Sphere.toHittable qmathPow mirrorSphere).intersect zRay Camera.ray_interval rec0).1
      = true ∧
    mirror.isReflective = true ∧ 0 < mirror.getReflectivity ∧ mirror.isRefractive = false ∧
    Material.getShading qmathPow listRandom rec0 mirror
      (Sphere.toHittable qmathPow mirrorSphere) [] zRay ⟨1, 1, 1⟩ rec0 1 []
      = some (⟨1 / 2, 1 / 2, 1 / 2⟩, []) := by
  have hF1 := Sphere.intersect_mirrorSphere_zRay
  have hpos : (0 : ℚ) < mirror.getReflectivity := by
    show (0 : ℚ) < 1 / 2
    norm_num
  have h := Material.getShading_reflection qmathPow listRandom rec0 none ⟨1, 1, 1⟩ ⟨1, 1, 1⟩
    2 (1/2) (1/2) (1/2) 0 true false 0 (Sphere.toHittable qmathPow mirrorSphere) [] zRay
    ⟨1, 1, 1⟩ rec0 1 [] mirror _ backRay []
    (by rw [hF1]) (by rw [hF1]; rfl)
    (BlinnPhong.local_shading_no_lights qmathPow _ _ _ _ _ mirror _ zRay _ [] rfl)
    rfl hpos rfl (by norm_num)
    (by rw [hF1]; exact reflect_zRay_mirrorHit.symm) rfl
  rw [Sphere.intersect_mirrorSphere_backRay] at h
  refine ⟨by rw [hF1], rfl, hpos, rfl, ?_⟩
  show Material.getShading qmathPow listRandom rec0
    (.BlinnPhong none ⟨1, 1, 1⟩ ⟨1, 1, 1⟩ 2 (1/2) (1/2) (1/2) 0 true false 0) _ _ _ _ _ _ _ = _
  rw [h]
  simp only [Bool.false_eq_true, if_false]
  refine congrArg some (Prod.ext ?_ rfl)
  apply vec3.ext3 <;> norm_num [vec3.smul]

/-- C29.  `getShading` of a `BlinnPhong` material on a hit of an untextured
material, evaluated without recursion (`depth <= 0`, or a hit material that
is neither reflective nor refractive) and lit by one point light of intensity
`I` whose shadow ray is not occluded.  With `L` the unit direction to the
light, `d` the distance to it, `H` the unit half-vector of `L` and the view
direction, `NL = max(0, N.L)` and `NH = max(0, N.H)`, each channel is
`kd * diffuse_color * I * 4 * NL^2 / d^4
+ ks * specular_color * I * 4 * NL * pow(NH, specular_exponent) / d^4
+ 0.2 * diffuse_color`.  With no lights each channel is `0.2 * diffuse_color`. -/
theorem Material.getShading_point_light [FloorRing K] {σ : Type} (m : CMath K)
    (rnd : Random K σ) (fresh shadowRec : HitRecord K) (texture : Option Texture)
    (diffuse_color specular_color : vec3 K)
    (specular_exponent ks kd reflectivity refractiveIndex : K)
    (is_reflective is_refractive : Bool) (transparency : K)
    (world : Hittable K) (light : PointLight K) (r_in : Ray K) (backgroundColor : vec3 K)
    (rec : HitRecord K) (depth : Int) (g : σ) (rmat : Material K)
    (N L H : vec3 K) (d NL NH : K)
    (hhit : (world.intersect r_in Camera.ray_interval rec).1 = true)
    (hmat : (world.intersect r_in Camera.ray_interval rec).2.mat = some rmat)
    (hunt : rmat.isTextured = false)
    (hno : depth ≤ 0 ∨ (rmat.isReflective = false ∧ rmat.isRefractive = false))
    (hshadow : (world.intersect ⟨(world.intersect r_in Camera.ray_interval rec).2.p,
      vec3.unit_vector m.sqrt
        (light.position - (world.intersect r_in Camera.ray_interval rec).2.p)⟩
      Camera.ray_interval shadowRec).1 = false)
    (hN : N = (world.intersect r_in Camera.ray_interval rec).2.normal)
    (hL : L = vec3.unit_vector m.sqrt
      (light.position - (world.intersect r_in Camera.ray_interval rec).2.p))
    (hd : d = vec3.length m.sqrt
      (light.position - (world.intersect r_in Camera.ray_interval rec).2.p))
    (hH : H = vec3.unit_vector m.sqrt (vec3.unit_vector m.sqrt (-r_in.direction) + L))
    (hNL : NL = max 0 (vec3.dot N L))
    (hNH : NH = max 0 (vec3.dot N H)) :
    Material.getShading m rnd fresh
      (.BlinnPhong texture diffuse_color specular_color specular_exponent ks kd reflectivity
        refractiveIndex is_reflective is_refractive transparency)
      world [light.toLight m shadowRec] r_in backgroundColor rec depth g
    = some (⟨kd * diffuse_color.x * light.intensity.x * 4 * NL ^ 2 / d ^ 4
          + ks * specular_color.x * light.intensity.x * 4 * NL * m.pow NH specular_exponent
            / d ^ 4
          + 0.2 * diffuse_color.x,
        kd * diffuse_color.y * light.intensity.y * 4 * NL ^ 2 / d ^ 4
          + ks * specular_color.y * light.intensity.y * 4 * NL * m.pow NH specular_exponent
            / d ^ 4
          + 0.2 * diffuse_color.y,
        kd * diffuse_color.z * light.intensity.z * 4 * NL ^ 2 / d ^ 4
          + ks * specular_color.z * light.intensity.z * 4 * NL * m.pow NH specular_exponent
            / d ^ 4
          + 0.2 * diffuse_color.z⟩, g) ∧
    Material.getShading m rnd fresh
      (.BlinnPhong texture diffuse_color specular_color specular_exponent ks kd reflectivity
        refractiveIndex is_reflective is_refractive transparency)
      world [] r_in backgroundColor rec depth g
    = some (⟨0.2 * diffuse_color.x, 0.2 * diffuse_color.y, 0.2 * diffuse_color.z⟩, g) := by
  subst hN
  constructor
  · unfold Material.getShading
    rw [Material.getShading_traced_local m rnd fresh texture diffuse_color specular_color
      specular_exponent ks kd reflectivity refractiveIndex is_reflective is_refractive
      transparency world _ r_in backgroundColor rec depth g rmat _ hhit hmat
      (BlinnPhong.local_shading_point_light m shadowRec diffuse_color specular_color
        specular_exponent ks kd rmat world light r_in _ g L H d NL NH hunt hshadow hL hd hH
        hNL hNH) hno]
  · unfold Material.getShading
    rw [Material.getShading_traced_local m rnd fresh texture diffuse_color specular_color
      specular_exponent ks kd reflectivity refractiveIndex is_reflective is_refractive
      transparency world _ r_in backgroundColor rec depth g rmat _ hhit hmat
      (BlinnPhong.local_shading_no_lights m diffuse_color specular_color
        specular_exponent ks kd rmat world r_in _ g hunt) hno]

/-- C29 on the mirror sphere at depth 0, lit by the point light at
`(0, 0, -3)` of intensity `(1, 1, 1)`: at the hit point `(0, 0, -1)` the light
is at distance 2 with `N.L = N.H = 1`, its shadow ray hits nothing, and every
channel is `1/2 * 4/16 + 1/2 * 4/16 + 0.2 = 9/20`. -/
theorem Material.getShading_point_light_witness :
    ((Sphere.toHittable qmathPow mirrorSphere).intersect zRay Camera.ray_interval rec0).1
      = true ∧
    mirror.isTextured = false ∧
    Material.getShading qmathPow listRandom rec0 mirror
      (Sphere.toHittable qmathPow mirrorSphere) [nearLight.toLight qmathPow rec0] zRay
      ⟨1, 1, 1⟩ rec0 0 []
      = some (⟨9 / 20, 9 / 20, 9 / 20⟩, []) := by
  have hF1 := Sphere.intersect_mirrorSphere_zRay
  have hsub : nearLight.position - mirrorHit.p = (⟨0, 0, -2⟩ : vec3 ℚ) := by
    apply vec3.ext3 <;> norm_num [nearLight, mirrorHit]
  have hsum : vec3.unit_vector qmathPow.sqrt (-zRay.direction) + (⟨0, 0, -1⟩ : vec3 ℚ)
      = ⟨0, 0, -2⟩ := by
    rw [unit_vector_neg_zRay]
    apply vec3.ext3 <;> norm_num
  have h := (Material.getShading_point_light qmathPow listRandom rec0 rec0 none ⟨1, 1, 1⟩
    ⟨1, 1, 1⟩ 2 (1/2) (1/2) (1/2) 0 true false 0 (Sphere.toHittable qmathPow mirrorSphere)
    nearLight zRay ⟨1, 1, 1⟩ rec0 0 ([] : List ℚ) mirror
    ⟨0, 0, -1⟩ ⟨0, 0, -1⟩ ⟨0, 0, -1⟩ 2 1 1
    (by rw [hF1]) (by rw [hF1]; rfl) rfl (Or.inl (le_refl 0))
    (by
      rw [hF1]
      show ((Sphere.toHittable qmathPow mirrorSphere).intersect
        ⟨mirrorHit.p, vec3.unit_vector qmathPow.sqrt (nearLight.position - mirrorHit.p)⟩
        Camera.ray_interval rec0).1 = false
      rw [hsub, unit_vector_down.1]
      exact congrArg Prod.fst (Sphere.intersect_mirrorSphere_backRay rec0))
    (by rw [hF1]; rfl)
    (by rw [hF1]; show _ = vec3.unit_vector qmathPow.sqrt (nearLight.position - mirrorHit.p)
        rw [hsub, unit_vector_down.1])
    (by rw [hF1]; show _ = vec3.length qmathPow.sqrt (nearLight.position - mirrorHit.p)
        rw [hsub, unit_vector_down.2])
    (by rw [hsum, unit_vector_down.1])
    (by norm_num [vec3.dot])
    (by norm_num [vec3.dot])).1
  refine ⟨by rw [hF1], rfl, ?_⟩
  show Material.getShading qmathPow listRandom rec0
    (.BlinnPhong none ⟨1, 1, 1⟩ ⟨1, 1, 1⟩ 2 (1/2) (1/2) (1/2) 0 true false 0) _ _ _ _ _ _ _ = _
  rw [h, qpow_one_two]
  refine congrArg some (Prod.ext ?_ rfl)
  apply vec3.ext3 <;> norm_num [nearLight]

/-- C26.  For `index >= 0` and `base >= 2`, `halton(index, base)` is the
radical inverse of `index` in that base: for every list of digits below the
base with `index = sum_k d_k * base^k`, the value returned is
`sum_k d_k * base^-(k+1)`; `halton(0, base) = 0`; and two indices with the
same value are equal.  The loop is run for more tests of its condition than
the index, which is enough for it to finish. -/
theorem halton_radical_inverse [FloorRing K] (base : Nat) (hb : 2 ≤ base) :
    (∀ (index : Nat) (digits : List Nat), (∀ d ∈ digits, d < base) →
      index = Nat.ofDigits base digits → ∀ fuel : Nat, index < fuel →
      halton (K := K) fuel (index : Int) (base : Int)
        = some (radical_inverse base digits)) ∧
    (∀ fuel : Nat, 0 < fuel → halton (K := K) fuel 0 (base : Int) = some 0) ∧
    (∀ (i j fuel : Nat), i < fuel → j < fuel →
      halton (K := K) fuel (i : Int) (base : Int) = halton (K := K) fuel (j : Int) (base : Int) →
      i = j) := by
  have hbK : (2 : K) ≤ (base : K) := by exact_mod_cast hb
  have hb0 : (base : K) ≠ 0 := by linarith
  have hcast : (((base : Nat) : Int) : K) = (base : K) := by norm_cast
  have h10 : (1.0 : K) = 1 := by norm_num
  refine ⟨?_, ?_, ?_⟩
  · intro index digits hds hidx fuel hf
    have h := halton_loop_digits (K := K) base hb digits hds fuel 0 (1.0 / (base : K))
      (by rw [← hidx]; exact hf)
    rw [← hidx] at h
    unfold halton
    rw [hcast, h]
    congr 1
    rw [h10, zero_add, div_mul_cancel₀ _ hb0, one_mul]
  · intro fuel hf
    have h := halton_eq_digits (K := K) base 0 hb fuel hf
    rw [Nat.digits_zero, radical_inverse_nil] at h
    exact_mod_cast h
  · intro i j fuel hi hj h
    rw [halton_eq_digits base i hb fuel hi, halton_eq_digits base j hb fuel hj] at h
    exact radical_inverse_digits_injective base hb i j (Option.some.inj h)

/-- C26 at base 2: `halton(6, 2)`, with `6 = 0*1 + 1*2 + 1*4`, is
`0/2 + 1/4 + 1/8 = 3/8`. -/
theorem halton_radical_inverse_witness :
    (2 : Nat) ≤ 2 ∧ halton (K := ℚ) 7 6 2 = some (3 / 8) := by
  have h := (halton_radical_inverse (K := ℚ) 2 (le_refl 2)).1 6 [0, 1, 1]
    (by decide) (by norm_num [Nat.ofDigits]) 7 (by norm_num)
  refine ⟨le_refl 2, ?_⟩
  have hv : radical_inverse (K := ℚ) 2 [0, 1, 1] = 3 / 8 := by
    norm_num [radical_inverse, List.range_succ]
  rw [hv] at h
  exact_mod_cast h

/-- C25.  `Camera::get_ray` after `Camera::initialize`, in the render mode
`pathtracer`, for a sample index `s >= 0`, a positive image width and a
configured image height `>= 0`.  The lens point is `(a, b, 0)` with
`a = r cos(theta)`, `b = r sin(theta)`, `r = sqrt(draw1)`,
`theta = 2 PI draw2`; for `draw1 <= 1`, an exact square root of `draw1` and
`cos^2 + sin^2 = 1` at `theta`, `a^2 + b^2 <= 1`.  The ray returned has the
origin `lookfrom + lens_radius * (a u + b v)`, which is `lookfrom` when
`lens_radius = 0`, and the direction `jittered pixel point - origin`, the
jittered pixel point being the pixel centre plus
`jx * pixel_delta_u + jy * pixel_delta_v` with
`jx = floor(halton(s, 2) * image_width) / image_width` and
`jy = floor(halton(s, 3) * image_height) / image_height`, both in `[0, 1)`.
The loops of `halton` finish within `s + 1` tests of their condition. -/
theorem Camera.get_ray_pathtracer [FloorRing K] {σ : Type} (m : CMath K) (rnd : Random K σ)
    (cam : Camera K) (fuel : Nat) (i j s : Int) (g : σ) (a b : K)
    (hmode : cam.render_mode = "pathtracer")
    (hs : 0 ≤ s) (hfuel : s.toNat < fuel)
    (hw : 0 < cam.image_width) (hh : 0 ≤ cam.image_height)
    (hdraw : (rnd.random_float g).1 ≤ 1)
    (hsqrt : ExactSqrt m.sqrt (rnd.random_float g).1)
    (htrig : m.cos (2.0 * PI * (rnd.random_float (rnd.random_float g).2).1)
        * m.cos (2.0 * PI * (rnd.random_float (rnd.random_float g).2).1)
      + m.sin (2.0 * PI * (rnd.random_float (rnd.random_float g).2).1)
        * m.sin (2.0 * PI * (rnd.random_float (rnd.random_float g).2).1) = 1)
    (ha : a = m.sqrt (rnd.random_float g).1
      * m.cos (2.0 * PI * (rnd.random_float (rnd.random_float g).2).1))
    (hb : b = m.sqrt (rnd.random_float g).1
      * m.sin (2.0 * PI * (rnd.random_float (rnd.random_float g).2).1)) :
    a * a + b * b ≤ 1 ∧
    (cam.lens_radius = 0 →
      cam.lookfrom + vec3.smul cam.lens_radius
        (vec3.smul a (cam.initialise m).u + vec3.smul b (cam.initialise m).v)
        = cam.lookfrom) ∧
    ∃ hx hy jx jy : K,
      halton (K := K) fuel s 2 = some hx ∧ halton (K := K) fuel s 3 = some hy ∧
      jx = ((⌊hx * (cam.image_width : K)⌋ : Int) : K) / (cam.image_width : K) ∧
      jy = ((⌊hy * ((cam.initialise m).image_height : K)⌋ : Int) : K)
        / ((cam.initialise m).image_height : K) ∧
      (0 ≤ jx ∧ jx < 1) ∧ (0 ≤ jy ∧ jy < 1) ∧
      Camera.get_ray m rnd (cam.initialise m) fuel i j s g
        = some (⟨cam.lookfrom + vec3.smul cam.lens_radius
              (vec3.smul a (cam.initialise m).u + vec3.smul b (cam.initialise m).v),
            (cam.initialise m).pixel00_loc + vec3.smul (i : K) (cam.initialise m).pixel_delta_u
                + vec3.smul (j : K) (cam.initialise m).pixel_delta_v
              + (vec3.smul jx (cam.initialise m).pixel_delta_u
                + vec3.smul jy (cam.initialise m).pixel_delta_v)
              - (cam.lookfrom + vec3.smul cam.lens_radius
                (vec3.smul a (cam.initialise m).u + vec3.smul b (cam.initialise m).v))⟩,
          (rnd.random_float (rnd.random_float g).2).2) := by
  have hH := Camera.initialise_image_height_pos m cam hh
  obtain ⟨hx, hhx, hx0, hx1⟩ := halton_value (K := K) s 2 (le_refl 2) hs fuel hfuel
  obtain ⟨hy, hhy, hy0, hy1⟩ := halton_value (K := K) s 3 (by norm_num) hs fuel hfuel
  have hhx2 : halton (K := K) fuel s 2 = some hx := by exact_mod_cast hhx
  have hhy3 : halton (K := K) fuel s 3 = some hy := by exact_mod_cast hhy
  obtain ⟨hjx, hjx0, hjx1⟩ := jitter_range hx cam.image_width hx0 hx1 hw
  obtain ⟨hjy, hjy0, hjy1⟩ := jitter_range hy (cam.initialise m).image_height hy0 hy1 hH
  have horigin : cam.lookfrom
      + vec3.smul (m.sqrt (rnd.random_float g).1
        * m.cos (2.0 * PI * (rnd.random_float (rnd.random_float g).2).1))
        (vec3.smul cam.lens_radius (cam.initialise m).u)
      + vec3.smul (m.sqrt (rnd.random_float g).1
        * m.sin (2.0 * PI * (rnd.random_float (rnd.random_float g).2).1))
        (vec3.smul cam.lens_radius (cam.initialise m).v)
      = cam.lookfrom + vec3.smul cam.lens_radius
        (vec3.smul a (cam.initialise m).u + vec3.smul b (cam.initialise m).v) := by
    rw [ha, hb]
    apply vec3.ext3 <;>
      simp only [vec3.add_x, vec3.add_y, vec3.add_z, vec3.smul_x, vec3.smul_y, vec3.smul_z] <;>
      ring
  refine ⟨?_, ?_, hx, hy, _, _, hhx2, hhy3, rfl, rfl, ⟨hjx0, hjx1⟩, ⟨hjy0, hjy1⟩, ?_⟩
  · rw [ha, hb]
    have hr := hsqrt.2
    calc m.sqrt (rnd.random_float g).1
            * m.cos (2.0 * PI * (rnd.random_float (rnd.random_float g).2).1)
          * (m.sqrt (rnd.random_float g).1
            * m.cos (2.0 * PI * (rnd.random_float (rnd.random_float g).2).1))
          + m.sqrt (rnd.random_float g).1
            * m.sin (2.0 * PI * (rnd.random_float (rnd.random_float g).2).1)
          * (m.sqrt (rnd.random_float g).1
            * m.sin (2.0 * PI * (rnd.random_float (rnd.random_float g).2).1))
        = m.sqrt (rnd.random_float g).1 * m.sqrt (rnd.random_float g).1
          * (m.cos (2.0 * PI * (rnd.random_float (rnd.random_float g).2).1)
              * m.cos (2.0 * PI * (rnd.random_float (rnd.random_float g).2).1)
            + m.sin (2.0 * PI * (rnd.random_float (rnd.random_float g).2).1)
              * m.sin (2.0 * PI * (rnd.random_float (rnd.random_float g).2).1)) := by ring
      _ = (rnd.random_float g).1 := by rw [htrig, hr, mul_one]
      _ ≤ 1 := hdraw
  · intro h0
    rw [h0]
    apply vec3.ext3 <;>
      simp only [vec3.add_x, vec3.add_y, vec3.add_z, vec3.smul_x, vec3.smul_y, vec3.smul_z] <;>
      ring
  · have hm : (cam.initialise m).render_mode = "pathtracer" := hmode
    unfold Camera.get_ray Camera.halton2D Camera.uniformSamplingDefocus
    simp only [hm, if_true, hhx2, hhy3]
    have hwid : (cam.initialise m).image_width = cam.image_width := rfl
    have hori : (cam.initialise m).origin = cam.lookfrom := rfl
    have hdu : (cam.initialise m).defocus_disk_u
        = vec3.smul cam.lens_radius (cam.initialise m).u := rfl
    have hdv : (cam.initialise m).defocus_disk_v
        = vec3.smul cam.lens_radius (cam.initialise m).v := rfl
    rw [hwid, hori, hdu, hdv, hjx, hjy, horigin]

/-- C25 on the default camera in the render mode `pathtracer`, at pixel
`(0, 0)` and sample 5 with both lens draws 0: `get_ray` returns a ray, and its
origin is `lookfrom`, the lens radius being 0. -/
theorem Camera.get_ray_pathtracer_witness :
    tracerCamera.render_mode = "pathtracer" ∧ (0 : Int) < tracerCamera.image_width ∧
    ExactSqrt qmathTrig.sqrt (listRandom.random_float [0, 0]).1 ∧
    ∃ (ray : Ray ℚ) (g2 : List ℚ),
      Camera.get_ray qmathTrig listRandom (tracerCamera.initialise qmathTrig) 6 0 0 5 [0, 0]
        = some (ray, g2) ∧
      ray.origin = tracerCamera.lookfrom := by
  have hw : (0 : Int) < tracerCamera.image_width := by
    show (0 : Int) < 100
    norm_num
  have hsq : ExactSqrt qmathTrig.sqrt (listRandom.random_float [0, 0]).1 := by
    show ExactSqrt qsqrt 0
    exact ⟨by rw [qsqrt_zero], by rw [qsqrt_zero]; norm_num⟩
  have h := Camera.get_ray_pathtracer qmathTrig listRandom tracerCamera 6 0 0 5 [0, 0] 0 0
    rfl (by norm_num) (by norm_num) hw (le_refl 0)
    (by show (0 : ℚ) ≤ 1; norm_num) hsq
    (by show (1 : ℚ) * 1 + 0 * 0 = 1; norm_num)
    (by show (0 : ℚ) = qsqrt 0 * 1; rw [qsqrt_zero]; norm_num)
    (by show (0 : ℚ) = qsqrt 0 * 0; norm_num)
  obtain ⟨_, hlens, _, _, _, _, _, _, _, _, _, _, hray⟩ := h
  exact ⟨rfl, hw, hsq, _, _, hray, hlens rfl⟩

/-- C27 (counterexample): the cylinder around the y axis built with radius
`-1` and height `1` is hit by the ray from `(-5, 0, 0)` along `x` at
`(-1, 0, 0)`, while the corners its constructor passes to the bounding box
are `(1, -1, 1)` and `(-1, 1, -1)`: the hit point is not between them on the
`x` axis. -/
theorem Cylinder.hit_outside_corners :
    inwardCylinder.axis = ⟨0, 1, 0⟩ ∧
    (Cylinder.intersect qmath 0 inwardCylinder sideRay ⟨1 / 1000, ⊤⟩ rec0).1 = true ∧
    (Cylinder.intersect qmath 0 inwardCylinder sideRay ⟨1 / 1000, ⊤⟩ rec0).2.p = ⟨-1, 0, 0⟩ ∧
    Cylinder.extremes (⟨0, 0, 0⟩ : vec3 ℚ) ⟨0, 1, 0⟩ (-1) 1 = (⟨1, -1, 1⟩, ⟨-1, 1, -1⟩) ∧
    inwardCylinder.bbox
      = aabb.of_points (Cylinder.extremes (⟨0, 0, 0⟩ : vec3 ℚ) ⟨0, 1, 0⟩ (-1) 1).1
        (Cylinder.extremes (⟨0, 0, 0⟩ : vec3 ℚ) ⟨0, 1, 0⟩ (-1) 1).2 ∧
    ¬ vec3.between (Cylinder.extremes (⟨0, 0, 0⟩ : vec3 ℚ) ⟨0, 1, 0⟩ (-1) 1).1
      (Cylinder.extremes (⟨0, 0, 0⟩ : vec3 ℚ) ⟨0, 1, 0⟩ (-1) 1).2
      (Cylinder.intersect qmath 0 inwardCylinder sideRay ⟨1 / 1000, ⊤⟩ rec0).2.p := by
  have hext : Cylinder.extremes (⟨0, 0, 0⟩ : vec3 ℚ) ⟨0, 1, 0⟩ (-1) 1
      = (⟨1, -1, 1⟩, ⟨-1, 1, -1⟩) := by
    norm_num [Cylinder.extremes]
  refine ⟨rfl, Cylinder.intersect_inwardCylinder_sideRay.1,
    Cylinder.intersect_inwardCylinder_sideRay.2, hext,
    (bbox_of_corners qmath).2.1 _ _ _ _ _, ?_⟩
  rw [Cylinder.intersect_inwardCylinder_sideRay.2, hext]
  norm_num [vec3.between]

/-- C27 (amended): for a Sphere with radius `>= 0`, a Triangle, and a Cylinder
with radius `>= 0` and height `>= 0` whose axis is a unit basis vector, the
bounding box is built from the two corners of the constructor, and every hit
point `rec.p` that `intersect` reports is between these corners on each
coordinate axis.  The sphere is taken with a ray of non-zero direction, and
`sqrt` is exact at the discriminant of the sphere and of the cylinder. -/
theorem hit_point_between_corners (m : CMath K) (phi0 : K) (r : Ray K) (ray_t : interval K)
    (rec : HitRecord K) :
    (∀ (center : vec3 K) (radius : K) (mat : Material K) (rot : K),
      (Sphere.new center radius mat rot).bbox
        = aabb.of_points (Sphere.corners center radius).1 (Sphere.corners center radius).2 ∧
      (0 ≤ radius → r.direction ≠ ⟨0, 0, 0⟩ →
        (0 ≤ Sphere.discriminant (Sphere.new center radius mat rot) r →
          ExactSqrt m.sqrt (Sphere.discriminant (Sphere.new center radius mat rot) r)) →
        (Sphere.intersect m (Sphere.new center radius mat rot) r ray_t rec).1 = true →
        vec3.between (Sphere.corners center radius).1 (Sphere.corners center radius).2
          (Sphere.intersect m (Sphere.new center radius mat rot) r ray_t rec).2.p)) ∧
    (∀ (v1 v2 v3 : vec3 K) (mat : Material K),
      (Triangle.new m v1 v2 v3 mat).bbox
        = aabb.of_points
          (Triangle.extremes (Triangle.new m v1 v2 v3 mat).vertex1
            (Triangle.new m v1 v2 v3 mat).vertex2 (Triangle.new m v1 v2 v3 mat).vertex3).1
          (Triangle.extremes (Triangle.new m v1 v2 v3 mat).vertex1
            (Triangle.new m v1 v2 v3 mat).vertex2 (Triangle.new m v1 v2 v3 mat).vertex3).2 ∧
      ((Triangle.intersect m (Triangle.new m v1 v2 v3 mat) r ray_t rec).1 = true →
        vec3.between
          (Triangle.extremes (Triangle.new m v1 v2 v3 mat).vertex1
            (Triangle.new m v1 v2 v3 mat).vertex2 (Triangle.new m v1 v2 v3 mat).vertex3).1
          (Triangle.extremes (Triangle.new m v1 v2 v3 mat).vertex1
            (Triangle.new m v1 v2 v3 mat).vertex2 (Triangle.new m v1 v2 v3 mat).vertex3).2
          (Triangle.intersect m (Triangle.new m v1 v2 v3 mat) r ray_t rec).2.p)) ∧
    (∀ (center axis : vec3 K) (radius height : K) (mat : Material K),
      (Cylinder.new center axis radius height mat).bbox
        = aabb.of_points (Cylinder.extremes center axis radius height).1
          (Cylinder.extremes center axis radius height).2 ∧
      ((axis = ⟨1, 0, 0⟩ ∨ axis = ⟨0, 1, 0⟩ ∨ axis = ⟨0, 0, 1⟩) →
        0 ≤ radius → 0 ≤ height →
        (0 < Cylinder.discriminant (Cylinder.new center axis radius height mat) r →
          ExactSqrt m.sqrt
            (Cylinder.discriminant (Cylinder.new center axis radius height mat) r)) →
        (Cylinder.intersect m phi0 (Cylinder.new center axis radius height mat) r ray_t rec).1
          = true →
        vec3.between (Cylinder.extremes center axis radius height).1
          (Cylinder.extremes center axis radius height).2
          (Cylinder.intersect m phi0 (Cylinder.new center axis radius height mat)
            r ray_t rec).2.p)) := by
  refine ⟨fun center radius mat rot => ⟨(bbox_of_corners m).1 center radius mat rot, ?_⟩,
    fun v1 v2 v3 mat => ⟨(bbox_of_corners m).2.2 v1 v2 v3 mat, ?_⟩,
    fun center axis radius height mat =>
      ⟨(bbox_of_corners m).2.1 center axis radius height mat, ?_⟩⟩
  · intro hr hd hs h
    exact Sphere.hit_between_sphere m center radius mat rot r ray_t rec hr hd hs h
  · intro h
    exact Triangle.hit_between_triangle m (Triangle.new m v1 v2 v3 mat) r ray_t rec h
  · intro hax hr hh hs h
    exact Cylinder.hit_between_cylinder m phi0 (Cylinder.new center axis radius height mat) r ray_t rec
      hax hr hh hs h

/-- C27 (witness): the unit cylinder around the y axis and the ray from
`(-5, 0, 0)` along `x`. -/
theorem hit_point_between_corners_witness :
    (Cylinder.intersect qmath 0 (Cylinder.new ⟨0, 0, 0⟩ ⟨0, 1, 0⟩ 1 1 grey) sideRay
      ⟨1 / 1000, ⊤⟩ rec0).1 = true ∧
    vec3.between (Cylinder.extremes (⟨0, 0, 0⟩ : vec3 ℚ) ⟨0, 1, 0⟩ 1 1).1
      (Cylinder.extremes (⟨0, 0, 0⟩ : vec3 ℚ) ⟨0, 1, 0⟩ 1 1).2
      (Cylinder.intersect qmath 0 (Cylinder.new ⟨0, 0, 0⟩ ⟨0, 1, 0⟩ 1 1 grey) sideRay
        ⟨1 / 1000, ⊤⟩ rec0).2.p :=
  ⟨Cylinder.intersect_unitCylinder_sideRay.1,
    ((hit_point_between_corners qmath 0 sideRay ⟨1 / 1000, ⊤⟩ rec0).2.2
      ⟨0, 0, 0⟩ ⟨0, 1, 0⟩ 1 1 grey).2 (Or.inr (Or.inl rfl)) (by norm_num) (by norm_num)
      (fun _ => by
        have h4 : Cylinder.discriminant (Cylinder.new ⟨0, 0, 0⟩ ⟨0, 1, 0⟩ 1 1 grey) sideRay
            = 2 * 2 := by
          rw [show Cylinder.new (⟨0, 0, 0⟩ : vec3 ℚ) ⟨0, 1, 0⟩ 1 1 grey = unitCylinder from rfl,
            Cylinder.intersect_unitCylinder_sideRay.2]
          norm_num
        rw [h4]
        exact qsqrt_exact 2 (by norm_num))
      Cylinder.intersect_unitCylinder_sideRay.1⟩

end Claims

end Pathtracer
